import Mathlib

/-!
# GDML front end: scoped identifier resolution, diagnostics log, exported types

A shallow embedding of `src/lang/State.cpp` (with the declarations of
`include/lang/Type.hpp`), of `src/compiler/Compiler.cpp` and of the `compile` members of
`src/parser/AST.cpp`, and the properties proved about them.

Conventions of the embedding:

* `Vec<T>` is a `List T` in index order; `push_back` appends at the end and
  `back()` is the last element, so the innermost scope is the last one.
* `Map<K, V>` (a hash table) is a list of key/entry pairs with distinct keys, in one
  order of iteration; the sources do not fix that order, and lookups do not depend
  on it.
* `size_t` is a natural number below `2 ^ 64`, arithmetic is taken modulo `2 ^ 64`.
* `Result<T>` is `Except String T`, `Option<T>` is `Option T`.
* `Type::getName` and `FullIdentPath::resolve` are declared in `Type.hpp` but their
  bodies are not among the sources: every function that calls them takes them as
  the parameters `gn` and `fr`, and the theorems hold for all such functions.
-/

namespace gdml

/-! ## Identifier paths (`Type.hpp`) -/

abbrev Ident := String

/-- An identifier as written: `struct IdentPath` of `Type.hpp`. -/
structure IdentPath where
  name : Ident
  path : List Ident
  absolute : Bool
deriving DecidableEq, Repr

/-- A root-anchored sequence of segments: `struct FullIdentPath` of `Type.hpp`. -/
structure FullIdentPath where
  path : List Ident
deriving DecidableEq, Repr

/-- Modelled from the spec: the constructor `IdentPath(Ident const&)`, whose body is
not among the sources; it sets the final name, and the header gives the defaults
(no preceding segments, `absolute = false`). -/
def IdentPath.ofIdent (name : Ident) : IdentPath :=
  { name := name, path := [], absolute := false }

/-- Modelled from the spec: `IdentPath::isSingle`, whose body is not among the sources;
the spec calls such a path "a single unqualified segment": no preceding segments
and not absolute. -/
def IdentPath.isSingle (p : IdentPath) : Bool :=
  p.path.isEmpty && !p.absolute

/-- Modelled from the spec: `IdentPath::getComponents`, whose body is not among the
sources; the preceding segments followed by the final name. -/
def IdentPath.getComponents (p : IdentPath) : List Ident :=
  p.path ++ [p.name]

/-- Modelled from the spec: the constructor `FullIdentPath(IdentPath const&)`, whose body
is not among the sources; the written segments become a root-level path. -/
def FullIdentPath.ofIdentPath (p : IdentPath) : FullIdentPath :=
  ⟨p.getComponents⟩

/-- Modelled from the spec: `FullIdentPath::join`, whose body is not among the sources;
"`join(segment)` appends one segment". -/
def FullIdentPath.join (base : FullIdentPath) (component : Ident) : FullIdentPath :=
  ⟨base.path ++ [component]⟩

/-- The signature of `FullIdentPath::resolve(IdentPath const&, bool existing) const`. -/
abbrev PathResolver := FullIdentPath → IdentPath → Bool → Option FullIdentPath

/-- Modelled from the spec: `FullIdentPath::resolve`, whose body is not among the sources;
"the FullIdentPath obtained by textually appending a relative path"; an absolute
path is already root-anchored. The spec does not say when the result is absent, so
the functions below take `FullIdentPath::resolve` as the parameter `fr`, and this
model only instantiates it. -/
def FullIdentPath.resolve : PathResolver := fun base path _existing =>
  if path.absolute then some (FullIdentPath.ofIdentPath path)
  else some ⟨base.path ++ path.getComponents⟩

/-! ## Types (`Type.hpp`) -/

mutual
/-- The alternatives of `Type::kind` in `Type.hpp`; the back-reference `decl` to the
declaring expression is used for diagnostics only and is left out. -/
inductive Ty where
  | unk
  | void
  | bool
  | int
  | float
  | str
  | fn (f : FunType)
  | struct (s : StructType)
  | node (n : NodeType)
  | enum (e : EnumType)
  | ref (inner : Ty)
  | aliasType (aliasName : IdentPath) (type : Ty)
/-- The `struct ParamType` of `Type.hpp`. -/
inductive ParamType where
  | mk (name : Ident) (type : Ty)
/-- The `struct FunType` of `Type.hpp`. -/
inductive FunType where
  | mk (name : Option IdentPath) (params : List ParamType) (retType : Option Ty) (isExtern : Bool)
/-- The `struct PropType` of `Type.hpp`. -/
inductive PropType where
  | mk (type : Ty) (dependencies : List Ident) (required : Bool)
/-- The `struct StructType` of `Type.hpp`. -/
inductive StructType where
  | mk (name : Option IdentPath) (members : List (Ident × PropType)) (isExtern : Bool)
/-- The `struct NodeType` of `Type.hpp`. -/
inductive NodeType where
  | mk (name : IdentPath) (props : List (Ident × PropType))
/-- The `struct EnumType` of `Type.hpp`. -/
inductive EnumType where
  | mk (name : Option IdentPath) (variants : List (Ident × Ty)) (isExtern : Bool)
end

/-- The `enum class Primitive` of `Type.hpp`. -/
inductive Primitive where
  | Unk | Void | Bool | Int | Float | Str
deriving DecidableEq, Repr

/-- Modelled from the spec: the constructor `Type(Primitive, loc)`, whose body is not
among the sources; each primitive tag selects the alternative of the same name. -/
def Ty.ofPrimitive : Primitive → Ty
  | .Unk => .unk
  | .Void => .void
  | .Bool => .bool
  | .Int => .int
  | .Float => .float
  | .Str => .str

/-- The signature of `Type::getName() const`. -/
abbrev NameOf := Ty → Option IdentPath

/-- Modelled from the spec: `Type::getName`, whose body is not among the sources; the
aggregate, function, enum and alias types carry their (optional) name, a reference
has none of its own, and the built-in primitives are named so that the root scope
can be seeded with them. The spellings of the primitive names are not fixed by the
spec, so the functions below take `Type::getName` as the parameter `gn`, and this
model only instantiates it. -/
def Ty.getName : NameOf
  | .unk => none
  | .void => some (IdentPath.ofIdent "void")
  | .bool => some (IdentPath.ofIdent "bool")
  | .int => some (IdentPath.ofIdent "int")
  | .float => some (IdentPath.ofIdent "float")
  | .str => some (IdentPath.ofIdent "string")
  | .fn (.mk name _ _ _) => name
  | .struct (.mk name _ _) => name
  | .node (.mk name _) => some name
  | .enum (.mk name _ _) => name
  | .ref _ => none
  | .aliasType aliasName _ => some aliasName

/-! ## Hash tables -/

/-- A `Map<K, V>`: the key/entry pairs, keys distinct. `Map` is declared in a header that is
not among the sources; it is a hash table, whose iteration order is not the order of
insertion and is not fixed by the sources. The list holds the pairs in one order of
iteration; `contains` and `at` do not depend on it (`contains_perm`, `at_perm`), and
what is proved about a loop over a table is proved for every order of the pairs. -/
abbrev Map (κ : Type) (ν : Type) := List (κ × ν)

/-- The member `contains(key)`. -/
def Map.contains {κ ν : Type} [DecidableEq κ] (m : Map κ ν) (k : κ) : Bool :=
  m.any (fun e => decide (e.1 = k))

/-- The member `insert(pair)`: nothing happens when the key is already present. Where the
new pair comes in the iteration order is not fixed by the sources; it is put last
here, and nothing below depends on the place. -/
def Map.insert {κ ν : Type} [DecidableEq κ] (m : Map κ ν) (k : κ) (v : ν) : Map κ ν :=
  if m.contains k then m else m ++ [(k, v)]

/-- The member `at(key)`, read only after `contains(key)`. -/
def Map.at? {κ ν : Type} [DecidableEq κ] (m : Map κ ν) (k : κ) : Option ν :=
  (m.find? (fun e => decide (e.1 = k))).map Prod.snd

/-! ## Entities and scopes (`State.cpp`) -/

/-- Modelled from the spec: `struct Var` (declared in `State.hpp`, not among the sources);
only the field read by `State.cpp` is kept. -/
structure Var where
  name : IdentPath
deriving DecidableEq, Repr

/-- Modelled from the spec: `struct Fun` (declared in `State.hpp`, not among the sources);
only the field read by `State.cpp` is kept. -/
structure Fun where
  name : IdentPath
deriving DecidableEq, Repr

/-- Modelled from the spec: `struct Namespace` (declared in `State.hpp`, not among the
sources); only the field read by `State.cpp` is kept. -/
structure Namespace where
  name : IdentPath
deriving DecidableEq, Repr

/-- Modelled from the spec: `Entity`, "a tagged union of {Type, Var, Fun, Namespace}"
(declared in `State.hpp`, not among the sources). -/
inductive Entity where
  | type (t : Ty)
  | var (v : Var)
  | fn (f : Fun)
  | ns (n : Namespace)

/-- The test `std::holds_alternative<Namespace>(entity) || std::holds_alternative<Fun>(entity)`. -/
def Entity.isNamespaceOrFun : Entity → Bool
  | .ns _ => true
  | .fn _ => true
  | _ => false

/-- The data members of `class Scope` used by `State.cpp`. -/
structure Scope where
  m_name : Option FullIdentPath
  m_function : Bool
  m_entities : Map FullIdentPath Entity

/-! ## The diagnostics log of `Parser` -/

/-- Modelled from the spec: the diagnostic levels "{Info, Warning, Error}" (declared in
a header that is not among the sources). -/
inductive Level where
  | Info | Warning | Error
deriving DecidableEq, Repr

/-- Modelled from the spec: a source range, "start/end line+column" (declared in a header
that is not among the sources). -/
structure Range where
  startLine : Nat
  startColumn : Nat
  endLine : Nat
  endColumn : Nat
deriving DecidableEq, Repr

/-- Modelled from the spec: `struct Message`, with the fields that `State.cpp` initialises:
level, source (by name, absent for `nullptr`), text and range. -/
structure Message where
  level : Level
  src : Option String
  info : String
  range : Range
deriving DecidableEq, Repr

/-- The bound of `size_t`. -/
def SIZE_MOD : Nat := 2 ^ 64

/-- The data members of `class Parser` that hold the log. -/
structure Parser where
  m_messages : List (Nat × Message)
  m_rollbackLevel : Nat

/-- The member `Parser::log`. -/
def Parser.log (p : Parser) (message : Message) (level : Nat) : Parser :=
  { p with m_messages := p.m_messages ++ [(level, message)] }

/-- The member `Parser::pushLogLevel`: `return m_rollbackLevel++`. -/
def Parser.pushLogLevel (p : Parser) : Nat × Parser :=
  (p.m_rollbackLevel, { p with m_rollbackLevel := (p.m_rollbackLevel + 1) % SIZE_MOD })

/-- The member `Parser::popLogLevel`: `m_rollbackLevel -= 1`. -/
def Parser.popLogLevel (p : Parser) : Parser :=
  { p with m_rollbackLevel := (p.m_rollbackLevel + (SIZE_MOD - 1)) % SIZE_MOD }

/-- The utility `ranges::remove(container, predicate)` of the Geode SDK, which `State.cpp`
reaches through `using namespace geode::prelude`: it erases every element for which
the predicate holds and keeps the others in order. -/
def ranges.remove {α : Type} (container : List α) (pred : α → Bool) : List α :=
  container.filter (fun x => !pred x)

/-- The member `Parser::popMessages`. -/
def Parser.popMessages (p : Parser) (level : Nat) : Parser :=
  { p with m_messages := ranges.remove p.m_messages (fun pair => decide (pair.1 ≥ level)) }

/-! ## `UnitParser` -/

/-- The data members of `class UnitParser` used by `State.cpp`: the shared `Parser` that
`getShared()` returns (a reference member in the source, threaded through here as
`m_shared`), the source (by name) and the scope stack. -/
structure UnitParser where
  m_shared : Parser
  m_src : Option String
  m_scopes : List Scope

/-- The first loop of `UnitParser::resolve`, over the scopes innermost first. -/
def resolveDecl (name : IdentPath) : List Scope → FullIdentPath
  | [] => FullIdentPath.ofIdentPath name
  | scope :: rest =>
    match scope.m_name with
    | some n => n.join name.name
    | none => resolveDecl name rest

/-- The text of `Err("Cannot add sub-entities to a non-namespace or function")`. -/
def errSubEntities : String := "Cannot add sub-entities to a non-namespace or function"

/-- The text of `Err("Unknown namespace \"{}\"", fmt::join(name.path, "::"))`. -/
def errUnknownNamespace (name : IdentPath) : String :=
  "Unknown namespace \"" ++ "::".intercalate name.path ++ "\""

/-- The inner loop of `UnitParser::resolve` over the entities of one scope: `none` when
the loop ends without returning. -/
def resolveEntities (fr : PathResolver) (name : IdentPath) (existing : Bool) :
    List (FullIdentPath × Entity) → Option (Except String FullIdentPath)
  | [] => none
  | (path, entity) :: rest =>
    match fr path name existing with
    | some resolved =>
      if entity.isNamespaceOrFun then some (.ok resolved)
      else some (.error errSubEntities)
    | none => resolveEntities fr name existing rest

/-- The second loop of `UnitParser::resolve`, over the scopes innermost first. -/
def resolveScopes (fr : PathResolver) (name : IdentPath) (existing : Bool) :
    List Scope → Except String FullIdentPath
  | [] => .error (errUnknownNamespace name)
  | scope :: rest =>
    match scope.m_name.bind (fun n => fr n name existing) with
    | some resolved => .ok resolved
    | none =>
      match resolveEntities fr name existing scope.m_entities with
      | some result => result
      | none => resolveScopes fr name existing rest

/-- The member `UnitParser::resolve`. -/
def UnitParser.resolve (fr : PathResolver) (u : UnitParser) (name : IdentPath)
    (existing : Bool) : Except String FullIdentPath :=
  if name.isSingle && !existing then
    .ok (resolveDecl name u.m_scopes.reverse)
  else
    resolveScopes fr name existing u.m_scopes.reverse

/-- The constructor `Scope::Scope(name, function, parser)`. -/
def Scope.new (fr : PathResolver) (name : Option IdentPath) (function : Bool)
    (parser : UnitParser) : Scope :=
  { m_name := match name with
      | some n => (parser.resolve fr n false).toOption
      | none => none
    m_function := function
    m_entities := [] }

/-- The shared body of the four overloads of `Scope::push`, once the name of the pushed
entity is known: the name is resolved as a declaration by the owning `UnitParser`, and
on success `m_entities.insert({ path, entity })` runs. -/
def Scope.pushNamed (fr : PathResolver) (parser : UnitParser) (s : Scope)
    (name : IdentPath) (entity : Entity) : Scope :=
  match parser.resolve fr name false with
  | .ok path => { s with m_entities := Map.insert s.m_entities path entity }
  | .error _ => s

/-- The overload `Scope::push(Type const&)`. -/
def Scope.pushType (gn : NameOf) (fr : PathResolver) (parser : UnitParser) (s : Scope)
    (type : Ty) : Scope :=
  match gn type with
  | some name => s.pushNamed fr parser name (.type type)
  | none => s

/-- The overload `Scope::push(Var const&)`. -/
def Scope.pushVar (fr : PathResolver) (parser : UnitParser) (s : Scope) (var : Var) : Scope :=
  s.pushNamed fr parser var.name (.var var)

/-- The overload `Scope::push(Fun const&)`. -/
def Scope.pushFun (fr : PathResolver) (parser : UnitParser) (s : Scope) (f : Fun) : Scope :=
  s.pushNamed fr parser f.name (.fn f)

/-- The overload `Scope::push(Namespace const&)`. -/
def Scope.pushNamespace (fr : PathResolver) (parser : UnitParser) (s : Scope)
    (ns : Namespace) : Scope :=
  s.pushNamed fr parser ns.name (.ns ns)

/-- An update of `m_scopes.back()` in place; `back()` of an empty vector is undefined in
the source, here the stack is then left as it is. -/
def UnitParser.modifyBack (u : UnitParser) (f : Scope → Scope) : UnitParser :=
  match u.m_scopes.getLast? with
  | some top => { u with m_scopes := u.m_scopes.dropLast ++ [f top] }
  | none => u

/-- The member `UnitParser::pushType`. -/
def UnitParser.pushType (gn : NameOf) (fr : PathResolver) (u : UnitParser) (type : Ty) :
    UnitParser :=
  u.modifyBack (fun s => s.pushType gn fr u type)

/-- The member `UnitParser::pushVar`. -/
def UnitParser.pushVar (fr : PathResolver) (u : UnitParser) (var : Var) : UnitParser :=
  u.modifyBack (fun s => s.pushVar fr u var)

/-- The constructor `UnitParser::UnitParser(parser, src)`: one unnamed root scope, seeded
with the five primitive types. -/
def UnitParser.new (gn : NameOf) (fr : PathResolver) (parser : Parser) (src : Option String) :
    UnitParser :=
  let u0 : UnitParser := { m_shared := parser, m_src := src, m_scopes := [] }
  let u1 : UnitParser := { u0 with m_scopes := [Scope.new fr none false u0] }
  [Primitive.Void, Primitive.Bool, Primitive.Int, Primitive.Float, Primitive.Str].foldl
    (fun u prim => u.pushType gn fr (Ty.ofPrimitive prim)) u1

/-- The member `UnitParser::pushScope`. -/
def UnitParser.pushScope (fr : PathResolver) (u : UnitParser) (name : Option IdentPath)
    (function : Bool) : UnitParser :=
  { u with m_scopes := u.m_scopes ++ [Scope.new fr name function u] }

/-- The member `UnitParser::popScope`: the top scope is removed, and an exception is
thrown when that leaves the stack empty. -/
def UnitParser.popScope (u : UnitParser) (loc : String) : Except String UnitParser :=
  let scopes := u.m_scopes.dropLast
  if scopes.isEmpty then
    .error ("Scope stack is empty (tried to pop from " ++ loc ++ ")")
  else
    .ok { u with m_scopes := scopes }

/-- The member `UnitParser::isRootScope`. -/
def UnitParser.isRootScope (u : UnitParser) : Bool :=
  u.m_scopes.length == 1

/-- Modelled from the spec: `IdentPath::toString`, whose body is not among the sources;
the segments separated by `::`, with a leading `::` on an absolute path. It only
feeds the text of a diagnostic. -/
def IdentPath.toString (p : IdentPath) : String :=
  (if p.absolute then "::" else "") ++ "::".intercalate p.getComponents

/-- Modelled from the spec: `UnitParser::error` (declared in `State.hpp`, not among the
sources); it records one `Error` diagnostic for the range in the shared parser log,
here at the current rollback level. -/
def UnitParser.error (u : UnitParser) (range : Range) (info : String) : UnitParser :=
  let message : Message := ⟨.Error, u.m_src, info, range⟩
  { u with m_shared := u.m_shared.log message u.m_shared.m_rollbackLevel }

/-- The fields of `IdentExpr` that `UnitParser::verifyCanPush` reads. -/
structure IdentExpr where
  path : IdentPath
  range : Range

/-- The member `UnitParser::verifyCanPush`; `none` stands for the undefined `back()` of an
empty scope stack. -/
def UnitParser.verifyCanPush (fr : PathResolver) (u : UnitParser) (name : IdentExpr) :
    Option (Bool × UnitParser) :=
  match u.resolve fr name.path false with
  | .error e => some (false, u.error name.range e)
  | .ok path =>
    match u.m_scopes.getLast? with
    | none => none
    | some top =>
      if top.m_entities.contains path then
        some (false, u.error name.range
          ("Type or variable \"" ++ name.path.toString ++ "\" already exists in this scope"))
      else
        some (true, u)

/-! ## `ParsedSrc` -/

/-- The exported-type table of `class ParsedSrc`. -/
structure ParsedSrc where
  m_exportedTypes : Map FullIdentPath Ty

/-- The member `ParsedSrc::addExportedType`. -/
def ParsedSrc.addExportedType (gn : NameOf) (fr : PathResolver) (p : ParsedSrc)
    (state : UnitParser) (type : Ty) : Bool × ParsedSrc :=
  match gn type with
  | none => (false, p)
  | some name =>
    match state.resolve fr name false with
    | .error _ => (false, p)
    | .ok path =>
      if !p.m_exportedTypes.contains path then
        (false, p)
      else
        (true, { p with m_exportedTypes := Map.insert p.m_exportedTypes path type })

/-- The member `ParsedSrc::getExportedType`. -/
def ParsedSrc.getExportedType (p : ParsedSrc) (name : FullIdentPath) : Option Ty :=
  if p.m_exportedTypes.contains name then p.m_exportedTypes.at? name else none

/-- The member `ParsedSrc::getExportedTypes`. -/
def ParsedSrc.getExportedTypes (p : ParsedSrc) : List Ty :=
  p.m_exportedTypes.map Prod.snd

/-! ## Scenarios and predicates used in the statements -/

/-- The enclosing namespace seen by a declaration: the bound name of the first named
scope of a stack listed innermost first, the root path when there is none. -/
def declBase : List Scope → FullIdentPath
  | [] => ⟨[]⟩
  | scope :: rest =>
    match scope.m_name with
    | some n => n
    | none => declBase rest

/-- A run of `pushScope` calls with single-segment names, outermost first. -/
def pushScopes (fr : PathResolver) (u : UnitParser) (names : List (Ident × Bool)) :
    UnitParser :=
  names.foldl (fun v n => v.pushScope fr (some (IdentPath.ofIdent n.1)) n.2) u

/-- The shape of a root scope: unnamed, and holding only `Type` entities. -/
def Scope.isTypeRoot (s : Scope) : Prop :=
  s.m_name = none ∧ ∀ e ∈ s.m_entities, ∃ t, e.2 = Entity.type t

/-- A scope produces no match for a path: neither its bound name nor the path of any
entity registered in it resolves the path. -/
def Scope.noMatch (fr : PathResolver) (name : IdentPath) (existing : Bool) (s : Scope) : Prop :=
  (∀ n, s.m_name = some n → fr n name existing = none) ∧
  ∀ e ∈ s.m_entities, fr e.1 name existing = none

/-- The state in which `x` has been declared as a variable inside the nested named
scopes `a` then `b`, starting from a freshly constructed `UnitParser`. -/
def declaredInside (gn : NameOf) (fr : PathResolver) (parser : Parser) (src : Option String)
    (a b x : Ident) (fa fb : Bool) : UnitParser :=
  (((UnitParser.new gn fr parser src).pushScope fr (some (IdentPath.ofIdent a)) fa).pushScope
    fr (some (IdentPath.ofIdent b)) fb).pushVar fr ⟨IdentPath.ofIdent x⟩

/-- A run of `Parser::log` calls, each message with the level it is recorded at. -/
def Parser.logAll (p : Parser) (attempt : List (Message × Nat)) : Parser :=
  attempt.foldl (fun q e => q.log e.1 e.2) p

/-- A run of `k` successive `Parser::pushLogLevel` calls: the tokens returned, in call
order, and the final state. -/
def Parser.pushLogLevels : Nat → Parser → List Nat × Parser
  | 0, p => ([], p)
  | k + 1, p =>
    let r := Parser.pushLogLevels k p.pushLogLevel.2
    (p.pushLogLevel.1 :: r.1, r.2)

/-! ## `Parser::compile` -/

/-- The members of `class Parser` read and written by `Parser::compile`, next to the log:
the root source (by name, absent for a null `Rc<Src>`) and the parsed unit. -/
structure ParserState extends Parser where
  m_root : Option String
  m_parsed : Option ParsedSrc

/-- What the call `UnitParser::parse(*this, m_root)` in the `try` block of `Parser::compile`
does: it returns the parsed unit, or it raises a `std::exception` with the text
`what()`; in both cases the shared parser is left in some state. -/
inductive ParseOutcome where
  | returned (shared : Parser) (parsed : ParsedSrc)
  | raised (shared : Parser) (what : String)

/-- The member `Parser::compile`. `parse` stands for `UnitParser::parse`, whose callees
(`Src::read`, `AST::pull`, `AST::typecheck`) are not among the sources; `rootRange` for
`Range(m_root->getLocation(0))`; `defaultLevel` for the default argument of
`Parser::log`, declared in `State.hpp`. The result is `Except.error` when an exception
leaves the function. -/
def ParserState.compile (parse : Parser → String → ParseOutcome) (rootRange : String → Range)
    (defaultLevel : Nat) (p : ParserState) : Except String ParserState :=
  match p.m_root with
  | none => .ok p
  | some root =>
    match parse p.toParser root with
    | .returned shared parsed => .ok { toParser := shared, m_root := p.m_root, m_parsed := some parsed }
    | .raised shared what =>
      let message : Message :=
        ⟨.Error, some root, "Internal Compiler Error: " ++ what, rootRange root⟩
      .ok { toParser := shared.log message defaultLevel, m_root := p.m_root,
            m_parsed := p.m_parsed }

/-! ## The compiler state of `compiler/Compiler.cpp`

The statement-oriented pipeline (`src/compiler/Compiler.cpp`, `src/parser/AST.cpp`) has
its own `Scope` and type objects; they live in the namespaces `compiler` and `ast`.
`compiler/Type.hpp`, `compiler/Instance.hpp`, `compiler/GDML.hpp`, `parser/AST.hpp`,
`utils/Macros.hpp` and `Error.hpp` are not among the sources. The debug output of
`DEBUG_LOG_TYPE()` is not part of the state. -/

namespace compiler

/-- The `enum class DataType` of `utils/Types.hpp`. -/
inductive DataType where
  | Void | I8 | I16 | I32 | I64 | U8 | U16 | U32 | U64 | F32 | F64 | Bool | Char | String
  | Array | Class
deriving DecidableEq, Repr

/-- The `struct TypeQualifiers` of `utils/Types.hpp`. -/
structure TypeQualifiers where
  isConst : Bool
deriving DecidableEq, Repr

mutual
/-- Modelled from the spec: the type objects of `compiler/Type.hpp` as `AST.cpp` reads them:
a `FunctionType`, whose `getType()` is `DataType::Function` and which has a return type
and an ordered parameter list, or any other type, whose `getType()` is some other tag. -/
inductive TypeObj where
  | function (returnType : QualifiedType) (parameters : List QualifiedType)
  | other (dataType : DataType)
/-- Modelled from the spec: `QualifiedType`, a possibly null `std::shared_ptr<Type>` with
its qualifiers. -/
inductive QualifiedType where
  | mk (type : Option TypeObj) (qualifiers : TypeQualifiers)
end

/-- The member `QualifiedType::type`. -/
def QualifiedType.type : QualifiedType → Option TypeObj
  | .mk type _ => type

/-- The member `QualifiedType::qualifiers`. -/
def QualifiedType.qualifiers : QualifiedType → TypeQualifiers
  | .mk _ qualifiers => qualifiers

/-- Modelled from the spec: a default-constructed `QualifiedType`, the `evalType` of a node
whose `compile` assigns none: no type object, not const. -/
def QualifiedType.empty : QualifiedType :=
  .mk none ⟨false⟩

/-- Modelled from the spec: the codes of `enum class Error` (`Error.hpp`) that the sources
name or that the error macros produce. -/
inductive Error where
  | OK | TypeError | CompileError | InternalError
deriving DecidableEq, Repr

/-- The `struct Position` of `utils/Types.hpp`. -/
structure Position where
  line : Nat
  column : Nat
deriving DecidableEq, Repr

/-- The `struct LineError` of `utils/Types.hpp`; the source file is kept by its path. -/
structure LineError where
  code : Error
  message : String
  hint : String
  note : String
  start : Position
  stop : Position
  source : String
deriving DecidableEq, Repr

/-- Modelled from the spec: `NamedEntity`, built in `AST.cpp` as
`NamedEntity(evalType, nullptr, this)`: the type, the value (absent for `nullptr`) and
the declaring node (by an identifier). -/
structure NamedEntity where
  type : QualifiedType
  value : Option Nat
  declaration : Nat

/-- The data members of `Scope` in `Compiler.cpp`; a `std::shared_ptr<Type>` is an optional
type object, and the member `variables` is written `variables_`. -/
structure Scope where
  types : List (Option TypeObj)
  namedTypes : Map String (Option TypeObj)
  variables_ : Map String NamedEntity

/-- The data members of `Compiler` used by `Compiler.cpp`: the namespace stack and the
scope stack. -/
structure Compiler where
  m_namespace : List String
  m_scope : List Scope

/-- Modelled from the spec: the `Instance` that `AST.cpp` passes around: its compiler, the
errors recorded through `getShared().logError`, and the path of its source. -/
structure Instance where
  m_compiler : Compiler
  m_logged : List LineError
  m_source : String

/-- The constructor `Scope::Scope(compiler)`. -/
def Scope.new : Scope :=
  { types := [], namedTypes := [], variables_ := [] }

/-- The member `Compiler::getNameSpace`. -/
def Compiler.getNameSpace (c : Compiler) : String :=
  c.m_namespace.foldl (fun res ns => res ++ (ns ++ "::")) ""

/-- The member `Scope::pushType`. -/
def Scope.pushType (s : Scope) (type : Option TypeObj) : Scope :=
  { s with types := s.types ++ [type] }

/-- The member `Scope::pushNamedType`; the compiler is the one the scope refers to. -/
def Scope.pushNamedType (c : Compiler) (s : Scope) (name : String) (type : Option TypeObj) :
    Scope :=
  { s with namedTypes := Map.insert s.namedTypes (c.getNameSpace ++ name) type }

/-- The member `Scope::pushVariable`: the new table and the entry that the returned
pointer designates. -/
def Scope.pushVariable (c : Compiler) (s : Scope) (name : String) (var : NamedEntity) :
    Scope × Option NamedEntity :=
  let fullName := c.getNameSpace ++ name
  let table := Map.insert s.variables_ fullName var
  ({ s with variables_ := table }, Map.at? table fullName)

/-- The member `Scope::hasVariable`. -/
def Scope.hasVariable (s : Scope) (name : String) : Bool :=
  Map.contains s.variables_ name

/-- The member `Compiler::pushScope`. -/
def Compiler.pushScope (c : Compiler) : Compiler :=
  { c with m_scope := c.m_scope ++ [Scope.new] }

/-- The member `Compiler::popScope`. -/
def Compiler.popScope (c : Compiler) : Compiler :=
  { c with m_scope := c.m_scope.dropLast }

/-- The member `Compiler::getScope`: `m_scope.back()`, undefined (`none`) on an empty
stack. -/
def Compiler.getScope (c : Compiler) : Option Scope :=
  c.m_scope.getLast?

/-- The loop of `Compiler::getVariable` over the scopes, innermost first. -/
def Compiler.findVariable (fullName : String) : List Scope → Option NamedEntity
  | [] => none
  | scope :: rest =>
    if Map.contains scope.variables_ fullName then Map.at? scope.variables_ fullName
    else Compiler.findVariable fullName rest

/-- The member `Compiler::getVariable`; `none` is the null pointer. -/
def Compiler.getVariable (c : Compiler) (name : String) : Option NamedEntity :=
  Compiler.findVariable (c.getNameSpace ++ name) c.m_scope.reverse

/-- Modelled from the spec: `GDML::logError`, reached as `getShared().logError(err)`: the
error is recorded after those recorded before. -/
def Instance.logError (inst : Instance) (err : LineError) : Instance :=
  { inst with m_logged := inst.m_logged ++ [err] }

end compiler

/-! ## The nodes of `parser/AST.cpp` -/

namespace ast

open compiler

/-- How a call of a `noexcept` `compile` ends: `Ok()` with the `evalType` the node then
holds, an error result, `std::terminate` because an exception tried to leave the
function, or undefined behaviour (a null pointer or `back()` of an empty vector is
used). The instance is the state at the return. -/
inductive Outcome (α : Type) where
  | ok (value : α) (inst : Instance)
  | err (error : LineError) (inst : Instance)
  | terminate
  | undefined

/-- Sequencing: the continuation runs after an `Ok()`, everything else ends the call. -/
def Outcome.bind {α β : Type} (o : Outcome α) (k : α → Instance → Outcome β) : Outcome β :=
  match o with
  | .ok value inst => k value inst
  | .err error inst => .err error inst
  | .terminate => .terminate
  | .undefined => .undefined

/-- A child node as its parent uses it: its `compile` (giving, on success, the `evalType`
that the parent then reads from the child) and its source positions. -/
structure Node where
  compile : Instance → Outcome QualifiedType
  start : Position
  stop : Position

/-- The token type of an operator (an enumeration of a header that is not among the
sources). -/
abbrev TokenType := Nat

/-- The functions of headers that are not among the sources and that `AST.cpp` calls:
`QualifiedType::convertibleTo`, `QualifiedType::toString`, `isLValueOperator` and
`TOKEN_STR_V`. Every `compile` below takes them as a parameter. -/
structure TypeApi where
  convertibleTo : QualifiedType → QualifiedType → Bool
  toString : QualifiedType → String
  isLValueOperator : TokenType → Bool
  tokenStr : TokenType → String

/-- Modelled from the spec: the macro `THROW_TYPE_ERR_AT` of `utils/Macros.hpp`: the function
returns a type error for the given positions. -/
def typeErrorAt (inst : Instance) (message hint note : String) (start stop : Position) :
    LineError :=
  ⟨Error.TypeError, message, hint, note, start, stop, inst.m_source⟩

/-- Modelled from the spec: the macro `THROW_COMPILE_ERR` of `utils/Macros.hpp`: the function
returns a compile error for the positions of the node. -/
def compileErrorAt (inst : Instance) (message hint note : String) (start stop : Position) :
    LineError :=
  ⟨Error.CompileError, message, hint, note, start, stop, inst.m_source⟩

/-- Modelled from the spec: the macro `GDML_TYPECHECK_CHILD` of `utils/Macros.hpp`: the child
is compiled first, and its error, if any, is returned at once ("either returns the
node's resulting Type or a typed error"). -/
def typecheckChild {α : Type} (child : Node) (inst : Instance)
    (k : QualifiedType → Instance → Outcome α) : Outcome α :=
  (child.compile inst).bind k

/-- Modelled from the spec: the macro `GDML_TYPECHECK_CHILD_O` of `utils/Macros.hpp`: as
`GDML_TYPECHECK_CHILD` when the optional child is present, nothing otherwise. -/
def typecheckChildO {α : Type} (child : Option Node) (inst : Instance)
    (k : Option QualifiedType → Instance → Outcome α) : Outcome α :=
  match child with
  | some c => (c.compile inst).bind (fun ty i => k (some ty) i)
  | none => k none inst

/-- Modelled from the spec: the macro `GDML_TYPECHECK_CHILDREN` of `utils/Macros.hpp`: the
children are compiled in order, and the first error is returned at once. The result
pairs every child with its `evalType`. -/
def typecheckChildren : List Node → Instance → Outcome (List (Node × QualifiedType))
  | [], inst => .ok [] inst
  | child :: rest, inst =>
    (child.compile inst).bind fun ty inst1 =>
      (typecheckChildren rest inst1).bind fun tys inst2 => .ok ((child, ty) :: tys) inst2

/-- The macro `EXPECT_TYPE(from)` of `AST.cpp`: the error it returns when `from->evalType.type`
is null. -/
def expectTypeError (inst : Instance) (source function : String) (start stop : Position) :
    LineError :=
  typeErrorAt inst ("Expected " ++ source ++ " to have a type, but it didn't")
    "It was probably VariableDeclExpr. Make sure to give your variable declaration a type"
    ("In " ++ function) start stop

/-- The fields of `BinaryExpr`. -/
structure BinaryExpr where
  LHS : Node
  RHS : Node
  op : TokenType
  start : Position
  stop : Position

/-- The member `BinaryExpr::compile`. -/
def BinaryExpr.compile (api : TypeApi) (self : BinaryExpr) (inst : Instance) :
    Outcome QualifiedType :=
  typecheckChild self.LHS inst fun lhs inst1 =>
  typecheckChild self.RHS inst1 fun rhs inst2 =>
  if lhs.type.isNone then
    .err (expectTypeError inst2 "LHS" "BinaryExpr::compile" self.start self.stop) inst2
  else if rhs.type.isNone then
    .err (expectTypeError inst2 "RHS" "BinaryExpr::compile" self.start self.stop) inst2
  else if !api.convertibleTo rhs lhs then
    .err (typeErrorAt inst2
      ("Invalid operands for binary expression: left-hand-side has the type `" ++
        api.toString lhs ++ "`, but right-hand-side has the type `" ++
        api.toString rhs ++ "`")
      ("Add an explicit type conversion on the right-hand-side: `as " ++
        api.toString lhs ++ "`")
      "There are no implicit conversions in GDML. All types must match exactly!"
      self.start self.stop) inst2
  else if api.isLValueOperator self.op && lhs.qualifiers.isConst then
    .err (typeErrorAt inst2
      ("Invalid operands for binary expression: left-hand-side is const-qualified `" ++
        api.toString lhs ++ "`, but the operator used " ++ api.tokenStr self.op ++
        " requires a modifiable value")
      "" "" self.start self.stop) inst2
  else
    .ok lhs inst2

/-- The fields of `NamedEntityExpr`; `fullName` is `name->fullName()`. -/
structure NamedEntityExpr where
  fullName : String
  start : Position
  stop : Position

/-- The member `NamedEntityExpr::compile`. -/
def NamedEntityExpr.compile (self : NamedEntityExpr) (inst : Instance) :
    Outcome QualifiedType :=
  match inst.m_compiler.getVariable self.fullName with
  | none =>
    .err (compileErrorAt inst ("Identifier \"" ++ self.fullName ++ "\" is undefined") "" ""
      self.start self.stop) inst
  | some var => .ok var.type inst

/-- The expression as a child of another node. -/
def NamedEntityExpr.toNode (self : NamedEntityExpr) : Node :=
  ⟨self.compile, self.start, self.stop⟩

/-- The fields of `VariableDeclExpr`; `self` identifies the node (`this`). -/
structure VariableDeclExpr where
  name : String
  type : Option Node
  value : Option Node
  start : Position
  stop : Position
  self : Nat

/-- The first half of `VariableDeclExpr::compile`, after the children: the `evalType` of
the declaration, or the type-mismatch error. -/
def VariableDeclExpr.evalType (api : TypeApi) (self : VariableDeclExpr) (inst : Instance)
    (declared value : Option QualifiedType) : Except LineError QualifiedType :=
  match declared with
  | some evalType =>
    match value with
    | some valueType =>
      if !api.convertibleTo evalType valueType then
        .error (typeErrorAt inst
          ("Declared type `" ++ api.toString evalType ++
            "` does not match inferred type `" ++ api.toString valueType ++ "` of value")
          "" "" self.start self.stop)
      else .ok evalType
    | none => .ok evalType
  | none =>
    match value with
    | some valueType => .ok valueType
    | none => .ok QualifiedType.empty

/-- The second half of `VariableDeclExpr::compile`: the check against the current scope
and the registration of the variable. -/
def VariableDeclExpr.declare (self : VariableDeclExpr) (evalType : QualifiedType)
    (inst : Instance) : Outcome QualifiedType :=
  match inst.m_compiler.getScope with
  | none => .undefined
  | some scope =>
    if scope.hasVariable self.name then
      .err (compileErrorAt inst
        ("Entity named \"" ++ self.name ++ "\" already exists in this scope") "" ""
        self.start self.stop) inst
    else
      let pushed := scope.pushVariable inst.m_compiler self.name ⟨evalType, none, self.self⟩
      .ok evalType { inst with m_compiler :=
        { inst.m_compiler with m_scope := inst.m_compiler.m_scope.dropLast ++ [pushed.1] } }

/-- The member `VariableDeclExpr::compile`. -/
def VariableDeclExpr.compile (api : TypeApi) (self : VariableDeclExpr) (inst : Instance) :
    Outcome QualifiedType :=
  typecheckChildO self.type inst fun declared inst1 =>
  typecheckChildO self.value inst1 fun value inst2 =>
  match self.evalType api inst2 declared value with
  | .error e => .err e inst2
  | .ok evalType => self.declare evalType inst2

/-- The fields of `CallExpr`. -/
structure CallExpr where
  target : Node
  args : List Node
  start : Position
  stop : Position

/-- The error that the loop of `CallExpr::compile` returns with `THROW_TYPE_ERR_AT` for an
argument that is not convertible to its parameter. -/
def CallExpr.argumentError (api : TypeApi) (inst : Instance) (arg : Node)
    (argType targetArg : QualifiedType) : LineError :=
  typeErrorAt inst
    ("Argument of type `" ++ api.toString argType ++
      "` cannot be passed to parameter of type `" ++ api.toString targetArg ++ "`")
    ("Add an explicit type conversion on the argument: `as " ++ api.toString targetArg ++ "`")
    "There are no implicit conversions in GDML. All types must match exactly!"
    arg.start arg.stop

/-- The loop of `CallExpr::compile` over the arguments, from index `i`: `none` when the loop
ends without returning. `getParameters().at(i)` throws `std::out_of_range` past the
end of the parameters, inside a `noexcept` function. -/
def CallExpr.checkArgs (api : TypeApi) (inst : Instance) (parameters : List QualifiedType) :
    Nat → List (Node × QualifiedType) → Option (Outcome QualifiedType)
  | _, [] => none
  | i, (arg, argType) :: rest =>
    match parameters[i]? with
    | none => some .terminate
    | some targetArg =>
      if !api.convertibleTo argType targetArg then
        some (.err (CallExpr.argumentError api inst arg argType targetArg) inst)
      else CallExpr.checkArgs api inst parameters (i + 1) rest

/-- The member `CallExpr::compile`. -/
def CallExpr.compile (api : TypeApi) (self : CallExpr) (inst : Instance) :
    Outcome QualifiedType :=
  typecheckChild self.target inst fun target inst1 =>
  (typecheckChildren self.args inst1).bind fun args inst2 =>
  match target.type with
  | none => .undefined
  | some (.other _) =>
    .err (typeErrorAt inst2
      "Attempted to call an expression that did not evaluate to a function type" "" ""
      self.start self.stop) inst2
  | some (.function returnType parameters) =>
    match CallExpr.checkArgs api inst2 parameters 0 args with
    | some out => out
    | none => .ok returnType inst2

/-- The macro `PUSH_SCOPE()` of `AST.cpp`. -/
def pushScope (inst : Instance) : Instance :=
  { inst with m_compiler := inst.m_compiler.pushScope }

/-- The macro `POP_SCOPE()` of `AST.cpp`. -/
def popScope (inst : Instance) : Instance :=
  { inst with m_compiler := inst.m_compiler.popScope }

/-- The fields of `IfStmt`. -/
structure IfStmt where
  condition : Option Node
  branch : Node
  elseBranch : Option Node
  start : Position
  stop : Position

/-- The member `IfStmt::compile`; the node assigns no `evalType`. -/
def IfStmt.compile (self : IfStmt) (inst : Instance) : Outcome QualifiedType :=
  typecheckChildO self.condition (pushScope inst) fun _ inst1 =>
  typecheckChildO self.elseBranch (pushScope (popScope inst1)) fun _ inst2 =>
  .ok QualifiedType.empty (popScope inst2)

end ast

namespace compiler

/-- The member `Compiler::compile`; `astCompile` stands for `m_ast->compile`. On success
and on error the result is the returned code and the state. -/
def Compiler.compile (astCompile : Instance → ast.Outcome QualifiedType) (inst : Instance) :
    ast.Outcome Error :=
  match astCompile inst with
  | .ok _ inst1 => .ok Error.OK inst1
  | .err err inst1 => .ok err.code (inst1.logError err)
  | .terminate => .terminate
  | .undefined => .undefined

end compiler

/-! ## Instances used at concrete inputs -/

namespace ast

open compiler

/-- An instance of the functions taken as parameters, for concrete inputs: two types
convert when they have the same non-function tag and the conversion does not drop
`const`; no operator needs a modifiable value. It is not the convertibility of the
sources, whose definition is not among them. -/
def constAwareApi : TypeApi where
  convertibleTo := fun a b =>
    match a.type, b.type with
    | some (.other s), some (.other t) =>
      decide (s = t) && (!a.qualifiers.isConst || b.qualifiers.isConst)
    | _, _ => false
  toString := fun a => if a.qualifiers.isConst then "const" else "mut"
  isLValueOperator := fun _ => false
  tokenStr := fun _ => ""

/-- A child that typechecks to the given type and leaves the state alone, as a literal
does. -/
def typedNode (type : QualifiedType) : Node :=
  ⟨fun inst => .ok type inst, ⟨0, 0⟩, ⟨0, 0⟩⟩

/-- A reference to the identifier `name`, as a child. -/
def identifierNode (name : String) : Node :=
  NamedEntityExpr.toNode ⟨name, ⟨0, 0⟩, ⟨0, 0⟩⟩

/-- The state of a compiler with the given namespace stack and one empty scope, with
nothing recorded. -/
def emptyInstance (namespaces : List String) : Instance :=
  ⟨⟨namespaces, [compiler.Scope.new]⟩, [], "main.gdml"⟩

end ast

namespace ast

open compiler

/-- The state after `Scope::pushVariable` on the top scope `top` above `below`. -/
def declared (inst : Instance) (below : List compiler.Scope) (top : compiler.Scope)
    (name : String) (var : NamedEntity) : Instance :=
  { inst with m_compiler :=
      { inst.m_compiler with
        m_scope := below ++ [(top.pushVariable inst.m_compiler name var).1] } }

end ast

/-! ## Lookups of `UnitParser` (`State.cpp`) -/

/-- The loop that `UnitParser::getType` and `UnitParser::getVar` share, over the scopes
innermost first: the entry of the first scope whose table contains the path; with
`topOnly` the loop is left after the first scope. -/
def findEntity (path : FullIdentPath) (topOnly : Bool) : List Scope → Option Entity
  | [] => none
  | scope :: rest =>
    if scope.m_entities.contains path then Map.at? scope.m_entities path
    else if topOnly then none
    else findEntity path topOnly rest

/-- The call `std::get_if<Type>` on an entity. -/
def Entity.getIfType : Entity → Option Ty
  | .type t => some t
  | _ => none

/-- The call `std::get_if<Var>` on an entity. -/
def Entity.getIfVar : Entity → Option Var
  | .var v => some v
  | _ => none

/-- The member `UnitParser::getType`; `none` is the null pointer. -/
def UnitParser.getType (fr : PathResolver) (u : UnitParser) (name : IdentPath)
    (topOnly : Bool) : Option Ty :=
  match u.resolve fr name true with
  | .ok path => (findEntity path topOnly u.m_scopes.reverse).bind Entity.getIfType
  | .error _ => none

/-- The member `UnitParser::getVar`; `none` is the null pointer. -/
def UnitParser.getVar (fr : PathResolver) (u : UnitParser) (name : IdentPath)
    (topOnly : Bool) : Option Var :=
  match u.resolve fr name true with
  | .ok path => (findEntity path topOnly u.m_scopes.reverse).bind Entity.getIfVar
  | .error _ => none

/-! ## Types and namespaces of the compiler (`Compiler.cpp`) -/

namespace compiler

/-- The member `Compiler::getNameSpaceStack`. -/
def Compiler.getNameSpaceStack (c : Compiler) : List String :=
  c.m_namespace

/-- The member `Compiler::pushNameSpace`. -/
def Compiler.pushNameSpace (c : Compiler) (name : String) : Compiler :=
  { c with m_namespace := c.m_namespace ++ [name] }

/-- The text `stack` that `Compiler::popNameSpace` builds for its error: every segment
followed by `::`, with the last two characters erased. -/
def Compiler.stackText (c : Compiler) : String :=
  (c.m_namespace.foldl (fun stack s => stack ++ (s ++ "::")) "").dropRight 2

/-- The error that `Compiler::popNameSpace` records. -/
def Compiler.popNameSpaceError (inst : Instance) (name : String) : LineError :=
  ⟨Error.InternalError,
    "Attempted to pop \"" ++ name ++ "\" off the top of the namespace stack, but it " ++
      "wasn't there. This is likely a bug within the compiler itself.",
    "", "Current stack: " ++ inst.m_compiler.stackText, ⟨0, 0⟩, ⟨0, 0⟩, inst.m_source⟩

/-- The member `Compiler::popNameSpace`, on the instance that holds the compiler and the
recorded errors; `none` stands for the undefined `back()` of an empty stack. -/
def Compiler.popNameSpace (inst : Instance) (name : String) : Option Instance :=
  match inst.m_compiler.m_namespace.getLast? with
  | none => none
  | some back =>
    if back = name then
      some { inst with m_compiler :=
        { inst.m_compiler with m_namespace := inst.m_compiler.m_namespace.dropLast } }
    else
      some (inst.logError (Compiler.popNameSpaceError inst name))

/-- The inner loop of `Compiler::typeExists` over the namespace stack: the key
`testNameSpace + name` is looked up, then the segment is appended to `testNameSpace`. -/
def Compiler.typeExistsUnder (namedTypes : Map String (Option TypeObj)) (name : String) :
    String → List String → Bool
  | _, [] => false
  | testNameSpace, nameSpace :: rest =>
    if Map.contains namedTypes (testNameSpace ++ name) then true
    else Compiler.typeExistsUnder namedTypes name (testNameSpace ++ (nameSpace ++ "::")) rest

/-- The outer loop of `Compiler::typeExists` over the scopes, innermost first. -/
def Compiler.typeExistsIn (namespaces : List String) (name : String) : List Scope → Bool
  | [] => false
  | scope :: rest =>
    if Map.contains scope.namedTypes name then true
    else if Compiler.typeExistsUnder scope.namedTypes name "" namespaces then true
    else Compiler.typeExistsIn namespaces name rest

/-- The member `Compiler::typeExists`. -/
def Compiler.typeExists (c : Compiler) (name : String) : Bool :=
  Compiler.typeExistsIn c.m_namespace name c.m_scope.reverse

/-- The loop of `Compiler::getType` over the scopes, innermost first. -/
def Compiler.findType (name : String) : List Scope → Option TypeObj
  | [] => none
  | scope :: rest =>
    if Map.contains scope.namedTypes name then (Map.at? scope.namedTypes name).join
    else Compiler.findType name rest

/-- The member `Compiler::getType`; `none` is the null `std::shared_ptr`. -/
def Compiler.getType (c : Compiler) (name : String) : Option TypeObj :=
  Compiler.findType name c.m_scope.reverse

end compiler

/-! ## More nodes of `parser/AST.cpp` -/

namespace ast

open compiler

/-- The fields of `BlockStmt`. -/
structure BlockStmt where
  body : Node
  start : Position
  stop : Position

/-- The member `BlockStmt::compile`; the node assigns no `evalType`. -/
def BlockStmt.compile (self : BlockStmt) (inst : Instance) : Outcome QualifiedType :=
  typecheckChild self.body (pushScope inst) fun _ inst1 =>
  .ok QualifiedType.empty (popScope inst1)

/-- The depth of the compiler's scope stack. -/
def depth (inst : Instance) : Nat :=
  inst.m_compiler.m_scope.length

/-- The depth of the scope stack when a `compile` returns, with or without an error. -/
def Outcome.depth {α : Type} : Outcome α → Option Nat
  | .ok _ inst => some (ast.depth inst)
  | .err _ inst => some (ast.depth inst)
  | .terminate => none
  | .undefined => none

/-- The fields of `TypeNameExpr`; `fullName` is `name->fullName()`. -/
structure TypeNameExpr where
  fullName : String
  qualifiers : TypeQualifiers
  start : Position
  stop : Position

/-- The member `TypeNameExpr::compile`. -/
def TypeNameExpr.compile (self : TypeNameExpr) (inst : Instance) : Outcome QualifiedType :=
  if !inst.m_compiler.typeExists self.fullName then
    .err (typeErrorAt inst ("Unknown type \"" ++ self.fullName ++ "\"")
      "Not all C++ types are supported yet, sorry!" "" self.start self.stop) inst
  else
    .ok (.mk (inst.m_compiler.getType self.fullName) self.qualifiers) inst

/-- The result type `BranchInferResult`: an optional return type, or an error. -/
abbrev BranchInferResult := Except LineError (Option QualifiedType)

/-- A statement as `StmtList::inferBranchReturnType` uses it: its own
`inferBranchReturnType`, which reads the instance. -/
structure BranchNode where
  inferBranchReturnType : Instance → BranchInferResult

/-- The fields of `StmtList`. -/
structure StmtList where
  statements : List BranchNode
  start : Position
  stop : Position

/-- The loop of `StmtList::inferBranchReturnType` from the current `value`;
`PROPAGATE_ASSIGN` (of `utils/Macros.hpp`) assigns the result of the statement or
returns its error. -/
def StmtList.inferFrom (self : StmtList) (inst : Instance) :
    Option QualifiedType → List BranchNode → BranchInferResult
  | value, [] => .ok value
  | value, stmt :: rest =>
    if value.isSome then
      .error (compileErrorAt inst "Found unreachable code" "" "" self.start self.stop)
    else
      match stmt.inferBranchReturnType inst with
      | .ok inferred => StmtList.inferFrom self inst inferred rest
      | .error e => .error e

/-- The member `StmtList::inferBranchReturnType`. -/
def StmtList.inferBranchReturnType (self : StmtList) (inst : Instance) : BranchInferResult :=
  StmtList.inferFrom self inst none self.statements

/-- The member `ReturnStmt::inferBranchReturnType`, for a returned value of the given
`evalType`. -/
def ReturnStmt.inferBranchReturnType (valueType : QualifiedType) (_inst : Instance) :
    BranchInferResult :=
  .ok (some valueType)

/-- The loop of `InterpolatedLiteralExpr::codegen` from the index `ix`, with `count` indices
left and `out` written so far; a component is given by the text its `codegen` writes.
`none` stands for the `std::out_of_range` of `at`, which ends the `noexcept` function
in `std::terminate`. -/
def InterpolatedLiteralExpr.codegenFrom (rawStrings components : List String) :
    Nat → Nat → String → Option String
  | 0, _, out => some out
  | count + 1, ix, out =>
    let sep := if ix ≠ 0 then out ++ " + " else out
    if ix % 2 ≠ 0 then
      match components[ix / 2]? with
      | none => none
      | some component =>
        InterpolatedLiteralExpr.codegenFrom rawStrings components count (ix + 1)
          (sep ++ component)
    else
      match rawStrings[ix / 2]? with
      | none => none
      | some raw =>
        InterpolatedLiteralExpr.codegenFrom rawStrings components count (ix + 1)
          (sep ++ "\"" ++ raw ++ "\"")

/-- The member `InterpolatedLiteralExpr::codegen`: what is written to the stream. -/
def InterpolatedLiteralExpr.codegen (rawStrings components : List String) : Option String :=
  InterpolatedLiteralExpr.codegenFrom rawStrings components
    (rawStrings.length + components.length) 0 ""

/-- Spec side of the output of `InterpolatedLiteralExpr::codegen`: the quoted raw strings
and the code of the components alternating, starting with a raw string. -/
def alternate : List String → List String → List String
  | raw :: raws, component :: components =>
    ("\"" ++ raw ++ "\"") :: component :: alternate raws components
  | raw :: raws, [] => ("\"" ++ raw ++ "\"") :: alternate raws []
  | [], _ => []

/-- A namespace segment without a colon, as an identifier is. -/
def colonFree (segment : String) : Prop :=
  ':' ∉ segment.data

end ast

namespace ast

open compiler

/-- The state inside the namespace `a::b` with one scope, in which the type `T` was
registered by `Scope::pushNamedType` while the namespace stack was `a`. -/
def outerTypeInstance : Instance :=
  ⟨⟨["a", "b"],
    [Scope.pushNamedType ⟨["a"], []⟩ compiler.Scope.new "T" (some (.other .I32))]⟩,
    [], "main.gdml"⟩

end ast

namespace ast

open compiler

/-- The declaration of the variable `name` with neither a declared type nor a value, as
a child: `VariableDeclExpr::compile` then leaves its `evalType` as constructed, with
a null type. -/
def untypedDeclNode (name : String) : Node :=
  ⟨fun inst => VariableDeclExpr.compile constAwareApi ⟨name, none, none, ⟨0, 0⟩, ⟨0, 0⟩, 0⟩ inst,
    ⟨0, 0⟩, ⟨0, 0⟩⟩

end ast

namespace ast

open compiler

end ast

/-! ## `UnitParser::resolve` on the object it is called on

`UnitParser::resolve` is a non-const member function, and its loops bind the scopes and
the entries of their tables by reference (`auto& scope`, `auto& [path, entity]`). The
definitions below follow the unit through the call: every loop gives, next to the
value returned, the objects it went over as the bodies left them. -/

/-- The body of the first loop of `UnitParser::resolve` for the scope that `auto& scope`
designates: the value with which the function returns, if it does, and the scope
after the body. -/
def resolveDeclStep (name : IdentPath) (scope : Scope) : Option FullIdentPath × Scope :=
  match scope.m_name with
  | some n => (some (n.join name.name), scope)
  | none => (none, scope)

/-- The inner loop of `UnitParser::resolve` over the entries `auto& [path, entity]` of one
table: the value with which the function returns, if it does, and the table after
the loop. -/
def resolveEntitiesRun (fr : PathResolver) (name : IdentPath) (existing : Bool) :
    List (FullIdentPath × Entity) →
      Option (Except String FullIdentPath) × List (FullIdentPath × Entity)
  | [] => (none, [])
  | (path, entity) :: rest =>
    match fr path name existing with
    | some resolved =>
      if entity.isNamespaceOrFun then (some (.ok resolved), (path, entity) :: rest)
      else (some (.error errSubEntities), (path, entity) :: rest)
    | none =>
      let r := resolveEntitiesRun fr name existing rest
      (r.1, (path, entity) :: r.2)

/-- The body of the second loop of `UnitParser::resolve` for the scope that `auto& scope`
designates: the value with which the function returns, if it does, and the scope
after the body. -/
def resolveScopeStep (fr : PathResolver) (name : IdentPath) (existing : Bool)
    (scope : Scope) : Option (Except String FullIdentPath) × Scope :=
  match scope.m_name.bind (fun n => fr n name existing) with
  | some resolved => (some (.ok resolved), scope)
  | none =>
    let r := resolveEntitiesRun fr name existing scope.m_entities
    (r.1, { scope with m_entities := r.2 })

/-- A loop `for (auto& scope : ranges::reverse(m_scopes))` whose body may return from the
function, over the scopes innermost first: the value returned by a body, if any, and
the scopes after the loop, innermost first. -/
def forScopes {ρ : Type} (body : Scope → Option ρ × Scope) :
    List Scope → Option ρ × List Scope
  | [] => (none, [])
  | scope :: rest =>
    match body scope with
    | (some r, scope1) => (some r, scope1 :: rest)
    | (none, scope1) =>
      let r := forScopes body rest
      (r.1, scope1 :: r.2)

/-- The member `UnitParser::resolve` with the unit it is called on: the result and the
unit after the call. -/
def UnitParser.resolveRun (fr : PathResolver) (u : UnitParser) (name : IdentPath)
    (existing : Bool) : Except String FullIdentPath × UnitParser :=
  if name.isSingle && !existing then
    let r := forScopes (resolveDeclStep name) u.m_scopes.reverse
    (match r.1 with
      | some path => .ok path
      | none => .ok (FullIdentPath.ofIdentPath name),
     { u with m_scopes := r.2.reverse })
  else
    let r := forScopes (resolveScopeStep fr name existing) u.m_scopes.reverse
    (match r.1 with
      | some result => result
      | none => .error (errUnknownNamespace name),
     { u with m_scopes := r.2.reverse })

/-! ## The program root and `UnitParser::parse`

`Expr.cpp`, with the body of every `typecheck`, and `AST::pull` are not among the
sources. `UnitParser::parse` discards the result of `ast->typecheck(unit)`, so what a
compilation reports is what the typecheck records in the log of the shared parser. -/

/-- Modelled from the spec: a node of the expression AST as the program root uses it
(`Expr.cpp` is not among the sources): "typecheck(unitState) -> Type | TypeError", on
the unit and the parsed source it may write, here with the typed error, if any (the
resulting type plays no part at the root), and the source range that "every node
owns". -/
structure Expr where
  typecheck : UnitParser → ParsedSrc → Option String × UnitParser × ParsedSrc
  range : Range

/-- Modelled from the spec: the text of the diagnostic `UndefinedIdentifier`; the spec names
the kind of the diagnostic only. -/
def undefinedIdentifier (path : IdentPath) : String :=
  "Undefined identifier \"" ++ path.toString ++ "\""

/-- Modelled from the spec: `IdentExpr::typecheck` (`Expr.cpp` is not among the sources):
"type of the entity the path resolves to (existing=true lookup); `UndefinedIdentifier`
if resolution fails". The lookup is `UnitParser::resolve` with `existing` set and the
walk over the scopes of `UnitParser::getType` and `getVar`; the unit and the parsed
source are left as they are. -/
def IdentExpr.typecheck (fr : PathResolver) (e : IdentExpr) (u : UnitParser)
    (parsed : ParsedSrc) : Option String × UnitParser × ParsedSrc :=
  match u.resolve fr e.path true with
  | .error _ => (some (undefinedIdentifier e.path), u, parsed)
  | .ok path =>
    match findEntity path false u.m_scopes.reverse with
    | some _ => (none, u, parsed)
    | none => (some (undefinedIdentifier e.path), u, parsed)

/-- A reference to an identifier, as a statement of the program. -/
def IdentExpr.toExpr (fr : PathResolver) (e : IdentExpr) : Expr :=
  ⟨e.typecheck fr, e.range⟩

/-- Modelled from the spec: `AST::typecheck`, the program root (`Expr.cpp` is not among the
sources): it "typechecks each in turn in a single pass; does not halt on first error
— collects all ... so later siblings still get checked"; the typed error of a
statement is recorded for the range of the statement with `UnitParser::error`. -/
def AST.typecheck (exprs : List Expr) (u : UnitParser) (parsed : ParsedSrc) :
    UnitParser × ParsedSrc :=
  exprs.foldl
    (fun state e =>
      match e.typecheck state.1 state.2 with
      | (none, u1, parsed1) => (u1, parsed1)
      | (some info, u1, parsed1) => (u1.error e.range info, parsed1))
    (u, parsed)

/-- The function `UnitParser::parse`. `pulled` stands for
`AST::pull(stream).unwrapOr(nullptr)` on the stream `src->read(unit)`: the top-level
expressions of the parsed tree, or `none` for a null tree; reading and parsing are
not among the sources, and what they record themselves is not followed here. The
result is the state of the shared parser and the parsed source at the return. -/
def UnitParser.parse (gn : NameOf) (fr : PathResolver) (pulled : Option (List Expr))
    (shared : Parser) (src : String) : ParseOutcome :=
  let unit := UnitParser.new gn fr shared (some src)
  let parsed : ParsedSrc := ⟨[]⟩
  match pulled with
  | some exprs =>
    let state := AST.typecheck exprs unit parsed
    .returned state.1.m_shared state.2
  | none => .returned unit.m_shared parsed

/-! # Theorems -/

/-! ## Declaration-site resolution -/

theorem isSingle_path {name : IdentPath} (hs : name.isSingle = true) : name.path = [] := by
  unfold IdentPath.isSingle at hs
  cases hp : name.path with
  | nil => rfl
  | cons a l => rw [hp] at hs; simp at hs

theorem resolveDecl_skip (name : IdentPath) (inner rest : List Scope)
    (h : ∀ t ∈ inner, t.m_name = none) :
    resolveDecl name (inner ++ rest) = resolveDecl name rest := by
  induction inner with
  | nil => rfl
  | cons t inner ih =>
    have ht : t.m_name = none := h t (List.mem_cons_self _ _)
    have hrest : ∀ t' ∈ inner, t'.m_name = none :=
      fun t' ht' => h t' (List.mem_cons_of_mem _ ht')
    simp only [List.cons_append, resolveDecl, ht]
    exact ih hrest

theorem resolveDecl_unnamed (name : IdentPath) (scopes : List Scope)
    (h : ∀ t ∈ scopes, t.m_name = none) :
    resolveDecl name scopes = FullIdentPath.ofIdentPath name := by
  have := resolveDecl_skip name scopes [] h
  simpa [resolveDecl] using this

theorem resolveDecl_eq_join (name : IdentPath) (hp : name.path = []) (scopes : List Scope) :
    resolveDecl name scopes = (declBase scopes).join name.name := by
  induction scopes with
  | nil =>
    simp [resolveDecl, declBase, FullIdentPath.ofIdentPath, IdentPath.getComponents,
      FullIdentPath.join, hp]
  | cons t scopes ih =>
    cases hn : t.m_name with
    | none => simp only [resolveDecl, declBase, hn]; exact ih
    | some n => simp only [resolveDecl, declBase, hn]

theorem resolve_decl_eq (fr : PathResolver) (u : UnitParser) (name : IdentPath)
    (hs : name.isSingle = true) :
    u.resolve fr name false = .ok (resolveDecl name u.m_scopes.reverse) := by
  simp [UnitParser.resolve, hs]

/-- C1: for a single-segment name at a declaration site (`existing = false`),
`UnitParser::resolve` returns `Ok(p.join(name))` where `p` is the bound name of the
innermost scope that has one, returns `Ok` of the root-level path made of that one
segment when no scope has a bound name, and never returns an error. -/
theorem resolve_single_declaration (fr : PathResolver) (u : UnitParser) (name : IdentPath)
    (hs : name.isSingle = true) :
    (∀ (outer inner : List Scope) (s : Scope) (p : FullIdentPath),
        u.m_scopes = outer ++ s :: inner → s.m_name = some p →
        (∀ t ∈ inner, t.m_name = none) →
        u.resolve fr name false = .ok (p.join name.name)) ∧
    ((∀ t ∈ u.m_scopes, t.m_name = none) →
        u.resolve fr name false = .ok (FullIdentPath.ofIdentPath name) ∧
        FullIdentPath.ofIdentPath name = ⟨[name.name]⟩) ∧
    (∃ r, u.resolve fr name false = .ok r) := by
  refine ⟨?_, ?_, ?_⟩
  · intro outer inner s p hsc hp hin
    rw [resolve_decl_eq fr u name hs, hsc]
    have hrev : (outer ++ s :: inner).reverse = inner.reverse ++ s :: outer.reverse := by
      simp
    rw [hrev, resolveDecl_skip name inner.reverse (s :: outer.reverse)
      (fun t ht => hin t (List.mem_reverse.mp ht))]
    simp [resolveDecl, hp]
  · intro hall
    rw [resolve_decl_eq fr u name hs,
      resolveDecl_unnamed name u.m_scopes.reverse (fun t ht => hall t (List.mem_reverse.mp ht))]
    exact ⟨rfl, by simp [FullIdentPath.ofIdentPath, IdentPath.getComponents, isSingle_path hs]⟩
  · exact ⟨_, resolve_decl_eq fr u name hs⟩

/-- Witness for C1: below the named scope `a`, with an unnamed block scope on top, the
declaration of `x` resolves to `a::x`; on an unnamed root alone it resolves to `x`. -/
theorem resolve_single_declaration_witness :
    (UnitParser.resolve FullIdentPath.resolve
        ⟨⟨[], 0⟩, none, [⟨none, false, []⟩, ⟨some ⟨["a"]⟩, false, []⟩, ⟨none, false, []⟩]⟩
        (IdentPath.ofIdent "x") false = .ok ⟨["a", "x"]⟩) ∧
    (UnitParser.resolve FullIdentPath.resolve ⟨⟨[], 0⟩, none, [⟨none, false, []⟩]⟩
        (IdentPath.ofIdent "x") false = .ok ⟨["x"]⟩) :=
  ⟨(resolve_single_declaration FullIdentPath.resolve
      ⟨⟨[], 0⟩, none, [⟨none, false, []⟩, ⟨some ⟨["a"]⟩, false, []⟩, ⟨none, false, []⟩]⟩
      (IdentPath.ofIdent "x") rfl).1 [⟨none, false, []⟩] [⟨none, false, []⟩]
      ⟨some ⟨["a"]⟩, false, []⟩ ⟨["a"]⟩ rfl rfl (by simp),
   (resolve_single_declaration FullIdentPath.resolve ⟨⟨[], 0⟩, none, [⟨none, false, []⟩]⟩
      (IdentPath.ofIdent "x") rfl).2.1 (by simp) |>.1⟩

/-! ## Nested named scopes -/

theorem mem_insert {κ ν : Type} [DecidableEq κ] (m : Map κ ν) (k : κ) (v : ν) (e : κ × ν)
    (h : e ∈ Map.insert m k v) : e ∈ m ∨ e = (k, v) := by
  unfold Map.insert at h
  split at h
  · exact Or.inl h
  · rcases List.mem_append.mp h with h | h
    · exact Or.inl h
    · exact Or.inr (by simpa using h)

theorem modifyBack_append (u : UnitParser) (f : Scope → Scope) (below : List Scope)
    (top : Scope) (h : u.m_scopes = below ++ [top]) :
    (u.modifyBack f).m_scopes = below ++ [f top] := by
  simp [UnitParser.modifyBack, h]

theorem pushType_isTypeRoot (gn : NameOf) (fr : PathResolver) (parser : UnitParser)
    (s : Scope) (type : Ty) (h : s.isTypeRoot) : (s.pushType gn fr parser type).isTypeRoot := by
  unfold Scope.pushType
  cases gn type with
  | none => exact h
  | some name =>
    simp only [Scope.pushNamed]
    cases parser.resolve fr name false with
    | error e => exact h
    | ok path =>
      refine ⟨h.1, ?_⟩
      intro e he
      rcases mem_insert _ _ _ _ he with he | he
      · exact h.2 e he
      · exact ⟨type, by rw [he]⟩

theorem seed_isTypeRoot (gn : NameOf) (fr : PathResolver) (prims : List Primitive)
    (u : UnitParser) (h : ∃ root, u.m_scopes = [root] ∧ root.isTypeRoot) :
    ∃ root, (prims.foldl (fun v prim => v.pushType gn fr (Ty.ofPrimitive prim)) u).m_scopes
      = [root] ∧ root.isTypeRoot := by
  induction prims generalizing u with
  | nil => simpa using h
  | cons prim prims ih =>
    obtain ⟨root, hroot, hshape⟩ := h
    simp only [List.foldl_cons]
    apply ih
    refine ⟨root.pushType gn fr u (Ty.ofPrimitive prim), ?_, pushType_isTypeRoot _ _ _ _ _ hshape⟩
    have := modifyBack_append u (fun s => s.pushType gn fr u (Ty.ofPrimitive prim)) [] root
      (by simpa using hroot)
    simpa [UnitParser.pushType] using this

theorem new_scopes (gn : NameOf) (fr : PathResolver) (parser : Parser) (src : Option String) :
    ∃ root, (UnitParser.new gn fr parser src).m_scopes = [root] ∧ root.isTypeRoot := by
  unfold UnitParser.new
  apply seed_isTypeRoot
  exact ⟨_, rfl, rfl, by simp [Scope.new]⟩

theorem declBase_unnamed (scopes : List Scope) (h : ∀ t ∈ scopes, t.m_name = none) :
    declBase scopes = ⟨[]⟩ := by
  induction scopes with
  | nil => rfl
  | cons t scopes ih =>
    simp only [declBase, h t (List.mem_cons_self _ _)]
    exact ih (fun t' ht' => h t' (List.mem_cons_of_mem _ ht'))

theorem resolve_ofIdent (fr : PathResolver) (u : UnitParser) (x : Ident) :
    u.resolve fr (IdentPath.ofIdent x) false = .ok ((declBase u.m_scopes.reverse).join x) := by
  rw [resolve_decl_eq fr u (IdentPath.ofIdent x) rfl,
    resolveDecl_eq_join (IdentPath.ofIdent x) rfl]
  rfl

theorem pushScope_scopes (fr : PathResolver) (u : UnitParser) (n : Ident) (function : Bool) :
    (u.pushScope fr (some (IdentPath.ofIdent n)) function).m_scopes =
      u.m_scopes ++ [⟨some ((declBase u.m_scopes.reverse).join n), function, []⟩] := by
  simp [UnitParser.pushScope, Scope.new, resolve_ofIdent, Except.toOption]

theorem declBase_pushScope (fr : PathResolver) (u : UnitParser) (n : Ident) (function : Bool) :
    declBase (u.pushScope fr (some (IdentPath.ofIdent n)) function).m_scopes.reverse =
      (declBase u.m_scopes.reverse).join n := by
  simp [pushScope_scopes, declBase]

theorem declBase_pushScopes (fr : PathResolver) (names : List (Ident × Bool)) (u : UnitParser) :
    declBase (pushScopes fr u names).m_scopes.reverse =
      ⟨(declBase u.m_scopes.reverse).path ++ names.map Prod.fst⟩ := by
  induction names generalizing u with
  | nil => simp [pushScopes]
  | cons n names ih =>
    have h := ih (u.pushScope fr (some (IdentPath.ofIdent n.1)) n.2)
    rw [declBase_pushScope] at h
    simpa [pushScopes, FullIdentPath.join] using h

theorem declBase_new (gn : NameOf) (fr : PathResolver) (parser : Parser)
    (src : Option String) :
    declBase (UnitParser.new gn fr parser src).m_scopes.reverse = ⟨[]⟩ := by
  obtain ⟨root, hroot, hname, _⟩ := new_scopes gn fr parser src
  rw [hroot]
  simp [declBase, hname]

theorem resolve_after_pushScopes (gn : NameOf) (fr : PathResolver) (parser : Parser)
    (src : Option String) (names : List (Ident × Bool)) (x : Ident) :
    (pushScopes fr (UnitParser.new gn fr parser src) names).resolve fr
        (IdentPath.ofIdent x) false
      = .ok ⟨names.map Prod.fst ++ [x]⟩ := by
  rw [resolve_ofIdent, declBase_pushScopes, declBase_new]
  simp [FullIdentPath.join]

/-- C2: from a freshly constructed `UnitParser`, after `pushScope(a)` and `pushScope(b)`
with single-segment names, the declaration of `x` resolves to `[a, b, x]`; and after
any sequence of single-segment named pushes `n1 .. nk` it resolves to
`[n1, ..., nk, x]`. -/
theorem declaration_in_nested_scopes (gn : NameOf) (fr : PathResolver) (parser : Parser)
    (src : Option String) :
    (∀ (a b x : Ident) (fa fb : Bool),
      (((UnitParser.new gn fr parser src).pushScope fr (some (IdentPath.ofIdent a)) fa).pushScope
          fr (some (IdentPath.ofIdent b)) fb).resolve fr (IdentPath.ofIdent x) false
        = .ok ⟨[a, b, x]⟩) ∧
    (∀ (names : List (Ident × Bool)) (x : Ident),
      (pushScopes fr (UnitParser.new gn fr parser src) names).resolve fr
          (IdentPath.ofIdent x) false
        = .ok ⟨names.map Prod.fst ++ [x]⟩) :=
  ⟨fun a b x fa fb => resolve_after_pushScopes gn fr parser src [(a, fa), (b, fb)] x,
   resolve_after_pushScopes gn fr parser src⟩

/-! ## Lookup resolution -/

theorem resolveEntities_none_iff (fr : PathResolver) (name : IdentPath) (existing : Bool)
    (es : List (FullIdentPath × Entity)) :
    resolveEntities fr name existing es = none ↔ ∀ e ∈ es, fr e.1 name existing = none := by
  induction es with
  | nil => simp [resolveEntities]
  | cons e es ih =>
    obtain ⟨path, entity⟩ := e
    cases hr : fr path name existing with
    | none => simp [resolveEntities, hr, ih]
    | some r =>
      by_cases hk : entity.isNamespaceOrFun = true <;> simp [resolveEntities, hr, hk]

theorem resolveEntities_first (fr : PathResolver) (name : IdentPath) (existing : Bool)
    (before after : List (FullIdentPath × Entity)) (path : FullIdentPath) (entity : Entity)
    (resolved : FullIdentPath) (hb : ∀ e ∈ before, fr e.1 name existing = none)
    (hr : fr path name existing = some resolved) :
    resolveEntities fr name existing (before ++ (path, entity) :: after) =
      some (if entity.isNamespaceOrFun then .ok resolved else .error errSubEntities) := by
  induction before with
  | nil =>
    by_cases hk : entity.isNamespaceOrFun = true <;> simp [resolveEntities, hr, hk]
  | cons e before ih =>
    obtain ⟨p, en⟩ := e
    have hp : fr p name existing = none := hb (p, en) (List.mem_cons_self _ _)
    simp only [List.cons_append, resolveEntities, hp]
    exact ih (fun e he => hb e (List.mem_cons_of_mem _ he))

theorem resolveEntities_cases (fr : PathResolver) (name : IdentPath) (existing : Bool)
    (es : List (FullIdentPath × Entity)) (res : Except String FullIdentPath)
    (h : resolveEntities fr name existing es = some res) :
    (∃ r, res = .ok r) ∨ res = .error errSubEntities := by
  induction es with
  | nil => simp [resolveEntities] at h
  | cons e es ih =>
    obtain ⟨path, entity⟩ := e
    cases hr : fr path name existing with
    | none =>
      simp only [resolveEntities, hr] at h
      exact ih h
    | some r =>
      by_cases hk : entity.isNamespaceOrFun = true
      · simp only [resolveEntities, hr, hk, if_true, Option.some.injEq] at h
        exact Or.inl ⟨r, h.symm⟩
      · simp only [resolveEntities, hr, hk, Option.some.injEq] at h
        exact Or.inr (by simpa using h.symm)

theorem resolveEntities_types (fr : PathResolver) (name : IdentPath) (existing : Bool)
    (es : List (FullIdentPath × Entity)) (ht : ∀ e ∈ es, ∃ t, e.2 = Entity.type t) :
    resolveEntities fr name existing es = none ∨
      resolveEntities fr name existing es = some (.error errSubEntities) := by
  induction es with
  | nil => exact Or.inl rfl
  | cons e es ih =>
    obtain ⟨path, entity⟩ := e
    obtain ⟨t, hte⟩ := ht (path, entity) (List.mem_cons_self _ _)
    simp only at hte
    cases hr : fr path name existing with
    | none =>
      simp only [resolveEntities, hr]
      exact ih (fun e he => ht e (List.mem_cons_of_mem _ he))
    | some r =>
      right
      simp [resolveEntities, hr, hte, Entity.isNamespaceOrFun]

theorem resolveScopes_noMatch (fr : PathResolver) (name : IdentPath) (existing : Bool)
    (s : Scope) (rest : List Scope) (h : s.noMatch fr name existing) :
    resolveScopes fr name existing (s :: rest) = resolveScopes fr name existing rest := by
  have hn : s.m_name.bind (fun n => fr n name existing) = none := by
    cases hm : s.m_name with
    | none => rfl
    | some n => simpa using h.1 n hm
  have he := (resolveEntities_none_iff fr name existing s.m_entities).mpr h.2
  simp only [resolveScopes, hn, he]

theorem resolveScopes_skip (fr : PathResolver) (name : IdentPath) (existing : Bool)
    (inner rest : List Scope) (h : ∀ t ∈ inner, t.noMatch fr name existing) :
    resolveScopes fr name existing (inner ++ rest) = resolveScopes fr name existing rest := by
  induction inner with
  | nil => rfl
  | cons t inner ih =>
    rw [List.cons_append, resolveScopes_noMatch fr name existing t _ (h t (List.mem_cons_self _ _))]
    exact ih (fun t' ht' => h t' (List.mem_cons_of_mem _ ht'))

theorem errUnknownNamespace_ne (name : IdentPath) : errUnknownNamespace name ≠ errSubEntities := by
  intro h
  have hd := congrArg String.data h
  simp [errUnknownNamespace, errSubEntities, String.data_append] at hd

theorem resolveScopes_unknown_iff (fr : PathResolver) (name : IdentPath) (existing : Bool)
    (scopes : List Scope) :
    resolveScopes fr name existing scopes = .error (errUnknownNamespace name) ↔
      ∀ t ∈ scopes, t.noMatch fr name existing := by
  induction scopes with
  | nil => simp [resolveScopes]
  | cons s scopes ih =>
    constructor
    · intro h
      have hs : s.noMatch fr name existing := by
        cases hb : s.m_name.bind (fun n => fr n name existing) with
        | some r => simp [resolveScopes, hb] at h
        | none =>
          cases he : resolveEntities fr name existing s.m_entities with
          | some res =>
            simp only [resolveScopes, hb, he] at h
            rcases resolveEntities_cases fr name existing _ _ he with ⟨r, hr⟩ | hr
            · rw [hr] at h; cases h
            · rw [hr] at h
              injection h with h
              exact absurd h.symm (errUnknownNamespace_ne name)
          | none =>
            refine ⟨?_, (resolveEntities_none_iff fr name existing _).mp he⟩
            intro n hn
            simpa [hn] using hb
      rw [resolveScopes_noMatch fr name existing s scopes hs] at h
      intro t ht
      rcases List.mem_cons.mp ht with ht | ht
      · rw [ht]; exact hs
      · exact ih.mp h t ht
    · intro h
      rw [resolveScopes_noMatch fr name existing s scopes (h s (List.mem_cons_self _ _))]
      exact ih.mpr (fun t ht => h t (List.mem_cons_of_mem _ ht))

theorem resolve_lookup_eq (fr : PathResolver) (u : UnitParser) (name : IdentPath)
    (existing : Bool) (hq : (name.isSingle && !existing) = false) :
    u.resolve fr name existing = resolveScopes fr name existing u.m_scopes.reverse := by
  simp [UnitParser.resolve, hq]

theorem declaredInside_scopes (gn : NameOf) (fr : PathResolver) (parser : Parser)
    (src : Option String) (a b x : Ident) (fa fb : Bool) :
    (declaredInside gn fr parser src a b x fa fb).m_scopes =
      (UnitParser.new gn fr parser src).m_scopes ++
        [⟨some ⟨[a]⟩, fa, []⟩,
         ⟨some ⟨[a, b]⟩, fb, [(⟨[a, b, x]⟩, Entity.var ⟨IdentPath.ofIdent x⟩)]⟩] := by
  have h1 := pushScope_scopes fr (UnitParser.new gn fr parser src) a fa
  rw [declBase_new] at h1
  have h2 := pushScope_scopes fr
    ((UnitParser.new gn fr parser src).pushScope fr (some (IdentPath.ofIdent a)) fa) b fb
  rw [declBase_pushScope, declBase_new, h1] at h2
  have h3 := resolve_after_pushScopes gn fr parser src [(a, fa), (b, fb)] x
  simp only [pushScopes, List.foldl_cons, List.foldl_nil, List.map_cons, List.map_nil,
    List.cons_append, List.nil_append] at h3
  unfold declaredInside UnitParser.pushVar
  rw [modifyBack_append _ _ ((UnitParser.new gn fr parser src).m_scopes ++
    [⟨some ⟨[a]⟩, fa, []⟩]) ⟨some ⟨[a, b]⟩, fb, []⟩ (by simpa [FullIdentPath.join] using h2)]
  simp [Scope.pushVar, Scope.pushNamed, h3, Map.insert, Map.contains]

theorem lookup_inside_of_append (gn : NameOf) (fr : PathResolver) (parser : Parser)
    (src : Option String) (a b x : Ident) (fa fb : Bool)
    (hfr : fr ⟨[a, b]⟩ (IdentPath.ofIdent x) true = some ⟨[a, b, x]⟩) :
    (declaredInside gn fr parser src a b x fa fb).resolve fr (IdentPath.ofIdent x) true
      = .ok ⟨[a, b, x]⟩ := by
  rw [resolve_lookup_eq fr _ (IdentPath.ofIdent x) true rfl,
    declaredInside_scopes gn fr parser src a b x fa fb]
  simp [resolveScopes, hfr]

/-- C3: with `x` declared inside the nested named scopes `a` then `b`, it is registered
under `[a, b, x]`; the lookup (`existing = true`) of the unqualified `x` made while both
scopes are on the stack returns `[a, b, x]`, for every `FullIdentPath::resolve` that
appends `x` to the bound name `[a, b]`, in particular for the textual-append model of
the spec; and after both scopes are popped the stack is the root scope again and
the unqualified lookup of `x` fails with an error, whatever `FullIdentPath::resolve`
does. -/
theorem lookup_inside_and_outside (gn : NameOf) (fr : PathResolver) (parser : Parser)
    (src : Option String) (a b x : Ident) (fa fb : Bool) (loc1 loc2 : String) :
    (∃ below top, (declaredInside gn fr parser src a b x fa fb).m_scopes = below ++ [top] ∧
      top.m_name = some ⟨[a, b]⟩ ∧
      top.m_entities = [(⟨[a, b, x]⟩, Entity.var ⟨IdentPath.ofIdent x⟩)]) ∧
    (fr ⟨[a, b]⟩ (IdentPath.ofIdent x) true = some ⟨[a, b, x]⟩ →
      (declaredInside gn fr parser src a b x fa fb).resolve fr (IdentPath.ofIdent x) true
        = .ok ⟨[a, b, x]⟩) ∧
    ((declaredInside gn FullIdentPath.resolve parser src a b x fa fb).resolve
        FullIdentPath.resolve (IdentPath.ofIdent x) true = .ok ⟨[a, b, x]⟩) ∧
    (∃ outside,
      ((declaredInside gn fr parser src a b x fa fb).popScope loc1 >>=
        fun u => u.popScope loc2) = .ok outside ∧
      outside.m_scopes = (UnitParser.new gn fr parser src).m_scopes ∧
      ∃ e, outside.resolve fr (IdentPath.ofIdent x) true = .error e) := by
  have hsc := declaredInside_scopes gn fr parser src a b x fa fb
  obtain ⟨root, hroot, hname, htypes⟩ := new_scopes gn fr parser src
  refine ⟨⟨_, _, by rw [hsc]; exact (List.append_assoc _ [_] [_]).symm, rfl, rfl⟩,
    lookup_inside_of_append gn fr parser src a b x fa fb,
    lookup_inside_of_append gn FullIdentPath.resolve parser src a b x fa fb rfl, ?_⟩
  rw [hroot] at hsc
  rw [hroot]
  refine ⟨{ declaredInside gn fr parser src a b x fa fb with m_scopes := [root] }, ?_, rfl, ?_⟩
  · have h1 : (declaredInside gn fr parser src a b x fa fb).popScope loc1 =
        .ok { declaredInside gn fr parser src a b x fa fb with
              m_scopes := [root, ⟨some ⟨[a]⟩, fa, []⟩] } := by
      unfold UnitParser.popScope
      rw [hsc]
      rfl
    rw [h1]
    rfl
  · rw [resolve_lookup_eq fr _ (IdentPath.ofIdent x) true rfl]
    rcases resolveEntities_types fr (IdentPath.ofIdent x) true root.m_entities htypes with h | h
    · exact ⟨errUnknownNamespace (IdentPath.ofIdent x), by simp [resolveScopes, hname, h]⟩
    · exact ⟨errSubEntities, by simp [resolveScopes, hname, h]⟩

/-- Witness for C3: with the textual-append model of `FullIdentPath::resolve`, the lookup
of `x` inside `a::b` gives `a::b::x`. -/
theorem lookup_inside_and_outside_witness :
    (declaredInside Ty.getName FullIdentPath.resolve ⟨[], 0⟩ none "a" "b" "x" false false).resolve
      FullIdentPath.resolve (IdentPath.ofIdent "x") true = .ok ⟨["a", "b", "x"]⟩ :=
  (lookup_inside_and_outside Ty.getName FullIdentPath.resolve ⟨[], 0⟩ none "a" "b" "x"
    false false "" "").2.1 rfl

/-- C4: in `UnitParser::resolve` for a qualified path or an `existing = true` lookup, let
the walk reach an entity whose path resolves the request (no inner scope matches,
the bound name of its scope does not resolve, no earlier entity of its scope
resolves). Then the result is `Ok` of the resolved path when the entity is a
`Namespace` or a `Fun`, it is the error "Cannot add sub-entities to a non-namespace or
function" when the entity is a `Type` or a `Var`, whatever the later entities and the
outer scopes hold; so an `Ok` result implies a `Namespace` or a `Fun`. -/
theorem resolve_first_entity_match (fr : PathResolver) (u : UnitParser) (name : IdentPath)
    (existing : Bool) (outer inner : List Scope) (s : Scope)
    (before after : List (FullIdentPath × Entity)) (path : FullIdentPath) (entity : Entity)
    (resolved : FullIdentPath)
    (hq : (name.isSingle && !existing) = false)
    (hscopes : u.m_scopes = outer ++ s :: inner)
    (hinner : ∀ t ∈ inner, t.noMatch fr name existing)
    (hname : ∀ n, s.m_name = some n → fr n name existing = none)
    (hents : s.m_entities = before ++ (path, entity) :: after)
    (hbefore : ∀ e ∈ before, fr e.1 name existing = none)
    (hres : fr path name existing = some resolved) :
    ((∃ n, entity = Entity.ns n) ∨ (∃ f, entity = Entity.fn f) →
      u.resolve fr name existing = .ok resolved) ∧
    ((∃ t, entity = Entity.type t) ∨ (∃ v, entity = Entity.var v) →
      u.resolve fr name existing = .error errSubEntities) ∧
    ((∃ r, u.resolve fr name existing = .ok r) →
      (∃ n, entity = Entity.ns n) ∨ (∃ f, entity = Entity.fn f)) := by
  have hb : s.m_name.bind (fun n => fr n name existing) = none := by
    cases hm : s.m_name with
    | none => rfl
    | some n => simpa using hname n hm
  have key : u.resolve fr name existing =
      if entity.isNamespaceOrFun then .ok resolved else .error errSubEntities := by
    rw [resolve_lookup_eq fr u name existing hq, hscopes]
    have hrev : (outer ++ s :: inner).reverse = inner.reverse ++ s :: outer.reverse := by simp
    rw [hrev, resolveScopes_skip fr name existing inner.reverse _
      (fun t ht => hinner t (List.mem_reverse.mp ht))]
    simp only [resolveScopes, hb, hents,
      resolveEntities_first fr name existing before after path entity resolved hbefore hres]
  refine ⟨?_, ?_, ?_⟩
  · rintro (⟨n, rfl⟩ | ⟨f, rfl⟩) <;> simpa [Entity.isNamespaceOrFun] using key
  · rintro (⟨t, rfl⟩ | ⟨v, rfl⟩) <;> simpa [Entity.isNamespaceOrFun] using key
  · rintro ⟨r, hr⟩
    rw [key] at hr
    cases entity with
    | ns n => exact Or.inl ⟨n, rfl⟩
    | fn f => exact Or.inr ⟨f, rfl⟩
    | type t => simp [Entity.isNamespaceOrFun] at hr
    | var v => simp [Entity.isNamespaceOrFun] at hr

/-- Witness for C4: the lookup of `x` reaches the `Type` entity `int` in the top scope and
fails there, although a namespace registered after it and a namespace of the outer
scope would both resolve the path. -/
theorem resolve_first_entity_match_witness :
    UnitParser.resolve FullIdentPath.resolve
      ⟨⟨[], 0⟩, none,
        [⟨none, false, [(⟨["n"]⟩, Entity.ns ⟨IdentPath.ofIdent "n"⟩)]⟩,
         ⟨none, false, [(⟨["int"]⟩, Entity.type Ty.int),
                        (⟨["m"]⟩, Entity.ns ⟨IdentPath.ofIdent "m"⟩)]⟩]⟩
      (IdentPath.ofIdent "x") true = .error errSubEntities :=
  (resolve_first_entity_match FullIdentPath.resolve
      ⟨⟨[], 0⟩, none,
        [⟨none, false, [(⟨["n"]⟩, Entity.ns ⟨IdentPath.ofIdent "n"⟩)]⟩,
         ⟨none, false, [(⟨["int"]⟩, Entity.type Ty.int),
                        (⟨["m"]⟩, Entity.ns ⟨IdentPath.ofIdent "m"⟩)]⟩]⟩
      (IdentPath.ofIdent "x") true
      [⟨none, false, [(⟨["n"]⟩, Entity.ns ⟨IdentPath.ofIdent "n"⟩)]⟩] []
      ⟨none, false, [(⟨["int"]⟩, Entity.type Ty.int),
                     (⟨["m"]⟩, Entity.ns ⟨IdentPath.ofIdent "m"⟩)]⟩
      [] [(⟨["m"]⟩, Entity.ns ⟨IdentPath.ofIdent "m"⟩)] ⟨["int"]⟩ (Entity.type Ty.int)
      ⟨["int", "x"]⟩ rfl rfl (by simp) (by simp) rfl (by simp) rfl).2.1
    (Or.inl ⟨Ty.int, rfl⟩)

/-- C5: `UnitParser::resolve` returns the "Unknown namespace" error exactly when the
request is not a single-segment declaration and, for every scope of the stack,
neither the bound name of the scope nor the path of any entity registered in it
resolves the given path. -/
theorem resolve_unknown_namespace_iff (fr : PathResolver) (u : UnitParser) (name : IdentPath)
    (existing : Bool) :
    u.resolve fr name existing = .error (errUnknownNamespace name) ↔
      ((name.isSingle && !existing) = false ∧
        ∀ t ∈ u.m_scopes,
          (∀ n, t.m_name = some n → fr n name existing = none) ∧
          ∀ e ∈ t.m_entities, fr e.1 name existing = none) := by
  cases hq : (name.isSingle && !existing) with
  | true =>
    have : u.resolve fr name existing = .ok (resolveDecl name u.m_scopes.reverse) := by
      simp [UnitParser.resolve, hq]
    simp [this]
  | false =>
    rw [resolve_lookup_eq fr u name existing hq, resolveScopes_unknown_iff]
    simp [Scope.noMatch]

/-! ## `verifyCanPush` -/

theorem contains_iff {κ ν : Type} [DecidableEq κ] (m : Map κ ν) (k : κ) :
    Map.contains m k = true ↔ ∃ v, (k, v) ∈ m := by
  unfold Map.contains
  rw [List.any_eq_true]
  constructor
  · rintro ⟨⟨k', v⟩, hmem, hk⟩
    have hk' : k' = k := by simpa using hk
    exact ⟨v, hk' ▸ hmem⟩
  · rintro ⟨v, hmem⟩
    exact ⟨(k, v), hmem, by simp⟩

theorem error_scopes (u : UnitParser) (range : Range) (info : String) :
    (u.error range info).m_scopes = u.m_scopes := rfl

theorem error_messages (u : UnitParser) (range : Range) (info : String) :
    (u.error range info).m_shared.m_messages =
      u.m_shared.m_messages ++
        [(u.m_shared.m_rollbackLevel, ⟨Level.Error, u.m_src, info, range⟩)] := rfl

/-- C6: on a non-empty scope stack `UnitParser::verifyCanPush(name)` returns, and it
returns false exactly when the declaration path of `name` fails to resolve or the
resolved path is a key of the entity table of the top scope; a false result comes
with exactly one more `Error` message in the log; a true result leaves the whole
state as it was, and is what a path registered in outer scopes only gets; no
scope, hence no entity table, is changed in either case. -/
theorem verifyCanPush_spec (fr : PathResolver) (u : UnitParser) (name : IdentExpr)
    (hne : u.m_scopes ≠ []) :
    ∃ ok after, u.verifyCanPush fr name = some (ok, after) ∧
      after.m_scopes = u.m_scopes ∧
      (ok = false ↔
        ((∃ e, u.resolve fr name.path false = .error e) ∨
          ∃ path top entity, u.resolve fr name.path false = .ok path ∧
            u.m_scopes.getLast? = some top ∧ (path, entity) ∈ top.m_entities)) ∧
      (ok = false → ∃ tag message,
        after.m_shared.m_messages = u.m_shared.m_messages ++ [(tag, message)] ∧
        message.level = Level.Error) ∧
      (ok = true → after = u) ∧
      (∀ path outer top, u.resolve fr name.path false = .ok path →
        u.m_scopes = outer ++ [top] → (∀ entity, (path, entity) ∉ top.m_entities) →
        ok = true) := by
  obtain ⟨top, htop⟩ : ∃ top, u.m_scopes.getLast? = some top := by
    cases h : u.m_scopes.getLast? with
    | some top => exact ⟨top, rfl⟩
    | none => exact absurd (List.getLast?_eq_none_iff.mp h) hne
  cases hr : u.resolve fr name.path false with
  | error e =>
    refine ⟨false, u.error name.range e, by simp [UnitParser.verifyCanPush, hr],
      error_scopes _ _ _, by simp, fun _ => ⟨_, _, error_messages _ _ _, rfl⟩, by simp, by simp⟩
  | ok path =>
    by_cases hc : Map.contains top.m_entities path = true
    · obtain ⟨entity, hmem⟩ := (contains_iff _ _).mp hc
      refine ⟨false, u.error name.range _, by simp [UnitParser.verifyCanPush, hr, htop, hc]; rfl,
        error_scopes _ _ _, ?_, fun _ => ⟨_, _, error_messages _ _ _, rfl⟩, by simp, ?_⟩
      · simp only [true_iff]
        exact Or.inr ⟨path, top, entity, rfl, htop, hmem⟩
      · intro path' outer top' hp hsc hno
        have hp' : path' = path := by injection hp with hp; exact hp.symm
        have ht : top' = top := by
          rw [hsc] at htop
          simpa using htop
        exact absurd hmem (by rw [← hp', ← ht]; exact hno entity)
    · refine ⟨true, u, by simp [UnitParser.verifyCanPush, hr, htop, hc], rfl, ?_, by simp,
        fun _ => rfl, fun _ _ _ _ _ _ => rfl⟩
      constructor
      · intro h; cases h
      · rintro (⟨e, he⟩ | ⟨path', top', entity, hp, ht, hmem⟩)
        · cases he
        · have hp' : path' = path := by injection hp with hp; exact hp.symm
          have ht' : top' = top := by rw [htop] at ht; injection ht with ht; exact ht.symm
          exact absurd ((contains_iff _ _).mpr ⟨entity, by rw [← hp', ← ht']; exact hmem⟩) hc

/-- Witness for C6: `a` is registered in the root scope only; inside an unnamed block
scope the check for a new `a` succeeds. -/
theorem verifyCanPush_spec_witness :
    ∃ ok after,
      UnitParser.verifyCanPush FullIdentPath.resolve
        ⟨⟨[], 0⟩, none,
          [⟨none, false, [(⟨["a"]⟩, Entity.var ⟨IdentPath.ofIdent "a"⟩)]⟩, ⟨none, false, []⟩]⟩
        ⟨IdentPath.ofIdent "a", ⟨1, 1, 1, 2⟩⟩ = some (ok, after) ∧ ok = true := by
  obtain ⟨ok, after, h, _, _, _, _, hshadow⟩ := verifyCanPush_spec FullIdentPath.resolve
    ⟨⟨[], 0⟩, none,
      [⟨none, false, [(⟨["a"]⟩, Entity.var ⟨IdentPath.ofIdent "a"⟩)]⟩, ⟨none, false, []⟩]⟩
    ⟨IdentPath.ofIdent "a", ⟨1, 1, 1, 2⟩⟩ (by simp)
  exact ⟨ok, after, h, hshadow ⟨["a"]⟩
    [⟨none, false, [(⟨["a"]⟩, Entity.var ⟨IdentPath.ofIdent "a"⟩)]⟩] ⟨none, false, []⟩
    rfl rfl (by simp)⟩

/-! ## The diagnostics log -/

theorem logAll_messages (attempt : List (Message × Nat)) (p : Parser) :
    (p.logAll attempt).m_messages = p.m_messages ++ attempt.map (fun e => (e.2, e.1)) ∧
      (p.logAll attempt).m_rollbackLevel = p.m_rollbackLevel := by
  induction attempt generalizing p with
  | nil => simp [Parser.logAll]
  | cons e attempt ih =>
    have h := ih (p.log e.1 e.2)
    simp only [Parser.logAll, List.foldl_cons] at h ⊢
    refine ⟨?_, h.2⟩
    rw [h.1]
    simp [Parser.log]

theorem popMessages_messages (p : Parser) (level : Nat) :
    (p.popMessages level).m_messages = p.m_messages.filter (fun e => decide (e.1 < level)) := by
  simp only [Parser.popMessages, ranges.remove]
  congr 1
  funext e
  by_cases h : e.1 < level
  · simp [h, Nat.not_le.mpr h]
  · simp [h, Nat.not_lt.mp h]

/-- Counterexample for C7: a message is logged at the current level 0, a checkpoint is
taken (token 0), one message is logged during the attempt, and `popMessages(0)` is
called: the log had one message before the checkpoint and has none afterwards. -/
theorem rollback_counterexample :
    ((((Parser.mk [] 0).log ⟨Level.Warning, none, "kept", ⟨1, 1, 1, 2⟩⟩ 0).pushLogLevel.2.logAll
        [(⟨Level.Error, none, "attempt", ⟨2, 1, 2, 2⟩⟩, 1)]).popMessages
      ((Parser.mk [] 0).log ⟨Level.Warning, none, "kept", ⟨1, 1, 1, 2⟩⟩ 0).pushLogLevel.1
      ).m_messages.length ≠
    ((Parser.mk [] 0).log ⟨Level.Warning, none, "kept", ⟨1, 1, 1, 2⟩⟩ 0).m_messages.length := by
  decide

/-- C7 (amended): if every message already in the log was recorded with a level below
the current rollback level, a checkpoint token `t` is taken with `pushLogLevel()`, the
`N` messages of the attempt are logged with levels not below `t`, and `popMessages(t)`
is called, then the log is again the log from before `pushLogLevel()`: the earlier
messages are all kept, the `N` attempt messages are all removed, and the count is
what it was. -/
theorem rollback_restores_log (p : Parser) (attempt : List (Message × Nat))
    (hold : ∀ e ∈ p.m_messages, e.1 < p.m_rollbackLevel)
    (hnew : ∀ e ∈ attempt, p.m_rollbackLevel ≤ e.2) :
    p.pushLogLevel.1 = p.m_rollbackLevel ∧
    (p.pushLogLevel.2.logAll attempt).m_messages.length =
      p.m_messages.length + attempt.length ∧
    ((p.pushLogLevel.2.logAll attempt).popMessages p.pushLogLevel.1).m_messages
      = p.m_messages ∧
    ((p.pushLogLevel.2.logAll attempt).popMessages p.pushLogLevel.1).m_messages.length
      = p.m_messages.length := by
  have hlog := (logAll_messages attempt p.pushLogLevel.2).1
  have hpop : ((p.pushLogLevel.2.logAll attempt).popMessages p.pushLogLevel.1).m_messages
      = p.m_messages := by
    rw [popMessages_messages, hlog]
    simp only [Parser.pushLogLevel, List.filter_append]
    have h1 : p.m_messages.filter (fun e => decide (e.1 < p.m_rollbackLevel)) = p.m_messages :=
      List.filter_eq_self.mpr (fun e he => by simpa using hold e he)
    have h2 : (attempt.map (fun e => (e.2, e.1))).filter
        (fun e => decide (e.1 < p.m_rollbackLevel)) = [] := by
      rw [List.filter_eq_nil_iff]
      intro e he
      obtain ⟨e', he', rfl⟩ := List.mem_map.mp he
      simpa using hnew e' he'
    rw [h1, h2, List.append_nil]
  refine ⟨rfl, ?_, hpop, by rw [hpop]⟩
  rw [hlog]
  simp [Parser.pushLogLevel]

/-- Witness for C7 (amended): an earlier message at level 0, a checkpoint taken at
rollback level 1, two attempt messages logged at level 2. -/
theorem rollback_restores_log_witness :
    (((Parser.mk [(0, ⟨Level.Warning, none, "kept", ⟨1, 1, 1, 2⟩⟩)] 1).pushLogLevel.2.logAll
        [(⟨Level.Error, none, "first", ⟨2, 1, 2, 2⟩⟩, 2),
         (⟨Level.Error, none, "second", ⟨3, 1, 3, 2⟩⟩, 2)]).popMessages
      (Parser.mk [(0, ⟨Level.Warning, none, "kept", ⟨1, 1, 1, 2⟩⟩)] 1).pushLogLevel.1).m_messages
      = [(0, ⟨Level.Warning, none, "kept", ⟨1, 1, 1, 2⟩⟩)] :=
  (rollback_restores_log (Parser.mk [(0, ⟨Level.Warning, none, "kept", ⟨1, 1, 1, 2⟩⟩)] 1)
    [(⟨Level.Error, none, "first", ⟨2, 1, 2, 2⟩⟩, 2),
     (⟨Level.Error, none, "second", ⟨3, 1, 3, 2⟩⟩, 2)]
    (by simp) (by simp)).2.2.1

/-- C8: `Parser::popMessages(level)` leaves exactly the entries whose recorded level is
strictly below `level`, in their original relative order; every entry recorded with
a level greater than or equal to `level` is removed, the length shrinks by their
number, and the rollback level is untouched. -/
theorem popMessages_spec (p : Parser) (level : Nat) :
    (p.popMessages level).m_messages = p.m_messages.filter (fun e => decide (e.1 < level)) ∧
    (p.popMessages level).m_messages.Sublist p.m_messages ∧
    (∀ e, e ∈ (p.popMessages level).m_messages ↔ (e ∈ p.m_messages ∧ e.1 < level)) ∧
    (∀ e ∈ p.m_messages, level ≤ e.1 → e ∉ (p.popMessages level).m_messages) ∧
    (p.popMessages level).m_messages.length +
        p.m_messages.countP (fun e => decide (level ≤ e.1)) = p.m_messages.length ∧
    (p.popMessages level).m_rollbackLevel = p.m_rollbackLevel := by
  have hm := popMessages_messages p level
  refine ⟨hm, ?_, ?_, ?_, ?_, rfl⟩
  · rw [hm]; exact List.filter_sublist _
  · intro e; rw [hm]; simp
  · intro e _ hle; rw [hm]; simp [Nat.not_lt.mpr hle]
  · rw [hm, ← List.countP_eq_length_filter,
      List.length_eq_countP_add_countP (fun e => decide (e.1 < level)) p.m_messages]
    congr 1
    apply List.countP_congr
    intro e _
    simp [Nat.not_lt]

theorem pushLogLevels_tokens (k : Nat) (p : Parser) (h : p.m_rollbackLevel + k ≤ SIZE_MOD) :
    (Parser.pushLogLevels k p).1 = List.range' p.m_rollbackLevel k := by
  induction k generalizing p with
  | zero => rfl
  | succ k ih =>
    simp only [Parser.pushLogLevels, List.range'_succ]
    cases k with
    | zero => rfl
    | succ k =>
      have hlt : p.m_rollbackLevel + 1 < SIZE_MOD := by omega
      have hlevel : p.pushLogLevel.2.m_rollbackLevel = p.m_rollbackLevel + 1 := by
        simp [Parser.pushLogLevel, Nat.mod_eq_of_lt hlt]
      have := ih p.pushLogLevel.2 (by rw [hlevel]; omega)
      rw [this, hlevel]
      rfl

/-- Counterexample for C9: after one `popLogLevel` on a fresh parser the rollback level is
`2^64 - 1`, and the tokens of the next two nested `pushLogLevel` calls are `2^64 - 1`
and `0`: they are not increasing. -/
theorem logLevel_counterexample :
    (Parser.mk [] 0).popLogLevel.m_rollbackLevel = SIZE_MOD - 1 ∧
    (Parser.pushLogLevels 2 (Parser.mk [] 0).popLogLevel).1 = [SIZE_MOD - 1, 0] ∧
    ¬ List.Pairwise (fun s t => s < t)
      (Parser.pushLogLevels 2 (Parser.mk [] 0).popLogLevel).1 := by
  have h : (Parser.pushLogLevels 2 (Parser.mk [] 0).popLogLevel).1 = [SIZE_MOD - 1, 0] := by
    simp [Parser.pushLogLevels, Parser.pushLogLevel, Parser.popLogLevel, SIZE_MOD]
  refine ⟨by simp [Parser.popLogLevel, SIZE_MOD], h, ?_⟩
  rw [h]
  simp [SIZE_MOD]

/-- C9 (amended): `Parser::pushLogLevel` returns the current rollback level and then
increments it modulo the range of `size_t`, leaving the log alone; as long as the
level does not wrap around (`level + k ≤ 2^64`), the tokens of `k` successive nested
calls are the consecutive levels, strictly increasing, and at the level `2^64 - 1`
the next token is `0`; `popLogLevel` decrements the level modulo the range of
`size_t`, so `pushLogLevel` followed by `popLogLevel` restores the state and the next
`pushLogLevel` returns the same token again. -/
theorem logLevel_tokens (p : Parser) (k : Nat) (hsize : p.m_rollbackLevel < SIZE_MOD)
    (hwrap : p.m_rollbackLevel + k ≤ SIZE_MOD) :
    p.pushLogLevel.1 = p.m_rollbackLevel ∧
    p.pushLogLevel.2.m_rollbackLevel = (p.m_rollbackLevel + 1) % SIZE_MOD ∧
    p.pushLogLevel.2.m_messages = p.m_messages ∧
    (p.m_rollbackLevel + 1 < SIZE_MOD →
      p.pushLogLevel.1 < p.pushLogLevel.2.pushLogLevel.1) ∧
    (p.m_rollbackLevel + 1 = SIZE_MOD → p.pushLogLevel.2.pushLogLevel.1 = 0) ∧
    (Parser.pushLogLevels k p).1 = List.range' p.m_rollbackLevel k ∧
    List.Pairwise (fun s t => s < t) (Parser.pushLogLevels k p).1 ∧
    p.popLogLevel.m_rollbackLevel = (p.m_rollbackLevel + (SIZE_MOD - 1)) % SIZE_MOD ∧
    p.pushLogLevel.2.popLogLevel = p ∧
    p.pushLogLevel.2.popLogLevel.pushLogLevel.1 = p.pushLogLevel.1 := by
  have hrestore : p.pushLogLevel.2.popLogLevel = p := by
    have hlevel : ((p.m_rollbackLevel + 1) % SIZE_MOD + (SIZE_MOD - 1)) % SIZE_MOD
        = p.m_rollbackLevel := by
      unfold SIZE_MOD at hsize ⊢
      omega
    cases p with
    | mk messages level => simpa [Parser.pushLogLevel, Parser.popLogLevel] using hlevel
  refine ⟨rfl, rfl, rfl, ?_, ?_, pushLogLevels_tokens k p hwrap, ?_, rfl, hrestore,
    by rw [hrestore]⟩
  · intro hlt
    simp [Parser.pushLogLevel, Nat.mod_eq_of_lt hlt]
  · intro heq
    simp [Parser.pushLogLevel, heq]
  · rw [pushLogLevels_tokens k p hwrap]
    exact List.pairwise_lt_range' _ _

/-- Witness for C9 (amended): three nested checkpoints on a fresh log return the tokens 0,
1, 2. -/
theorem logLevel_tokens_witness :
    (Parser.pushLogLevels 3 (Parser.mk [] 0)).1 = [0, 1, 2] ∧
    (Parser.mk [] 0).pushLogLevel.2.popLogLevel = Parser.mk [] 0 :=
  ⟨(logLevel_tokens (Parser.mk [] 0) 3 (by decide) (by decide)).2.2.2.2.2.1,
   (logLevel_tokens (Parser.mk [] 0) 0 (by decide) (by decide)).2.2.2.2.2.2.2.2.1⟩

/-! ## Exported types -/

theorem insert_of_contains {κ ν : Type} [DecidableEq κ] (m : Map κ ν) (k : κ) (v : ν)
    (h : Map.contains m k = true) : Map.insert m k v = m := by
  simp [Map.insert, h]

theorem addExportedType_unchanged (gn : NameOf) (fr : PathResolver) (p : ParsedSrc)
    (state : UnitParser) (type : Ty) : (p.addExportedType gn fr state type).2 = p := by
  unfold ParsedSrc.addExportedType
  cases hn : gn type with
  | none => rfl
  | some name =>
    cases hr : state.resolve fr name false with
    | error e => simp only [hr]
    | ok path =>
      by_cases hc : Map.contains p.m_exportedTypes path = true
      · simp [hr, hc, insert_of_contains]
      · simp [hr, hc]

/-- C10 (evaluation of the code): for a named type whose name resolves, as a
declaration, to a path that is not yet in the exported-type map,
`ParsedSrc::addExportedType` returns false and registers nothing, so that
`getExportedType(path)` is still `None` afterwards; in fact no call ever changes the
map. A path that is not a key of the map is answered with `None`. -/
theorem addExportedType_rejects_new (gn : NameOf) (fr : PathResolver) (p : ParsedSrc)
    (state : UnitParser) (type : Ty) (name : IdentPath) (path : FullIdentPath)
    (hname : gn type = some name) (hpath : state.resolve fr name false = .ok path)
    (hnew : Map.contains p.m_exportedTypes path = false) :
    (p.addExportedType gn fr state type).1 = false ∧
    (p.addExportedType gn fr state type).2 = p ∧
    (p.addExportedType gn fr state type).2.getExportedType path = none ∧
    (∀ (state' : UnitParser) (type' : Ty), (p.addExportedType gn fr state' type').2 = p) ∧
    (∀ (q : ParsedSrc) (other : FullIdentPath),
      Map.contains q.m_exportedTypes other = false → q.getExportedType other = none) := by
  have hq : ∀ (q : ParsedSrc) (other : FullIdentPath),
      Map.contains q.m_exportedTypes other = false → q.getExportedType other = none := by
    intro q other h
    simp [ParsedSrc.getExportedType, h]
  refine ⟨?_, addExportedType_unchanged gn fr p state type, ?_,
    fun state' type' => addExportedType_unchanged gn fr p state' type', hq⟩
  · simp [ParsedSrc.addExportedType, hname, hpath, hnew]
  · rw [addExportedType_unchanged]
    exact hq p path hnew

/-- Witness for C10: on an empty export map and a fresh unit, the struct type named `Foo`
is rejected and `Foo` is still not exported. -/
theorem addExportedType_rejects_new_witness :
    (ParsedSrc.addExportedType Ty.getName FullIdentPath.resolve ⟨[]⟩
        (UnitParser.new Ty.getName FullIdentPath.resolve ⟨[], 0⟩ none)
        (Ty.struct (StructType.mk (some (IdentPath.ofIdent "Foo")) [] false))).1 = false ∧
    (ParsedSrc.addExportedType Ty.getName FullIdentPath.resolve ⟨[]⟩
        (UnitParser.new Ty.getName FullIdentPath.resolve ⟨[], 0⟩ none)
        (Ty.struct (StructType.mk (some (IdentPath.ofIdent "Foo")) [] false))).2.getExportedType
      ⟨["Foo"]⟩ = none :=
  have h := addExportedType_rejects_new Ty.getName FullIdentPath.resolve ⟨[]⟩
    (UnitParser.new Ty.getName FullIdentPath.resolve ⟨[], 0⟩ none)
    (Ty.struct (StructType.mk (some (IdentPath.ofIdent "Foo")) [] false))
    (IdentPath.ofIdent "Foo") ⟨["Foo"]⟩ rfl rfl rfl
  ⟨h.1, h.2.2.1⟩

/-! ## `Parser::compile` and the scope stack -/

theorem compile_of_raised (parse : Parser → String → ParseOutcome) (rootRange : String → Range)
    (defaultLevel : Nat) (p : ParserState) (root : String) (shared : Parser) (what : String)
    (hroot : p.m_root = some root) (hparse : parse p.toParser root = .raised shared what) :
    p.compile parse rootRange defaultLevel =
      .ok { toParser := shared.log
              ⟨.Error, some root, "Internal Compiler Error: " ++ what, rootRange root⟩
              defaultLevel,
            m_root := some root, m_parsed := p.m_parsed } := by
  simp only [ParserState.compile, hroot, hparse]

theorem compile_of_returned (parse : Parser → String → ParseOutcome)
    (rootRange : String → Range) (defaultLevel : Nat) (p : ParserState) (root : String)
    (shared : Parser) (parsed : ParsedSrc)
    (hroot : p.m_root = some root) (hparse : parse p.toParser root = .returned shared parsed) :
    p.compile parse rootRange defaultLevel =
      .ok { toParser := shared, m_root := some root, m_parsed := some parsed } := by
  simp only [ParserState.compile, hroot, hparse]

/-- C11: `Parser::compile` never lets an exception out; when `UnitParser::parse` raises,
the log is the log left by the parse followed by exactly one `Error` message whose
text is "Internal Compiler Error: " followed by the exception text, so every message
logged earlier is kept, and nothing else changes; when the parse returns, compile
logs nothing; when the parser has no root source, compile changes nothing. -/
theorem compile_catches (parse : Parser → String → ParseOutcome) (rootRange : String → Range)
    (defaultLevel : Nat) (p : ParserState) :
    (∃ q, p.compile parse rootRange defaultLevel = .ok q) ∧
    (p.m_root = none → p.compile parse rootRange defaultLevel = .ok p) ∧
    (∀ root shared what, p.m_root = some root →
      parse p.toParser root = .raised shared what →
      ∃ q message, p.compile parse rootRange defaultLevel = .ok q ∧
        q.m_messages = shared.m_messages ++ [(defaultLevel, message)] ∧
        message.level = Level.Error ∧
        message.info = "Internal Compiler Error: " ++ what ∧
        message.src = some root ∧
        (∀ e ∈ shared.m_messages, e ∈ q.m_messages) ∧
        q.m_messages.length = shared.m_messages.length + 1 ∧
        q.m_rollbackLevel = shared.m_rollbackLevel ∧
        q.m_root = p.m_root ∧ q.m_parsed = p.m_parsed) ∧
    (∀ root shared parsed, p.m_root = some root →
      parse p.toParser root = .returned shared parsed →
      ∃ q, p.compile parse rootRange defaultLevel = .ok q ∧
        q.toParser = shared ∧ q.m_parsed = some parsed) := by
  refine ⟨?_, ?_, ?_, ?_⟩
  · cases hroot : p.m_root with
    | none => exact ⟨p, by simp [ParserState.compile, hroot]⟩
    | some root =>
      cases hparse : parse p.toParser root with
      | returned shared parsed =>
        exact ⟨_, compile_of_returned parse rootRange defaultLevel p root shared parsed
          hroot hparse⟩
      | raised shared what =>
        exact ⟨_, compile_of_raised parse rootRange defaultLevel p root shared what
          hroot hparse⟩
  · intro h
    simp [ParserState.compile, h]
  · intro root shared what hroot hparse
    refine ⟨_, ⟨.Error, some root, "Internal Compiler Error: " ++ what, rootRange root⟩,
      compile_of_raised parse rootRange defaultLevel p root shared what hroot hparse,
      rfl, rfl, rfl, rfl, ?_, ?_, rfl, hroot.symm, rfl⟩
    · intro e he
      simp [Parser.log, he]
    · simp [Parser.log]
  · intro root shared parsed hroot hparse
    exact ⟨_, compile_of_returned parse rootRange defaultLevel p root shared parsed
      hroot hparse, rfl, rfl⟩

/-- Witness for C11: a parse that logs one warning and then raises "Scope stack is empty"
leaves two messages, the second being the internal compiler error. -/
theorem compile_catches_witness :
    ∃ q message,
      ParserState.compile
        (fun shared _ => .raised
          (shared.log ⟨Level.Warning, some "main.gdml", "unused", ⟨1, 1, 1, 2⟩⟩ 0)
          "Scope stack is empty")
        (fun _ => ⟨0, 0, 0, 0⟩) 0 ⟨⟨[], 0⟩, some "main.gdml", none⟩ = .ok q ∧
      q.m_messages =
        [(0, ⟨Level.Warning, some "main.gdml", "unused", ⟨1, 1, 1, 2⟩⟩)] ++ [(0, message)] ∧
      message.info = "Internal Compiler Error: " ++ "Scope stack is empty" := by
  obtain ⟨q, message, h, hm, _, hi, _⟩ := (compile_catches
    (fun shared _ => .raised
      (shared.log ⟨Level.Warning, some "main.gdml", "unused", ⟨1, 1, 1, 2⟩⟩ 0)
      "Scope stack is empty")
    (fun _ => ⟨0, 0, 0, 0⟩) 0 ⟨⟨[], 0⟩, some "main.gdml", none⟩).2.2.1
    "main.gdml" _ "Scope stack is empty" rfl rfl
  exact ⟨q, message, h, hm, hi⟩

/-- C12: on a non-empty scope stack `UnitParser::popScope` raises exactly when the stack
holds one scope; otherwise it removes the top scope and leaves the scopes below
and the rest of the state as they were; `pushScope` followed by `popScope` does not
raise and restores the state; `isRootScope()` holds exactly when the stack holds
one scope. -/
theorem popScope_spec (fr : PathResolver) (u : UnitParser) (loc : String)
    (hne : u.m_scopes ≠ []) :
    ((∃ e, u.popScope loc = .error e) ↔ u.m_scopes.length = 1) ∧
    (∀ below top, u.m_scopes = below ++ [top] → below ≠ [] →
      u.popScope loc = .ok { u with m_scopes := below }) ∧
    (∀ name function, (u.pushScope fr name function).popScope loc = .ok u) ∧
    (u.isRootScope = true ↔ u.m_scopes.length = 1) := by
  have hpop : ∀ (v : UnitParser) (below : List Scope) (top : Scope),
      v.m_scopes = below ++ [top] → below ≠ [] →
      v.popScope loc = .ok { v with m_scopes := below } := by
    intro v below top hsc hb
    have hd : v.m_scopes.dropLast = below := by rw [hsc]; simp
    have he : below.isEmpty = false := by
      cases below with
      | nil => exact absurd rfl hb
      | cons b below => rfl
    simp [UnitParser.popScope, hd, he]
  refine ⟨?_, hpop u, ?_, ?_⟩
  · obtain ⟨below, top, hsc⟩ : ∃ below top, u.m_scopes = below ++ [top] :=
      ⟨u.m_scopes.dropLast, u.m_scopes.getLast hne, (List.dropLast_append_getLast hne).symm⟩
    cases below with
    | nil =>
      have hd : u.m_scopes.dropLast = [] := by rw [hsc]; rfl
      simp [UnitParser.popScope, hd, hsc]
    | cons b below =>
      rw [hpop u (b :: below) top hsc (by simp), hsc]
      simp
  · intro name function
    exact hpop (u.pushScope fr name function) u.m_scopes _ rfl hne
  · simp [UnitParser.isRootScope]

/-- Witness for C12: popping the root scope alone raises; popping a block scope above it
gives back the root. -/
theorem popScope_spec_witness :
    (∃ e, UnitParser.popScope ⟨⟨[], 0⟩, none, [⟨none, false, []⟩]⟩ "here" = .error e) ∧
    UnitParser.popScope ⟨⟨[], 0⟩, none, [⟨none, false, []⟩, ⟨none, true, []⟩]⟩ "here"
      = .ok ⟨⟨[], 0⟩, none, [⟨none, false, []⟩]⟩ :=
  ⟨(popScope_spec FullIdentPath.resolve ⟨⟨[], 0⟩, none, [⟨none, false, []⟩]⟩ "here"
      (by simp)).1.mpr rfl,
   (popScope_spec FullIdentPath.resolve
      ⟨⟨[], 0⟩, none, [⟨none, false, []⟩, ⟨none, true, []⟩]⟩ "here" (by simp)).2.1
      [⟨none, false, []⟩] ⟨none, true, []⟩ rfl (by simp)⟩

theorem resolve_of_scopes (fr : PathResolver) (u v : UnitParser) (name : IdentPath)
    (existing : Bool) (h : u.m_scopes = v.m_scopes) :
    u.resolve fr name existing = v.resolve fr name existing := by
  simp [UnitParser.resolve, h]

/-! ## Calls and binary expressions (`AST.cpp`) -/

namespace ast

open compiler

theorem typecheckChildren_length (children : List Node) (inst inst1 : Instance)
    (typed : List (Node × QualifiedType))
    (h : typecheckChildren children inst = .ok typed inst1) :
    typed.length = children.length := by
  induction children generalizing inst inst1 typed with
  | nil =>
    simp only [typecheckChildren] at h
    injection h with h _
    simp [← h]
  | cons child rest ih =>
    simp only [typecheckChildren] at h
    cases hc : child.compile inst with
    | ok ty i1 =>
      simp only [hc, Outcome.bind] at h
      cases hr : typecheckChildren rest i1 with
      | ok tys i2 =>
        simp only [hr] at h
        injection h with h _
        rw [← h]
        simp [ih i1 i2 tys hr]
      | err e i2 => simp [hr] at h
      | terminate => simp [hr] at h
      | undefined => simp [hr] at h
    | err e i1 => simp [hc, Outcome.bind] at h
    | terminate => simp [hc, Outcome.bind] at h
    | undefined => simp [hc, Outcome.bind] at h

theorem checkArgs_none_iff (api : TypeApi) (inst : Instance) (parameters : List QualifiedType)
    (args : List (Node × QualifiedType)) (i : Nat) :
    CallExpr.checkArgs api inst parameters i args = none ↔
      ∀ j a, args[j]? = some a →
        ∃ p, parameters[i + j]? = some p ∧ api.convertibleTo a.2 p = true := by
  induction args generalizing i with
  | nil => simp [CallExpr.checkArgs]
  | cons arg rest ih =>
    obtain ⟨node, argType⟩ := arg
    constructor
    · intro h j a ha
      cases hp : parameters[i]? with
      | none => simp [CallExpr.checkArgs, hp] at h
      | some targetArg =>
        by_cases hc : api.convertibleTo argType targetArg = true
        · simp only [CallExpr.checkArgs, hp, hc, Bool.not_true, Bool.false_eq_true,
            if_false] at h
          cases j with
          | zero =>
            simp only [List.getElem?_cons_zero, Option.some.injEq] at ha
            exact ⟨targetArg, by simpa using hp, by rw [← ha]; exact hc⟩
          | succ j =>
            simp only [List.getElem?_cons_succ] at ha
            obtain ⟨p, hp', hc'⟩ := (ih (i + 1)).mp h j a ha
            exact ⟨p, by rw [← hp']; congr 1; omega, hc'⟩
        · simp [CallExpr.checkArgs, hp, hc] at h
    · intro h
      obtain ⟨p, hp, hc⟩ := h 0 (node, argType) (by simp)
      have hp' : parameters[i]? = some p := by simpa using hp
      simp only at hc
      simp only [CallExpr.checkArgs, hp', hc, Bool.not_true, Bool.false_eq_true, if_false]
      apply (ih (i + 1)).mpr
      intro j a ha
      obtain ⟨q, hq, hcq⟩ := h (j + 1) a (by simpa using ha)
      exact ⟨q, by rw [← hq]; congr 1; omega, hcq⟩

theorem checkArgs_cases (api : TypeApi) (inst : Instance) (parameters : List QualifiedType)
    (args : List (Node × QualifiedType)) (i : Nat) :
    CallExpr.checkArgs api inst parameters i args = none ∨
    CallExpr.checkArgs api inst parameters i args = some .terminate ∨
    ∃ e, CallExpr.checkArgs api inst parameters i args = some (.err e inst) ∧
      e.code = Error.TypeError := by
  induction args generalizing i with
  | nil => exact Or.inl rfl
  | cons arg rest ih =>
    obtain ⟨node, argType⟩ := arg
    cases hp : parameters[i]? with
    | none => exact Or.inr (Or.inl (by simp [CallExpr.checkArgs, hp]))
    | some targetArg =>
      by_cases hc : api.convertibleTo argType targetArg = true
      · simp only [CallExpr.checkArgs, hp, hc, Bool.not_true, Bool.false_eq_true, if_false]
        exact ih (i + 1)
      · exact Or.inr (Or.inr ⟨CallExpr.argumentError api inst node argType targetArg,
          by simp [CallExpr.checkArgs, hp, hc], rfl⟩)

theorem checkArgs_terminate (api : TypeApi) (inst : Instance) (parameters : List QualifiedType)
    (args : List (Node × QualifiedType)) (i : Nat)
    (hconv : ∀ j a p, args[j]? = some a → parameters[i + j]? = some p →
      api.convertibleTo a.2 p = true)
    (hmore : parameters.length < i + args.length) (hi : i ≤ parameters.length) :
    CallExpr.checkArgs api inst parameters i args = some .terminate := by
  induction args generalizing i with
  | nil => simp at hmore; omega
  | cons arg rest ih =>
    obtain ⟨node, argType⟩ := arg
    cases hp : parameters[i]? with
    | none => simp [CallExpr.checkArgs, hp]
    | some targetArg =>
      have hc : api.convertibleTo argType targetArg = true :=
        hconv 0 (node, argType) targetArg (by simp) (by simpa using hp)
      have hlt : i < parameters.length := by
        by_contra hge
        rw [List.getElem?_eq_none (by omega)] at hp
        cases hp
      simp only [CallExpr.checkArgs, hp, hc, Bool.not_true, Bool.false_eq_true, if_false]
      apply ih (i + 1)
      · intro j a p ha hpj
        exact hconv (j + 1) a p (by simpa using ha) (by rw [← hpj]; congr 1; omega)
      · simp only [List.length_cons] at hmore; omega
      · omega

theorem checkArgs_error (api : TypeApi) (inst : Instance) (parameters : List QualifiedType)
    (args : List (Node × QualifiedType)) (i : Nat)
    (hbad : ∃ j a p, args[j]? = some a ∧ parameters[i + j]? = some p ∧
      api.convertibleTo a.2 p = false) :
    ∃ e, CallExpr.checkArgs api inst parameters i args = some (.err e inst) ∧
      e.code = Error.TypeError := by
  induction args generalizing i with
  | nil =>
    obtain ⟨j, a, p, ha, _⟩ := hbad
    simp at ha
  | cons arg rest ih =>
    obtain ⟨node, argType⟩ := arg
    obtain ⟨j, a, p, ha, hp, hc⟩ := hbad
    have hlt : i < parameters.length := by
      by_contra hge
      rw [List.getElem?_eq_none (by omega)] at hp
      cases hp
    obtain ⟨targetArg, htarget⟩ : ∃ t, parameters[i]? = some t :=
      ⟨parameters[i], List.getElem?_eq_getElem hlt⟩
    by_cases hconv : api.convertibleTo argType targetArg = true
    · simp only [CallExpr.checkArgs, htarget, hconv, Bool.not_true, Bool.false_eq_true,
        if_false]
      cases j with
      | zero =>
        simp only [List.getElem?_cons_zero, Option.some.injEq] at ha
        have hp' : parameters[i]? = some p := by simpa using hp
        rw [htarget] at hp'
        injection hp' with hp'
        rw [← ha, ← hp'] at hc
        simp only at hc
        rw [hconv] at hc
        cases hc
      | succ j =>
        apply ih (i + 1)
        exact ⟨j, a, p, by simpa using ha, by rw [← hp]; congr 1; omega, hc⟩
    · exact ⟨CallExpr.argumentError api inst node argType targetArg,
        by simp [CallExpr.checkArgs, htarget, hconv], rfl⟩

theorem callExpr_of_function (api : TypeApi) (self : CallExpr) (inst inst1 inst2 : Instance)
    (target returnType : QualifiedType) (parameters : List QualifiedType)
    (args : List (Node × QualifiedType))
    (ht : self.target.compile inst = .ok target inst1)
    (ha : typecheckChildren self.args inst1 = .ok args inst2)
    (hf : target.type = some (.function returnType parameters)) :
    self.compile api inst =
      match CallExpr.checkArgs api inst2 parameters 0 args with
      | some out => out
      | none => .ok returnType inst2 := by
  simp only [CallExpr.compile, typecheckChild, ht, Outcome.bind, ha, hf]

end ast

namespace ast

open compiler

/-- C13 (evaluation of the code): `CallExpr::compile` has no arity check. With a target of
function type and arguments that typecheck and are convertible to the parameters
at their positions, a call with fewer arguments than parameters succeeds with the
return type, and a call with more arguments than parameters ends in `std::terminate`
(`at(i)` throws inside the `noexcept` function); neither returns a type error. -/
theorem callExpr_arity_unchecked (api : TypeApi) (self : CallExpr)
    (inst inst1 inst2 : Instance) (target returnType : QualifiedType)
    (parameters : List QualifiedType) (args : List (Node × QualifiedType))
    (ht : self.target.compile inst = .ok target inst1)
    (ha : typecheckChildren self.args inst1 = .ok args inst2)
    (hf : target.type = some (.function returnType parameters))
    (hconv : ∀ (j : Nat) (a : Node × QualifiedType) (p : QualifiedType),
      args[j]? = some a → parameters[j]? = some p →
      api.convertibleTo a.2 p = true) :
    (self.args.length ≤ parameters.length → self.compile api inst = .ok returnType inst2) ∧
    (parameters.length < self.args.length → self.compile api inst = .terminate) := by
  have hlen := typecheckChildren_length self.args inst1 inst2 args ha
  rw [callExpr_of_function api self inst inst1 inst2 target returnType parameters args ht ha hf]
  constructor
  · intro hle
    have hnone : CallExpr.checkArgs api inst2 parameters 0 args = none := by
      apply (checkArgs_none_iff api inst2 parameters args 0).mpr
      intro j a haj
      have hj : j < args.length := by
        by_contra hge
        rw [List.getElem?_eq_none (by omega)] at haj
        cases haj
      have hp : parameters[j]? = some parameters[j] := List.getElem?_eq_getElem (by omega)
      exact ⟨parameters[j], by simp [hp], hconv j a _ haj hp⟩
    rw [hnone]
  · intro hlt
    rw [checkArgs_terminate api inst2 parameters args 0
      (fun j a p haj hp => hconv j a p haj (by simpa using hp)) (by omega) (by omega)]

/-- Witness for C13: a function of one parameter called with no argument typechecks, and
called with two arguments of the parameter type it terminates the process. -/
theorem callExpr_arity_unchecked_witness :
    CallExpr.compile constAwareApi
      ⟨typedNode (.mk (some (.function (.mk (some (.other .Void)) ⟨false⟩)
        [.mk (some (.other .I32)) ⟨false⟩])) ⟨false⟩), [], ⟨0, 0⟩, ⟨0, 0⟩⟩ (emptyInstance [])
      = .ok (.mk (some (.other .Void)) ⟨false⟩) (emptyInstance []) ∧
    CallExpr.compile constAwareApi
      ⟨typedNode (.mk (some (.function (.mk (some (.other .Void)) ⟨false⟩)
        [.mk (some (.other .I32)) ⟨false⟩])) ⟨false⟩),
       [typedNode (.mk (some (.other .I32)) ⟨false⟩),
        typedNode (.mk (some (.other .I32)) ⟨false⟩)], ⟨0, 0⟩, ⟨0, 0⟩⟩ (emptyInstance [])
      = .terminate :=
  ⟨(callExpr_arity_unchecked constAwareApi
      ⟨typedNode (.mk (some (.function (.mk (some (.other .Void)) ⟨false⟩)
        [.mk (some (.other .I32)) ⟨false⟩])) ⟨false⟩), [], ⟨0, 0⟩, ⟨0, 0⟩⟩
      (emptyInstance []) (emptyInstance [])
      (emptyInstance []) _ (.mk (some (.other .Void)) ⟨false⟩)
      [.mk (some (.other .I32)) ⟨false⟩] [] rfl rfl rfl (by simp)).1 (by simp),
   (callExpr_arity_unchecked constAwareApi
      ⟨typedNode (.mk (some (.function (.mk (some (.other .Void)) ⟨false⟩)
        [.mk (some (.other .I32)) ⟨false⟩])) ⟨false⟩),
       [typedNode (.mk (some (.other .I32)) ⟨false⟩),
        typedNode (.mk (some (.other .I32)) ⟨false⟩)], ⟨0, 0⟩, ⟨0, 0⟩⟩
      (emptyInstance []) (emptyInstance [])
      (emptyInstance []) _ (.mk (some (.other .Void)) ⟨false⟩)
      [.mk (some (.other .I32)) ⟨false⟩]
      [(typedNode (.mk (some (.other .I32)) ⟨false⟩), .mk (some (.other .I32)) ⟨false⟩),
       (typedNode (.mk (some (.other .I32)) ⟨false⟩), .mk (some (.other .I32)) ⟨false⟩)]
      rfl rfl rfl
      (by
        intro j a p ha hp
        cases j with
        | zero =>
          simp only [List.getElem?_cons_zero, Option.some.injEq] at ha hp
          rw [← ha, ← hp]
          rfl
        | succ j => simp at hp)).2 (by simp)⟩

/-- A call whose target typechecks to a type (its `evalType.type` is not null) and whose
arguments typecheck: a target that is not of function type is a type error, an
argument that is not convertible to the parameter at its position is a type error,
and a success gives the return type with every argument convertible to its
parameter. -/
theorem callExpr_typed_target (api : TypeApi) (self : CallExpr) (inst inst1 inst2 : Instance)
    (target : QualifiedType) (tobj : TypeObj) (args : List (Node × QualifiedType))
    (ht : self.target.compile inst = .ok target inst1)
    (ha : typecheckChildren self.args inst1 = .ok args inst2)
    (htype : target.type = some tobj) :
    ((∀ r ps, tobj ≠ .function r ps) →
      ∃ e, self.compile api inst = .err e inst2 ∧ e.code = Error.TypeError) ∧
    (∀ r ps, tobj = .function r ps →
      (∃ (j : Nat) (a : Node × QualifiedType) (p : QualifiedType),
        args[j]? = some a ∧ ps[j]? = some p ∧ api.convertibleTo a.2 p = false) →
      ∃ e, self.compile api inst = .err e inst2 ∧ e.code = Error.TypeError) ∧
    (∀ ty inst', self.compile api inst = .ok ty inst' →
      ∃ r ps, tobj = .function r ps ∧ ty = r ∧ inst' = inst2 ∧
        ∀ (j : Nat) (a : Node × QualifiedType), args[j]? = some a →
          ∃ p, ps[j]? = some p ∧ api.convertibleTo a.2 p = true) := by
  refine ⟨?_, ?_, ?_⟩
  · intro hnot
    cases tobj with
    | function r ps => exact absurd rfl (hnot r ps)
    | other d =>
      simp only [CallExpr.compile, typecheckChild, ht, Outcome.bind, ha, htype]
      exact ⟨_, rfl, rfl⟩
  · intro r ps hfun hbad
    rw [hfun] at htype
    rw [callExpr_of_function api self inst inst1 inst2 target r ps args ht ha htype]
    obtain ⟨e, he, hcode⟩ := checkArgs_error api inst2 ps args 0
      (by simpa using hbad)
    exact ⟨e, by rw [he], hcode⟩
  · intro ty inst' hok
    cases tobj with
    | other d =>
      simp only [CallExpr.compile, typecheckChild, ht, Outcome.bind, ha, htype] at hok
      cases hok
    | function r ps =>
      rw [callExpr_of_function api self inst inst1 inst2 target r ps args ht ha htype] at hok
      rcases checkArgs_cases api inst2 ps args 0 with h | h | ⟨e, h, _⟩
      · rw [h] at hok
        injection hok with hty hinst
        refine ⟨r, ps, rfl, hty.symm, hinst.symm, ?_⟩
        intro j a haj
        simpa using (checkArgs_none_iff api inst2 ps args 0).mp h j a haj
      · rw [h] at hok; cases hok
      · rw [h] at hok; cases hok

/-- C14 (evaluation of the code): in `CallExpr::compile`, let the target and all arguments
typecheck. When the `evalType` of the target holds a null type, the unchecked
`target->evalType.type->getType()` dereferences it, which is undefined: no type error
is returned (`BinaryExpr::compile` guards its operands with `EXPECT_TYPE`). When it
holds a type: a target that is not of function type is a type error; an argument
that is not convertible to the parameter at its position is a type error; and
whenever the call typechecks, every argument is convertible to the parameter at its
position and the resulting type is the return type of the function type. -/
theorem callExpr_null_target (api : TypeApi) (self : CallExpr) (inst inst1 inst2 : Instance)
    (target : QualifiedType) (args : List (Node × QualifiedType))
    (ht : self.target.compile inst = .ok target inst1)
    (ha : typecheckChildren self.args inst1 = .ok args inst2) :
    (target.type = none → self.compile api inst = .undefined) ∧
    (∀ tobj, target.type = some tobj →
      ((∀ r ps, tobj ≠ .function r ps) →
        ∃ e, self.compile api inst = .err e inst2 ∧ e.code = Error.TypeError) ∧
      (∀ r ps, tobj = .function r ps →
        (∃ (j : Nat) (a : Node × QualifiedType) (p : QualifiedType),
          args[j]? = some a ∧ ps[j]? = some p ∧ api.convertibleTo a.2 p = false) →
        ∃ e, self.compile api inst = .err e inst2 ∧ e.code = Error.TypeError) ∧
      (∀ ty inst', self.compile api inst = .ok ty inst' →
        ∃ r ps, tobj = .function r ps ∧ ty = r ∧ inst' = inst2 ∧
          ∀ (j : Nat) (a : Node × QualifiedType), args[j]? = some a →
            ∃ p, ps[j]? = some p ∧ api.convertibleTo a.2 p = true)) := by
  constructor
  · intro hnull
    simp only [CallExpr.compile, typecheckChild, ht, Outcome.bind, ha, hnull]
  · intro tobj htype
    exact callExpr_typed_target api self inst inst1 inst2 target tobj args ht ha htype

/-- Witness for C14: the declaration `x` with neither a declared type nor a value typechecks
with a null type, and a call with that declaration as its target is undefined
instead of a type error. -/
theorem callExpr_null_target_witness :
    (∃ inst1, (untypedDeclNode "x").compile (emptyInstance [])
      = .ok QualifiedType.empty inst1) ∧
    CallExpr.compile constAwareApi ⟨untypedDeclNode "x", [], ⟨0, 0⟩, ⟨0, 0⟩⟩
      (emptyInstance []) = .undefined :=
  ⟨⟨_, rfl⟩,
   (callExpr_null_target constAwareApi ⟨untypedDeclNode "x", [], ⟨0, 0⟩, ⟨0, 0⟩⟩
      (emptyInstance []) _ _ QualifiedType.empty [] rfl rfl).1 rfl⟩

/-- C15: in `BinaryExpr::compile`, let both operands typecheck to a type. If the type of
the right-hand side is not convertible to the type of the left-hand side, the
result is a type error, whatever the operator; and whenever the expression
typechecks, its type is exactly the type of the left-hand side, qualifiers
included. It does typecheck when the types convert and the operator does not need
a modifiable value of a const left-hand side. -/
theorem binaryExpr_typecheck (api : TypeApi) (self : BinaryExpr) (inst inst1 inst2 : Instance)
    (lhs rhs : QualifiedType)
    (hl : self.LHS.compile inst = .ok lhs inst1)
    (hr : self.RHS.compile inst1 = .ok rhs inst2)
    (hlt : lhs.type.isNone = false) (hrt : rhs.type.isNone = false) :
    (api.convertibleTo rhs lhs = false →
      ∃ e, self.compile api inst = .err e inst2 ∧ e.code = Error.TypeError) ∧
    (∀ ty inst', self.compile api inst = .ok ty inst' →
      ty = lhs ∧ inst' = inst2 ∧ api.convertibleTo rhs lhs = true) ∧
    (api.convertibleTo rhs lhs = true →
      (api.isLValueOperator self.op && lhs.qualifiers.isConst) = false →
      self.compile api inst = .ok lhs inst2) := by
  have hstart : self.compile api inst =
      if !api.convertibleTo rhs lhs then
        .err (typeErrorAt inst2
          ("Invalid operands for binary expression: left-hand-side has the type `" ++
            api.toString lhs ++ "`, but right-hand-side has the type `" ++
            api.toString rhs ++ "`")
          ("Add an explicit type conversion on the right-hand-side: `as " ++
            api.toString lhs ++ "`")
          "There are no implicit conversions in GDML. All types must match exactly!"
          self.start self.stop) inst2
      else if api.isLValueOperator self.op && lhs.qualifiers.isConst then
        .err (typeErrorAt inst2
          ("Invalid operands for binary expression: left-hand-side is const-qualified `" ++
            api.toString lhs ++ "`, but the operator used " ++ api.tokenStr self.op ++
            " requires a modifiable value")
          "" "" self.start self.stop) inst2
      else .ok lhs inst2 := by
    simp only [BinaryExpr.compile, typecheckChild, hl, Outcome.bind, hr, hlt, hrt,
      Bool.false_eq_true, if_false]
  rw [hstart]
  refine ⟨?_, ?_, ?_⟩
  · intro hc
    simp only [hc, Bool.not_false, if_true]
    exact ⟨_, rfl, rfl⟩
  · intro ty inst' hok
    cases hc : api.convertibleTo rhs lhs with
    | false => simp [hc] at hok
    | true =>
      cases hop : (api.isLValueOperator self.op && lhs.qualifiers.isConst) with
      | true => simp [hc, hop] at hok
      | false =>
        simp only [hc, hop, Bool.not_true, Bool.false_eq_true, if_false] at hok
        injection hok with hty hinst
        exact ⟨hty.symm, hinst.symm, rfl⟩
  · intro hc hop
    simp [hc, hop]

/-- Witness for C15: an `i32` right-hand side against a `const i32` left-hand side gives
the left-hand side's `const i32`. -/
theorem binaryExpr_typecheck_witness :
    BinaryExpr.compile constAwareApi
      ⟨typedNode (.mk (some (.other .I32)) ⟨true⟩), typedNode (.mk (some (.other .I32)) ⟨false⟩),
        0, ⟨0, 0⟩, ⟨0, 0⟩⟩ (emptyInstance [])
      = .ok (.mk (some (.other .I32)) ⟨true⟩) (emptyInstance []) :=
  (binaryExpr_typecheck constAwareApi
    ⟨typedNode (.mk (some (.other .I32)) ⟨true⟩), typedNode (.mk (some (.other .I32)) ⟨false⟩),
      0, ⟨0, 0⟩, ⟨0, 0⟩⟩ (emptyInstance []) (emptyInstance []) (emptyInstance [])
    (.mk (some (.other .I32)) ⟨true⟩) (.mk (some (.other .I32)) ⟨false⟩)
    rfl rfl rfl rfl).2.2 rfl rfl

end ast

/-! ## Statements, declarations and `Compiler::compile` -/

theorem contains_append {κ ν : Type} [DecidableEq κ] (m : Map κ ν) (k k' : κ) (v : ν) :
    Map.contains (m ++ [(k, v)]) k' = (Map.contains m k' || decide (k = k')) := by
  simp [Map.contains, List.any_append]

theorem contains_insert_self {κ ν : Type} [DecidableEq κ] (m : Map κ ν) (k : κ) (v : ν) :
    Map.contains (Map.insert m k v) k = true := by
  unfold Map.insert
  by_cases h : Map.contains m k = true
  · simp [h]
  · simp [h, contains_append]

theorem contains_insert_ne {κ ν : Type} [DecidableEq κ] (m : Map κ ν) (k k' : κ) (v : ν)
    (hne : k ≠ k') : Map.contains (Map.insert m k v) k' = Map.contains m k' := by
  unfold Map.insert
  by_cases h : Map.contains m k = true
  · simp [h]
  · simp [h, contains_append, hne]

namespace compiler

theorem getNameSpace_fold_length (namespaces : List String) (acc : String) :
    acc.length ≤ (namespaces.foldl (fun res ns => res ++ (ns ++ "::")) acc).length := by
  induction namespaces generalizing acc with
  | nil => exact Nat.le_refl _
  | cons ns rest ih =>
    simp only [List.foldl_cons]
    exact Nat.le_trans (by simp [String.length_append]) (ih _)

theorem getNameSpace_length (c : Compiler) (h : c.m_namespace ≠ []) :
    2 ≤ c.getNameSpace.length := by
  unfold Compiler.getNameSpace
  cases hn : c.m_namespace with
  | nil => exact absurd hn h
  | cons ns rest =>
    simp only [List.foldl_cons]
    refine Nat.le_trans ?_ (getNameSpace_fold_length rest _)
    simp only [String.length_append]
    have : "::".length = 2 := rfl
    omega

theorem fullName_ne (c : Compiler) (name : String) (h : c.m_namespace ≠ []) :
    c.getNameSpace ++ name ≠ name := by
  intro heq
  have hlen := congrArg String.length heq
  have := getNameSpace_length c h
  simp only [String.length_append] at hlen
  omega

theorem getNameSpace_empty (c : Compiler) (h : c.m_namespace = []) (name : String) :
    c.getNameSpace ++ name = name := by
  simp [Compiler.getNameSpace, h]

end compiler

namespace ast

open compiler

theorem pop_push (inst : Instance) : popScope (pushScope inst) = inst := by
  simp [popScope, pushScope, Compiler.popScope, Compiler.pushScope]

/-- The function `Compiler::compile` records exactly the one error that `m_ast->compile`
returns, after whatever that call recorded itself, and returns its code; it records
nothing when the call succeeds. -/
theorem compiler_compile_records (astCompile : Instance → Outcome QualifiedType)
    (inst : Instance) :
    (∀ err inst1, astCompile inst = .err err inst1 →
      Compiler.compile astCompile inst = .ok err.code (inst1.logError err) ∧
      (inst1.logError err).m_logged = inst1.m_logged ++ [err]) ∧
    (∀ ty inst1, astCompile inst = .ok ty inst1 →
      Compiler.compile astCompile inst = .ok Error.OK inst1) := by
  refine ⟨?_, ?_⟩
  · intro err inst1 h
    exact ⟨by simp [Compiler.compile, h], rfl⟩
  · intro ty inst1 h
    simp [Compiler.compile, h]

/-- C18 (evaluation of the code): `IfStmt::compile` typechecks the condition and the else
branch but never the branch body: its outcome is the same for every branch body,
and an if statement without condition and else branch typechecks, in the state it
started in, whatever its branch body does. -/
theorem ifStmt_skips_branch (self : IfStmt) (inst : Instance) :
    (∀ other : Node, IfStmt.compile { self with branch := other } inst
        = IfStmt.compile self inst) ∧
    (self.condition = none → self.elseBranch = none →
      IfStmt.compile self inst = .ok QualifiedType.empty inst) := by
  refine ⟨fun _ => rfl, ?_⟩
  intro hc he
  simp [IfStmt.compile, typecheckChildO, hc, he, pop_push]

/-- Witness for C18: the branch body `a` alone fails to typecheck (undefined identifier),
and the if statement with that body typechecks. -/
theorem ifStmt_skips_branch_witness :
    (∃ e, (identifierNode "a").compile (emptyInstance []) = .err e (emptyInstance [])) ∧
    IfStmt.compile ⟨none, identifierNode "a", none, ⟨0, 0⟩, ⟨0, 0⟩⟩ (emptyInstance [])
      = .ok QualifiedType.empty (emptyInstance []) :=
  ⟨⟨_, rfl⟩,
   (ifStmt_skips_branch ⟨none, identifierNode "a", none, ⟨0, 0⟩, ⟨0, 0⟩⟩
      (emptyInstance [])).2 rfl rfl⟩

end ast

namespace ast

open compiler

theorem declare_of_scope (decl : VariableDeclExpr) (evalType : QualifiedType)
    (inst : Instance) (below : List compiler.Scope) (top : compiler.Scope)
    (hs : inst.m_compiler.m_scope = below ++ [top]) :
    decl.declare evalType inst =
      if top.hasVariable decl.name then
        .err (compileErrorAt inst
          ("Entity named \"" ++ decl.name ++ "\" already exists in this scope") "" ""
          decl.start decl.stop) inst
      else
        .ok evalType (declared inst below top decl.name ⟨evalType, none, decl.self⟩) := by
  simp [VariableDeclExpr.declare, Compiler.getScope, hs, declared]

theorem compile_of_value (api : TypeApi) (decl : VariableDeclExpr) (inst : Instance)
    (v : Node) (vt : QualifiedType) (htype : decl.type = none) (hvalue : decl.value = some v)
    (hpure : v.compile inst = .ok vt inst) :
    decl.compile api inst = decl.declare vt inst := by
  simp [VariableDeclExpr.compile, typecheckChildO, htype, hvalue, hpure, Outcome.bind,
    VariableDeclExpr.evalType]

theorem declared_again (inst : Instance) (below : List compiler.Scope) (top : compiler.Scope)
    (name : String) (var : NamedEntity) :
    declared (declared inst below top name var) below
      (top.pushVariable inst.m_compiler name var).1 name var
      = declared inst below top name var := by
  simp only [declared, compiler.Scope.pushVariable, Compiler.getNameSpace]
  rw [insert_of_contains _ _ _ (contains_insert_self _ _ _)]

/-- C19 (evaluation of the code): let a variable `n`, declared with a value that typechecks
without touching the state, be compiled in a top scope that holds no `n`. The first
`VariableDeclExpr::compile` succeeds and registers the variable under the key
`getNameSpace() + n`. Compiled again in the same scope and under the same namespace
stack: on an empty namespace stack the declaration fails with the compile error
that the entity already exists in this scope; on a non-empty namespace stack it
succeeds, because `hasVariable` is asked for the bare name `n`; in both cases the
state, with the first entry, is left as it was. -/
theorem variableDecl_redeclared (api : TypeApi) (decl : VariableDeclExpr) (inst : Instance)
    (below : List compiler.Scope) (top : compiler.Scope) (v : Node) (vt : QualifiedType)
    (htype : decl.type = none) (hvalue : decl.value = some v)
    (hpure : ∀ i, v.compile i = .ok vt i)
    (hscope : inst.m_compiler.m_scope = below ++ [top])
    (hfresh : top.hasVariable decl.name = false) :
    decl.compile api inst =
      .ok vt (declared inst below top decl.name ⟨vt, none, decl.self⟩) ∧
    (inst.m_compiler.m_namespace ≠ [] →
      decl.compile api (declared inst below top decl.name ⟨vt, none, decl.self⟩) =
        .ok vt (declared inst below top decl.name ⟨vt, none, decl.self⟩)) ∧
    (inst.m_compiler.m_namespace = [] →
      ∃ e, decl.compile api (declared inst below top decl.name ⟨vt, none, decl.self⟩) =
          .err e (declared inst below top decl.name ⟨vt, none, decl.self⟩) ∧
        e.code = Error.CompileError ∧
        e.message = "Entity named \"" ++ decl.name ++ "\" already exists in this scope") := by
  have hfirst : decl.compile api inst =
      .ok vt (declared inst below top decl.name ⟨vt, none, decl.self⟩) := by
    rw [compile_of_value api decl inst v vt htype hvalue (hpure inst),
      declare_of_scope decl vt inst below top hscope, hfresh]
    rfl
  have hsecond := declare_of_scope decl vt
    (declared inst below top decl.name ⟨vt, none, decl.self⟩) below
    (top.pushVariable inst.m_compiler decl.name ⟨vt, none, decl.self⟩).1 rfl
  rw [← compile_of_value api decl _ v vt htype hvalue (hpure _)] at hsecond
  refine ⟨hfirst, ?_, ?_⟩
  · intro hns
    have hbare : (top.pushVariable inst.m_compiler decl.name ⟨vt, none, decl.self⟩).1.hasVariable
        decl.name = false := by
      simp only [compiler.Scope.hasVariable, compiler.Scope.pushVariable]
      rw [contains_insert_ne _ _ _ _ (fullName_ne inst.m_compiler decl.name hns)]
      exact hfresh
    rw [hsecond, hbare]
    simp only [Bool.false_eq_true, if_false]
    exact congrArg _ (declared_again inst below top decl.name ⟨vt, none, decl.self⟩)
  · intro hns
    have hbare : (top.pushVariable inst.m_compiler decl.name ⟨vt, none, decl.self⟩).1.hasVariable
        decl.name = true := by
      simp only [compiler.Scope.hasVariable, compiler.Scope.pushVariable,
        getNameSpace_empty inst.m_compiler hns]
      exact contains_insert_self _ _ _
    rw [hsecond, hbare]
    exact ⟨_, rfl, rfl, rfl⟩

/-- Witness for C19: inside the namespace `ns`, `n` is declared twice in one scope and
both declarations typecheck; the scope holds the single entry `ns::n`. -/
theorem variableDecl_redeclared_witness :
    ∃ inst1,
      VariableDeclExpr.compile constAwareApi
        ⟨"n", none, some (typedNode (.mk (some (.other .I32)) ⟨true⟩)), ⟨0, 0⟩, ⟨0, 0⟩, 1⟩
        (emptyInstance ["ns"]) = .ok (.mk (some (.other .I32)) ⟨true⟩) inst1 ∧
      VariableDeclExpr.compile constAwareApi
        ⟨"n", none, some (typedNode (.mk (some (.other .I32)) ⟨true⟩)), ⟨0, 0⟩, ⟨0, 0⟩, 2⟩
        inst1 = .ok (.mk (some (.other .I32)) ⟨true⟩) inst1 ∧
      inst1.m_compiler.m_scope.map (fun s => s.variables_.map Prod.fst) = [["ns::n"]] :=
  ⟨_, (variableDecl_redeclared constAwareApi
      ⟨"n", none, some (typedNode (.mk (some (.other .I32)) ⟨true⟩)), ⟨0, 0⟩, ⟨0, 0⟩, 1⟩
      (emptyInstance ["ns"]) [] compiler.Scope.new _ (.mk (some (.other .I32)) ⟨true⟩)
      rfl rfl (fun _ => rfl) rfl rfl).1, rfl, rfl⟩

end ast

/-! ## Scope depth of the block statements -/

namespace ast

open compiler

theorem depth_pushScope (inst : Instance) : depth (pushScope inst) = depth inst + 1 := by
  simp [depth, pushScope, Compiler.pushScope]

theorem depth_popScope (inst : Instance) : depth (popScope inst) = depth inst - 1 := by
  simp [depth, popScope, Compiler.popScope]

/-- C21 (evaluation of the code): `BlockStmt::compile` pushes a scope and compiles the body
in it. When the body succeeds the scope is popped, and with a body that keeps the
depth the depth after the call is the depth before it. When the body fails its error
is returned at once, in the state the body left, without the pop: with a body that
keeps the depth, the depth after the call is one more than before it. The same holds
for `IfStmt::compile` when its condition fails. -/
theorem blockStmt_scope_depth (self : BlockStmt) (ifStmt : IfStmt) (inst : Instance) :
    (∀ ty inst1, self.body.compile (pushScope inst) = .ok ty inst1 →
      depth inst1 = depth (pushScope inst) →
      self.compile inst = .ok QualifiedType.empty (popScope inst1) ∧
      (self.compile inst).depth = some (depth inst)) ∧
    (∀ e inst1, self.body.compile (pushScope inst) = .err e inst1 →
      depth inst1 = depth (pushScope inst) →
      self.compile inst = .err e inst1 ∧
      (self.compile inst).depth = some (depth inst + 1)) ∧
    (∀ condition e inst1, ifStmt.condition = some condition →
      condition.compile (pushScope inst) = .err e inst1 →
      depth inst1 = depth (pushScope inst) →
      ifStmt.compile inst = .err e inst1 ∧
      (ifStmt.compile inst).depth = some (depth inst + 1)) := by
  refine ⟨?_, ?_, ?_⟩
  · intro ty inst1 h hd
    have hc : self.compile inst = .ok QualifiedType.empty (popScope inst1) := by
      simp [BlockStmt.compile, typecheckChild, h, Outcome.bind]
    refine ⟨hc, ?_⟩
    rw [hc]
    simp [Outcome.depth, depth_popScope, hd, depth_pushScope]
  · intro e inst1 h hd
    have hc : self.compile inst = .err e inst1 := by
      simp [BlockStmt.compile, typecheckChild, h, Outcome.bind]
    refine ⟨hc, ?_⟩
    rw [hc]
    simp [Outcome.depth, hd, depth_pushScope]
  · intro condition e inst1 hcond h hd
    have hc : ifStmt.compile inst = .err e inst1 := by
      simp [IfStmt.compile, typecheckChildO, hcond, h, Outcome.bind]
    refine ⟨hc, ?_⟩
    rw [hc]
    simp [Outcome.depth, hd, depth_pushScope]

/-- Witness for C21: a block whose body is the undefined identifier `a`, and an if
statement with that condition, compiled with one scope on the stack, return the
error with two scopes on the stack. -/
theorem blockStmt_scope_depth_witness :
    depth (emptyInstance []) = 1 ∧
    (BlockStmt.compile ⟨identifierNode "a", ⟨0, 0⟩, ⟨0, 0⟩⟩ (emptyInstance [])).depth
      = some 2 ∧
    (IfStmt.compile ⟨some (identifierNode "a"), typedNode QualifiedType.empty, none,
      ⟨0, 0⟩, ⟨0, 0⟩⟩ (emptyInstance [])).depth = some 2 :=
  ⟨rfl,
   ((blockStmt_scope_depth ⟨identifierNode "a", ⟨0, 0⟩, ⟨0, 0⟩⟩
      ⟨some (identifierNode "a"), typedNode QualifiedType.empty, none, ⟨0, 0⟩, ⟨0, 0⟩⟩
      (emptyInstance [])).2.1 _ _ rfl rfl).2,
   ((blockStmt_scope_depth ⟨identifierNode "a", ⟨0, 0⟩, ⟨0, 0⟩⟩
      ⟨some (identifierNode "a"), typedNode QualifiedType.empty, none, ⟨0, 0⟩, ⟨0, 0⟩⟩
      (emptyInstance [])).2.2 _ _ _ rfl rfl rfl).2⟩

end ast

/-! ## Named types under a namespace -/

namespace compiler

theorem typeExistsUnder_nil (m : Map String (Option TypeObj)) (t acc : String) :
    Compiler.typeExistsUnder m t acc [] = false := rfl

theorem typeExistsUnder_insert (m : Map String (Option TypeObj)) (t : String)
    (ty : Option TypeObj) :
    ∀ (rest : List String) (acc : String), rest ≠ [] →
      Compiler.typeExistsUnder
          (Map.insert m ((rest.foldl (fun res ns => res ++ (ns ++ "::")) acc) ++ t) ty)
          t acc rest
        = Compiler.typeExistsUnder m t acc rest := by
  intro rest
  induction rest with
  | nil => intro acc h; exact absurd rfl h
  | cons ns rest ih =>
    intro acc _
    have hne : (List.foldl (fun res ns => res ++ (ns ++ "::")) acc (ns :: rest)) ++ t
        ≠ acc ++ t := by
      intro heq
      have hlen := congrArg String.length heq
      have hfold := getNameSpace_fold_length rest (acc ++ (ns ++ "::"))
      simp only [List.foldl_cons, String.length_append] at hlen hfold
      have : "::".length = 2 := rfl
      omega
    unfold Compiler.typeExistsUnder
    rw [contains_insert_ne _ _ _ _ hne]
    by_cases hr : rest = []
    · subst hr
      simp [typeExistsUnder_nil]
    · have := ih (acc ++ (ns ++ "::")) hr
      simp only [List.foldl_cons]
      rw [this]

/-- C22 (evaluation of the code): after `Scope::pushNamedType(t, ty)` on the top scope,
`Compiler::typeExists(t)` under the same namespace stack is true when the stack is
empty, and under a non-empty namespace stack it answers what it answered before
the registration: the key `getNameSpace() + t` is never among the keys the loop
tests, as each prefix is tested before the current segment is appended to it. -/
theorem typeExists_after_pushNamedType (c : Compiler) (below : List Scope) (top : Scope)
    (t : String) (ty : Option TypeObj) (hs : c.m_scope = below ++ [top]) :
    (c.m_namespace = [] →
      Compiler.typeExists { c with m_scope := below ++ [top.pushNamedType c t ty] } t
        = true) ∧
    (c.m_namespace ≠ [] →
      Compiler.typeExists { c with m_scope := below ++ [top.pushNamedType c t ty] } t
        = c.typeExists t) := by
  constructor
  · intro hn
    simp [Compiler.typeExists, Compiler.typeExistsIn, Scope.pushNamedType,
      getNameSpace_empty c hn, contains_insert_self]
  · intro hn
    have hne : c.getNameSpace ++ t ≠ t := fullName_ne c t hn
    have hu := typeExistsUnder_insert top.namedTypes t ty c.m_namespace "" hn
    simp only [Compiler.typeExists, hs, List.reverse_append, List.reverse_cons,
      List.reverse_nil, List.nil_append, List.singleton_append, Compiler.typeExistsIn,
      Scope.pushNamedType]
    rw [contains_insert_ne _ _ _ _ hne]
    unfold Compiler.getNameSpace
    rw [hu]

/-- Witness for C22: in the namespace `ns`, with one empty scope, the type `T` is
registered under the key `ns::T`, and `typeExists("T")` is still false. -/
theorem typeExists_after_pushNamedType_witness :
    Compiler.typeExists
        { (⟨["ns"], [Scope.new]⟩ : Compiler) with
          m_scope := [] ++ [Scope.new.pushNamedType ⟨["ns"], [Scope.new]⟩ "T"
            (some (.other .I32))] } "T"
      = Compiler.typeExists ⟨["ns"], [Scope.new]⟩ "T" ∧
    Compiler.typeExists ⟨["ns"], [Scope.new]⟩ "T" = false :=
  ⟨(typeExists_after_pushNamedType ⟨["ns"], [Scope.new]⟩ [] Scope.new "T"
      (some (.other .I32)) rfl).2 (by simp),
   rfl⟩

end compiler

/-! ## `typeExists` against `getType` -/

namespace compiler

theorem findType_none (name : String) :
    ∀ scopes : List Scope, (∀ s ∈ scopes, Map.contains s.namedTypes name = false) →
      Compiler.findType name scopes = none := by
  intro scopes
  induction scopes with
  | nil => intro _; rfl
  | cons s rest ih =>
    intro h
    have hs := h s (List.mem_cons_self _ _)
    simp only [Compiler.findType, hs]
    exact ih (fun s' hs' => h s' (List.mem_cons_of_mem _ hs'))

end compiler

namespace ast

open compiler

/-- C23 (evaluation of the code): `Compiler::getType` looks a type up under the given
name alone, while `Compiler::typeExists` also accepts the name under a prefix of the
namespace stack. When no scope holds the name itself and `typeExists` is true, then
`getType` returns null and `TypeNameExpr::compile` succeeds with a null evaluated
type. -/
theorem typeNameExpr_null_type (self : TypeNameExpr) (inst : Instance)
    (hbare : ∀ s ∈ inst.m_compiler.m_scope, Map.contains s.namedTypes self.fullName = false)
    (hexists : inst.m_compiler.typeExists self.fullName = true) :
    inst.m_compiler.getType self.fullName = none ∧
    self.compile inst = .ok (.mk none self.qualifiers) inst := by
  have hg : inst.m_compiler.getType self.fullName = none := by
    unfold Compiler.getType
    exact findType_none _ _ (fun s hs => hbare s (List.mem_reverse.mp hs))
  refine ⟨hg, ?_⟩
  simp [TypeNameExpr.compile, hexists, hg]

/-- Witness for C23: the type `T` is registered by `pushNamedType` in the namespace `a`
(key `a::T`) and is named inside the namespace `a::b`: `typeExists("T")` is true,
`getType("T")` is null, and the type name typechecks with a null type. -/
theorem typeNameExpr_null_type_witness :
    outerTypeInstance.m_compiler.m_scope = [⟨[], [("a::T", some (.other .I32))], []⟩] ∧
    outerTypeInstance.m_compiler.typeExists "T" = true ∧
    outerTypeInstance.m_compiler.getType "T" = none ∧
    TypeNameExpr.compile ⟨"T", ⟨false⟩, ⟨0, 0⟩, ⟨0, 0⟩⟩ outerTypeInstance
      = .ok (.mk none ⟨false⟩) outerTypeInstance :=
  ⟨rfl, by decide,
   typeNameExpr_null_type ⟨"T", ⟨false⟩, ⟨0, 0⟩, ⟨0, 0⟩⟩ outerTypeInstance
      (by decide) (by decide)⟩

end ast

/-! ## Return type inference of a statement list -/

namespace ast

open compiler

theorem inferFrom_some_cons (self : StmtList) (inst : Instance) (t : QualifiedType)
    (s : BranchNode) (rest : List BranchNode) :
    StmtList.inferFrom self inst (some t) (s :: rest)
      = .error (compileErrorAt inst "Found unreachable code" "" "" self.start self.stop) := by
  simp [StmtList.inferFrom]

theorem inferFrom_none_cases (self : StmtList) (inst : Instance) :
    ∀ stmts : List BranchNode,
      (∀ s ∈ stmts, ∃ r, s.inferBranchReturnType inst = .ok r) →
      ((∃ pre s post t, stmts = pre ++ s :: post ∧ post ≠ [] ∧
          s.inferBranchReturnType inst = .ok (some t)) ∧
        StmtList.inferFrom self inst none stmts
          = .error (compileErrorAt inst "Found unreachable code" "" ""
              self.start self.stop)) ∨
      ((¬ ∃ pre s post t, stmts = pre ++ s :: post ∧ post ≠ [] ∧
          s.inferBranchReturnType inst = .ok (some t)) ∧
        StmtList.inferFrom self inst none stmts
          = match stmts.getLast? with
            | none => .ok none
            | some s => s.inferBranchReturnType inst) := by
  intro stmts
  induction stmts with
  | nil =>
    intro _
    refine Or.inr ⟨?_, rfl⟩
    rintro ⟨pre, s, post, t, h, _⟩
    simp at h
  | cons s rest ih =>
    intro hok
    obtain ⟨r, hr⟩ := hok s (List.mem_cons_self _ _)
    have hstep : StmtList.inferFrom self inst none (s :: rest)
        = StmtList.inferFrom self inst r rest := by
      simp [StmtList.inferFrom, hr]
    rw [hstep]
    cases r with
    | some t =>
      cases rest with
      | nil =>
        refine Or.inr ⟨?_, ?_⟩
        · rintro ⟨pre, s', post, t', h, hpost, _⟩
          have hlen := congrArg List.length h
          simp at hlen
          have : post.length = 0 := by omega
          exact hpost (List.length_eq_zero.mp this)
        · simp [StmtList.inferFrom, hr]
      | cons s2 rest2 =>
        exact Or.inl ⟨⟨[], s, s2 :: rest2, t, rfl, by simp, hr⟩, inferFrom_some_cons _ _ _ _ _⟩
    | none =>
      rcases ih (fun s' hs' => hok s' (List.mem_cons_of_mem _ hs')) with ⟨hex, hres⟩ | ⟨hno, hres⟩
      · obtain ⟨pre, s', post, t, h, hpost, ht⟩ := hex
        exact Or.inl ⟨⟨s :: pre, s', post, t, by simp [h], hpost, ht⟩, hres⟩
      · refine Or.inr ⟨?_, ?_⟩
        · rintro ⟨pre, s', post, t, h, hpost, ht⟩
          cases pre with
          | nil =>
            simp only [List.nil_append, List.cons.injEq] at h
            rw [← h.1, hr] at ht
            cases ht
          | cons p pre' =>
            simp only [List.cons_append, List.cons.injEq] at h
            exact hno ⟨pre', s', post, t, h.2, hpost, ht⟩
        · cases rest with
          | nil => simp [StmtList.inferFrom, hr]
          | cons s2 rest2 =>
            rw [hres]
            simp [List.getLast?_cons_cons]

/-- C24: when the inference of every statement itself succeeds,
`StmtList::inferBranchReturnType` returns the error "Found unreachable code" exactly
when some statement whose inferred return type is present is followed by at least
one more statement; otherwise it returns the inferred return type of the last
statement, and none for an empty list. -/
theorem stmtList_inferBranchReturnType (self : StmtList) (inst : Instance)
    (hok : ∀ s ∈ self.statements, ∃ r, s.inferBranchReturnType inst = .ok r) :
    (self.inferBranchReturnType inst
        = .error (compileErrorAt inst "Found unreachable code" "" "" self.start self.stop) ↔
      ∃ pre s post t, self.statements = pre ++ s :: post ∧ post ≠ [] ∧
        s.inferBranchReturnType inst = .ok (some t)) ∧
    ((¬ ∃ pre s post t, self.statements = pre ++ s :: post ∧ post ≠ [] ∧
        s.inferBranchReturnType inst = .ok (some t)) →
      self.inferBranchReturnType inst
        = match self.statements.getLast? with
          | none => .ok none
          | some s => s.inferBranchReturnType inst) := by
  unfold StmtList.inferBranchReturnType
  rcases inferFrom_none_cases self inst self.statements hok with ⟨hex, hres⟩ | ⟨hno, hres⟩
  · exact ⟨⟨fun _ => hex, fun _ => hres⟩, fun hno => absurd hex hno⟩
  · refine ⟨⟨?_, fun hex => absurd hex hno⟩, fun _ => hres⟩
    intro herr
    rw [hres] at herr
    cases hl : self.statements.getLast? with
    | none => rw [hl] at herr; cases herr
    | some s =>
      rw [hl] at herr
      obtain ⟨r, hr⟩ := hok s (List.mem_of_getLast?_eq_some hl)
      simp only [hr] at herr
      cases herr

/-- Witness for C24: a return statement followed by another statement is unreachable
code, and a statement followed by a return statement gives the returned type. -/
theorem stmtList_inferBranchReturnType_witness :
    StmtList.inferBranchReturnType
        ⟨[⟨ReturnStmt.inferBranchReturnType QualifiedType.empty⟩, ⟨fun _ => .ok none⟩],
          ⟨0, 0⟩, ⟨0, 0⟩⟩ (emptyInstance [])
      = .error (compileErrorAt (emptyInstance []) "Found unreachable code" "" ""
          ⟨0, 0⟩ ⟨0, 0⟩) ∧
    StmtList.inferBranchReturnType
        ⟨[⟨fun _ => .ok none⟩, ⟨ReturnStmt.inferBranchReturnType QualifiedType.empty⟩],
          ⟨0, 0⟩, ⟨0, 0⟩⟩ (emptyInstance [])
      = .ok (some QualifiedType.empty) :=
  ⟨(stmtList_inferBranchReturnType
      ⟨[⟨ReturnStmt.inferBranchReturnType QualifiedType.empty⟩, ⟨fun _ => .ok none⟩],
        ⟨0, 0⟩, ⟨0, 0⟩⟩ (emptyInstance [])
      (by
        intro s hs
        simp only [List.mem_cons, List.mem_singleton, List.not_mem_nil, or_false] at hs
        rcases hs with rfl | rfl <;> exact ⟨_, rfl⟩)).1.mpr
      ⟨[], _, [_], QualifiedType.empty, rfl, by simp, rfl⟩,
   rfl⟩

end ast

/-! ## Code generation of an interpolated literal -/

namespace ast

theorem intercalate_go_foldl (s : String) :
    ∀ (as : List String) (acc : String),
      String.intercalate.go acc s as = as.foldl (fun acc x => acc ++ s ++ x) acc := by
  intro as
  induction as with
  | nil => intro acc; rfl
  | cons a as ih => intro acc; simp [String.intercalate.go, ih]

theorem codegenFrom_even (raw comps : List String) (count k : Nat) (out r : String)
    (h : raw[k]? = some r) :
    InterpolatedLiteralExpr.codegenFrom raw comps (count + 1) (2 * k) out
      = InterpolatedLiteralExpr.codegenFrom raw comps count (2 * k + 1)
          ((if 2 * k ≠ 0 then out ++ " + " else out) ++ "\"" ++ r ++ "\"") := by
  have h1 : (2 * k) % 2 = 0 := by omega
  have h2 : 2 * k / 2 = k := by omega
  simp [InterpolatedLiteralExpr.codegenFrom, h1, h2, h]

theorem codegenFrom_even_none (raw comps : List String) (count k : Nat) (out : String)
    (h : raw[k]? = none) :
    InterpolatedLiteralExpr.codegenFrom raw comps (count + 1) (2 * k) out = none := by
  have h1 : (2 * k) % 2 = 0 := by omega
  have h2 : 2 * k / 2 = k := by omega
  simp [InterpolatedLiteralExpr.codegenFrom, h1, h2, h]

theorem codegenFrom_odd (raw comps : List String) (count k : Nat) (out c : String)
    (h : comps[k]? = some c) :
    InterpolatedLiteralExpr.codegenFrom raw comps (count + 1) (2 * k + 1) out
      = InterpolatedLiteralExpr.codegenFrom raw comps count (2 * (k + 1))
          (out ++ " + " ++ c) := by
  have h1 : (2 * k + 1) % 2 = 1 := by omega
  have h2 : (2 * k + 1) / 2 = k := by omega
  have h3 : 2 * k + 1 + 1 = 2 * (k + 1) := by omega
  simp [InterpolatedLiteralExpr.codegenFrom, h1, h2, h3, h]

theorem codegenFrom_odd_none (raw comps : List String) (count k : Nat) (out : String)
    (h : comps[k]? = none) :
    InterpolatedLiteralExpr.codegenFrom raw comps (count + 1) (2 * k + 1) out = none := by
  have h1 : (2 * k + 1) % 2 = 1 := by omega
  have h2 : (2 * k + 1) / 2 = k := by omega
  simp [InterpolatedLiteralExpr.codegenFrom, h1, h2, h]

theorem getElem?_of_drop {α : Type} (l : List α) (k : Nat) (a : α) (rest : List α)
    (h : l.drop k = a :: rest) : l[k]? = some a ∧ l.drop (k + 1) = rest := by
  constructor
  · have := List.getElem?_drop l k 0
    rw [h] at this
    simpa using this.symm
  · have := congrArg List.tail h
    simpa [List.tail_drop] using this

theorem getElem?_of_drop_nil {α : Type} (l : List α) (k : Nat) (h : l.drop k = []) :
    l[k]? = none := by
  have := List.getElem?_drop l k 0
  rw [h] at this
  simpa using this.symm

end ast

namespace ast

theorem codegenFrom_drop (raw comps : List String) :
    ∀ (rs cs : List String) (k : Nat) (out : String),
      raw.drop k = rs → comps.drop k = cs →
      InterpolatedLiteralExpr.codegenFrom raw comps (rs.length + cs.length) (2 * k) out
        = if rs.length = cs.length ∨ rs.length = cs.length + 1 then
            some (match alternate rs cs with
              | [] => out
              | a :: as =>
                as.foldl (fun acc x => acc ++ " + " ++ x)
                  ((if 2 * k ≠ 0 then out ++ " + " else out) ++ a))
          else none := by
  intro rs
  induction rs with
  | nil =>
    intro cs k out hr hc
    cases cs with
    | nil => simp [InterpolatedLiteralExpr.codegenFrom, alternate]
    | cons c cs =>
      have hcount : ([] : List String).length + (c :: cs).length = cs.length + 1 := by simp
      rw [hcount, codegenFrom_even_none raw comps _ k out (getElem?_of_drop_nil raw k hr)]
      simp
  | cons r rs ih =>
    intro cs k out hr hc
    obtain ⟨hget, hdrop⟩ := getElem?_of_drop raw k r rs hr
    cases cs with
    | nil =>
      have hcount : (r :: rs).length + ([] : List String).length = rs.length + 1 := by simp
      rw [hcount, codegenFrom_even raw comps _ k out r hget]
      cases rs with
      | nil =>
        simp [InterpolatedLiteralExpr.codegenFrom, alternate, String.append_assoc]
      | cons r2 rs2 =>
        have hcount2 : (r2 :: rs2).length = rs2.length + 1 := by simp
        rw [hcount2, codegenFrom_odd_none raw comps _ k _ (getElem?_of_drop_nil comps k hc)]
        simp
    | cons c cs =>
      obtain ⟨hgetc, hdropc⟩ := getElem?_of_drop comps k c cs hc
      have hcount : (r :: rs).length + (c :: cs).length = (rs.length + cs.length) + 1 + 1 := by
        simp; omega
      rw [hcount, codegenFrom_even raw comps _ k out r hget,
        codegenFrom_odd raw comps _ k _ c hgetc, ih cs (k + 1) _ hdrop hdropc]
      have hcond : ((r :: rs).length = (c :: cs).length ∨
          (r :: rs).length = (c :: cs).length + 1) ↔
          (rs.length = cs.length ∨ rs.length = cs.length + 1) := by
        simp only [List.length_cons]; omega
      have hk : 2 * (k + 1) ≠ 0 := by omega
      by_cases hv : rs.length = cs.length ∨ rs.length = cs.length + 1
      · rw [if_pos hv, if_pos (hcond.mpr hv)]
        simp only [alternate, List.foldl_cons, hk, ne_eq, not_false_eq_true, if_true]
        cases alternate rs cs with
        | nil => simp [String.append_assoc]
        | cons a as => simp [String.append_assoc]
      · rw [if_neg hv, if_neg (fun h => hv (hcond.mp h))]

/-- C25: `InterpolatedLiteralExpr::codegen` reads `rawStrings` at `ix / 2` for even `ix` and
`components` at `ix / 2` for odd `ix`; every access is in range exactly when the
number of raw strings is the number of components or one more, and then the output
is the quoted raw strings and the components' code alternating, starting with a raw
string, joined by `" + "`. -/
theorem interpolated_codegen (rawStrings components : List String) :
    ((InterpolatedLiteralExpr.codegen rawStrings components).isSome ↔
      (rawStrings.length = components.length ∨
        rawStrings.length = components.length + 1)) ∧
    ((rawStrings.length = components.length ∨
        rawStrings.length = components.length + 1) →
      InterpolatedLiteralExpr.codegen rawStrings components
        = some (" + ".intercalate (alternate rawStrings components))) := by
  have h := codegenFrom_drop rawStrings components rawStrings components 0 "" rfl rfl
  have hout : (match alternate rawStrings components with
      | [] => ""
      | a :: as =>
        as.foldl (fun acc x => acc ++ " + " ++ x)
          ((if 2 * 0 ≠ 0 then "" ++ " + " else "") ++ a))
      = " + ".intercalate (alternate rawStrings components) := by
    cases alternate rawStrings components with
    | nil => rfl
    | cons a as => simp [String.intercalate, intercalate_go_foldl]
  rw [hout] at h
  unfold InterpolatedLiteralExpr.codegen
  rw [h]
  constructor
  · by_cases hv : rawStrings.length = components.length ∨
        rawStrings.length = components.length + 1
    · simp [hv]
    · simp [hv]
  · intro hv
    rw [if_pos hv]

/-- Witness for C25: two raw strings around one component. -/
theorem interpolated_codegen_witness :
    InterpolatedLiteralExpr.codegen ["a", "b"] ["x"]
      = some (" + ".intercalate (alternate ["a", "b"] ["x"])) ∧
    " + ".intercalate (alternate ["a", "b"] ["x"]) = "\"a\" + x + \"b\"" ∧
    InterpolatedLiteralExpr.codegen ["a"] ["x", "y"] = none :=
  ⟨(interpolated_codegen ["a", "b"] ["x"]).2 (Or.inr rfl), by decide, by decide⟩

end ast

/-! ## The namespace stack -/

namespace compiler

theorem foldl_append_acc (f : String → String) :
    ∀ (l : List String) (acc : String),
      l.foldl (fun res ns => res ++ f ns) acc
        = acc ++ l.foldl (fun res ns => res ++ f ns) "" := by
  intro l
  induction l with
  | nil => intro acc; simp
  | cons a l ih =>
    intro acc
    simp only [List.foldl_cons]
    rw [ih (acc ++ f a), ih ("" ++ f a)]
    simp [String.append_assoc]

theorem foldl_append_join (f : String → String) (l : List String) (acc : String) :
    l.foldl (fun res ns => res ++ f ns) acc = acc ++ String.join (l.map f) := by
  rw [foldl_append_acc f l acc]
  simp [String.join, List.foldl_map]

/-- C26: on a non-empty namespace stack, `Compiler::popNameSpace(name)` removes the top
segment when the top equals `name`, and otherwise leaves the stack as it is and logs
exactly one internal error; `pushNameSpace(n)` followed by `popNameSpace(n)` restores
the state; and `getNameSpace()` is the concatenation, in stack order, of each segment
followed by `::`. -/
theorem namespace_stack_discipline (inst : Instance) (below : List String)
    (top name : String) (hs : inst.m_compiler.m_namespace = below ++ [top]) :
    (top = name →
      Compiler.popNameSpace inst name
        = some { inst with m_compiler := { inst.m_compiler with m_namespace := below } }) ∧
    (top ≠ name →
      Compiler.popNameSpace inst name
          = some (inst.logError (Compiler.popNameSpaceError inst name)) ∧
        (inst.logError (Compiler.popNameSpaceError inst name)).m_compiler = inst.m_compiler ∧
        (inst.logError (Compiler.popNameSpaceError inst name)).m_logged
          = inst.m_logged ++ [Compiler.popNameSpaceError inst name] ∧
        (Compiler.popNameSpaceError inst name).code = Error.InternalError) ∧
    (∀ n : String,
      Compiler.popNameSpace { inst with m_compiler := inst.m_compiler.pushNameSpace n } n
        = some inst) ∧
    inst.m_compiler.getNameSpace
      = String.join (inst.m_compiler.m_namespace.map (fun s => s ++ "::")) := by
  refine ⟨?_, ?_, ?_, ?_⟩
  · intro h
    simp [Compiler.popNameSpace, hs, h]
  · intro h
    refine ⟨?_, rfl, rfl, rfl⟩
    simp [Compiler.popNameSpace, hs, h]
  · intro n
    simp [Compiler.popNameSpace, Compiler.pushNameSpace]
  · unfold Compiler.getNameSpace
    rw [foldl_append_join (fun s => s ++ "::")]
    simp

/-- Witness for C26: on the stack `a`, `b` the segment `b` is popped, and popping `a` logs
one internal error and leaves the stack as it is. -/
theorem namespace_stack_discipline_witness :
    Compiler.popNameSpace (ast.emptyInstance ["a", "b"]) "b"
      = some (ast.emptyInstance ["a"]) ∧
    (Compiler.popNameSpace (ast.emptyInstance ["a", "b"]) "a").map
        (fun i => (i.m_compiler.m_namespace, i.m_logged.map (fun e => e.note)))
      = some (["a", "b"], ["Current stack: a::b"]) ∧
    (ast.emptyInstance ["a", "b"]).m_compiler.getNameSpace = "a::b::" :=
  ⟨(namespace_stack_discipline (ast.emptyInstance ["a", "b"]) ["a"] "b" "b" rfl).1 rfl,
   by decide, by decide⟩

end compiler

/-! ## Lookups of types and variables -/

theorem findEntity_skip (path : FullIdentPath) (topOnly : Bool) (rest : List Scope) :
    ∀ inner : List Scope, (∀ s ∈ inner, s.m_entities.contains path = false) →
      (topOnly = false ∨ inner = []) →
      findEntity path topOnly (inner ++ rest) = findEntity path topOnly rest := by
  intro inner
  induction inner with
  | nil => intro _ _; rfl
  | cons s inner ih =>
    intro h ht
    have htop : topOnly = false := by
      rcases ht with ht | ht
      · exact ht
      · cases ht
    have hs := h s (List.mem_cons_self _ _)
    simp only [List.cons_append, findEntity, hs, htop]
    have := ih (fun s' hs' => h s' (List.mem_cons_of_mem _ hs')) (Or.inl htop)
    rw [htop] at this
    simpa using this

theorem findEntity_none (path : FullIdentPath) (topOnly : Bool) :
    ∀ scopes : List Scope, (∀ s ∈ scopes, s.m_entities.contains path = false) →
      findEntity path topOnly scopes = none := by
  intro scopes
  induction scopes with
  | nil => intro _; rfl
  | cons s rest ih =>
    intro h
    have hs := h s (List.mem_cons_self _ _)
    simp only [findEntity, hs]
    cases topOnly with
    | true => rfl
    | false => simpa using ih (fun s' hs' => h s' (List.mem_cons_of_mem _ hs'))

theorem findEntity_at (path : FullIdentPath) (topOnly : Bool) (outer inner : List Scope)
    (s : Scope) (hinner : ∀ s' ∈ inner, s'.m_entities.contains path = false)
    (hs : s.m_entities.contains path = true) (ht : topOnly = false ∨ inner = []) :
    findEntity path topOnly (outer ++ s :: inner).reverse = Map.at? s.m_entities path := by
  have hrev : (outer ++ s :: inner).reverse = inner.reverse ++ s :: outer.reverse := by
    simp
  rw [hrev, findEntity_skip path topOnly _ inner.reverse
    (fun s' hs' => hinner s' (List.mem_reverse.mp hs'))
    (ht.imp id (fun h => by simp [h]))]
  simp [findEntity, hs]

theorem findEntity_top (path : FullIdentPath) (below : List Scope) (top : Scope)
    (hs : top.m_entities.contains path = false) :
    findEntity path true (below ++ [top]).reverse = none := by
  simp [findEntity, hs]

theorem contains_of_at {κ ν : Type} [DecidableEq κ] (m : Map κ ν) (k : κ) (e : ν)
    (h : Map.at? m k = some e) : Map.contains m k = true := by
  induction m with
  | nil => simp [Map.at?] at h
  | cons x rest ih =>
    by_cases hx : x.1 = k
    · simp [Map.contains, hx]
    · have hrest : Map.at? rest k = some e := by
        simpa [Map.at?, List.find?_cons, hx] using h
      have := ih hrest
      simp only [Map.contains, List.any_cons] at this ⊢
      simp [this]

/-- C27: `UnitParser::getType(name, topOnly)`, and `getVar` alike: when the resolution of
the name fails the result is null; when the name resolves as the existing path `p`,
the result is taken from the innermost scope whose table contains `p` (the top scope
alone with `topOnly`): when the entry there is a `Type` it is returned, and when it
is not the result is null, whatever the scopes below hold under `p` (for `getVar`:
a `Var` is returned, anything else gives null); and the result is null when no
consulted scope contains `p`. -/
theorem getType_getVar_spec (fr : PathResolver) (u : UnitParser) (name : IdentPath)
    (topOnly : Bool) :
    (∀ msg, u.resolve fr name true = .error msg →
      u.getType fr name topOnly = none ∧ u.getVar fr name topOnly = none) ∧
    (∀ p, u.resolve fr name true = .ok p →
      (∀ outer s inner e, u.m_scopes = outer ++ s :: inner →
        (∀ s' ∈ inner, s'.m_entities.contains p = false) →
        Map.at? s.m_entities p = some e →
        (topOnly = false ∨ inner = []) →
        (∀ t, e = .type t → u.getType fr name topOnly = some t) ∧
        ((∀ t, e ≠ .type t) → u.getType fr name topOnly = none) ∧
        (∀ v, e = .var v → u.getVar fr name topOnly = some v) ∧
        ((∀ v, e ≠ .var v) → u.getVar fr name topOnly = none)) ∧
      (∀ below top, u.m_scopes = below ++ [top] → topOnly = true →
        top.m_entities.contains p = false →
        u.getType fr name topOnly = none ∧ u.getVar fr name topOnly = none) ∧
      ((∀ s ∈ u.m_scopes, s.m_entities.contains p = false) →
        u.getType fr name topOnly = none ∧ u.getVar fr name topOnly = none)) := by
  refine ⟨?_, ?_⟩
  · intro msg h
    simp [UnitParser.getType, UnitParser.getVar, h]
  · intro p h
    have hT : u.getType fr name topOnly
        = (findEntity p topOnly u.m_scopes.reverse).bind Entity.getIfType := by
      simp [UnitParser.getType, h]
    have hV : u.getVar fr name topOnly
        = (findEntity p topOnly u.m_scopes.reverse).bind Entity.getIfVar := by
      simp [UnitParser.getVar, h]
    refine ⟨?_, ?_, ?_⟩
    · intro outer s inner e hsc hinner he ht
      have hf := findEntity_at p topOnly outer inner s hinner
        (contains_of_at _ _ _ he) ht
      rw [← hsc] at hf
      rw [hT, hV, hf, he]
      refine ⟨?_, ?_, ?_, ?_⟩
      · intro t het
        rw [het]
        rfl
      · intro hne
        cases e with
        | type t => exact absurd rfl (hne t)
        | var v => rfl
        | fn f => rfl
        | ns n => rfl
      · intro v hev
        rw [hev]
        rfl
      · intro hne
        cases e with
        | type t => rfl
        | var v => exact absurd rfl (hne v)
        | fn f => rfl
        | ns n => rfl
    · intro below top hsc ht hs
      have hf := findEntity_top p below top hs
      rw [← hsc] at hf
      rw [hT, hV, ht, hf]
      exact ⟨rfl, rfl⟩
    · intro hno
      have hf := findEntity_none p topOnly u.m_scopes.reverse
        (fun s hs => hno s (List.mem_reverse.mp hs))
      rw [hT, hV, hf]
      exact ⟨rfl, rfl⟩

/-- Witness for C27: with a variable under `a::x` in the root scope and a type under
`a::x` in the scope `a` above it, the lookup of the type `x` returns the type; with
the two entries exchanged, the lookup of the type `x` is null although the root scope
holds a type, and the lookup of the variable `x` returns the variable. -/
theorem getType_getVar_spec_witness :
    UnitParser.getType FullIdentPath.resolve
        ⟨⟨[], 0⟩, none,
          [⟨none, false, [(⟨["a", "x"]⟩, .var ⟨IdentPath.ofIdent "x"⟩)]⟩,
           ⟨some ⟨["a"]⟩, false, [(⟨["a", "x"]⟩, .type .int)]⟩]⟩
        (IdentPath.ofIdent "x") false = some .int ∧
    UnitParser.getType FullIdentPath.resolve
        ⟨⟨[], 0⟩, none,
          [⟨none, false, [(⟨["a", "x"]⟩, .type .int)]⟩,
           ⟨some ⟨["a"]⟩, false, [(⟨["a", "x"]⟩, .var ⟨IdentPath.ofIdent "x"⟩)]⟩]⟩
        (IdentPath.ofIdent "x") false = none ∧
    UnitParser.getVar FullIdentPath.resolve
        ⟨⟨[], 0⟩, none,
          [⟨none, false, [(⟨["a", "x"]⟩, .type .int)]⟩,
           ⟨some ⟨["a"]⟩, false, [(⟨["a", "x"]⟩, .var ⟨IdentPath.ofIdent "x"⟩)]⟩]⟩
        (IdentPath.ofIdent "x") false = some ⟨IdentPath.ofIdent "x"⟩ :=
  ⟨(((getType_getVar_spec FullIdentPath.resolve
      ⟨⟨[], 0⟩, none,
        [⟨none, false, [(⟨["a", "x"]⟩, .var ⟨IdentPath.ofIdent "x"⟩)]⟩,
         ⟨some ⟨["a"]⟩, false, [(⟨["a", "x"]⟩, .type .int)]⟩]⟩
      (IdentPath.ofIdent "x") false).2 ⟨["a", "x"]⟩ rfl).1
      [⟨none, false, [(⟨["a", "x"]⟩, .var ⟨IdentPath.ofIdent "x"⟩)]⟩]
      ⟨some ⟨["a"]⟩, false, [(⟨["a", "x"]⟩, .type .int)]⟩ [] (.type .int)
      rfl (by simp) rfl (Or.inl rfl)).1 .int rfl,
   (((getType_getVar_spec FullIdentPath.resolve
      ⟨⟨[], 0⟩, none,
        [⟨none, false, [(⟨["a", "x"]⟩, .type .int)]⟩,
         ⟨some ⟨["a"]⟩, false, [(⟨["a", "x"]⟩, .var ⟨IdentPath.ofIdent "x"⟩)]⟩]⟩
      (IdentPath.ofIdent "x") false).2 ⟨["a", "x"]⟩ rfl).1
      [⟨none, false, [(⟨["a", "x"]⟩, .type .int)]⟩]
      ⟨some ⟨["a"]⟩, false, [(⟨["a", "x"]⟩, .var ⟨IdentPath.ofIdent "x"⟩)]⟩ []
      (.var ⟨IdentPath.ofIdent "x"⟩) rfl (by simp) rfl (Or.inl rfl)).2.1
      (fun t h => by cases h),
   (((getType_getVar_spec FullIdentPath.resolve
      ⟨⟨[], 0⟩, none,
        [⟨none, false, [(⟨["a", "x"]⟩, .type .int)]⟩,
         ⟨some ⟨["a"]⟩, false, [(⟨["a", "x"]⟩, .var ⟨IdentPath.ofIdent "x"⟩)]⟩]⟩
      (IdentPath.ofIdent "x") false).2 ⟨["a", "x"]⟩ rfl).1
      [⟨none, false, [(⟨["a", "x"]⟩, .type .int)]⟩]
      ⟨some ⟨["a"]⟩, false, [(⟨["a", "x"]⟩, .var ⟨IdentPath.ofIdent "x"⟩)]⟩ []
      (.var ⟨IdentPath.ofIdent "x"⟩) rfl (by simp) rfl (Or.inl rfl)).2.2.1 _ rfl⟩

/-! ## Variables under a namespace -/

theorem at_insert_fresh {κ ν : Type} [DecidableEq κ] (m : Map κ ν) (k : κ) (v : ν)
    (h : Map.contains m k = false) : Map.at? (Map.insert m k v) k = some v := by
  have hnone : List.find? (fun e => decide (e.1 = k)) m = none := by
    rw [List.find?_eq_none]
    intro e he hk
    have hc : Map.contains m k = true := by
      unfold Map.contains
      rw [List.any_eq_true]
      exact ⟨e, he, hk⟩
    rw [h] at hc
    cases hc
  simp [Map.insert, h, Map.at?, List.find?_append, hnone]

theorem at_insert_ne {κ ν : Type} [DecidableEq κ] (m : Map κ ν) (k k' : κ) (v : ν)
    (hne : k ≠ k') : Map.at? (Map.insert m k v) k' = Map.at? m k' := by
  unfold Map.insert
  by_cases h : Map.contains m k = true
  · simp [h]
  · simp [h, Map.at?, List.find?_append, hne]

theorem colon_split :
    ∀ (a a' r r' : List Char), ':' ∉ a → ':' ∉ a' → a ++ ':' :: r = a' ++ ':' :: r' →
      a = a' ∧ r = r' := by
  intro a
  induction a with
  | nil =>
    intro a' r r' _ ha' h
    cases a' with
    | nil => simpa using h
    | cons x a' =>
      simp only [List.nil_append, List.cons_append, List.cons.injEq] at h
      exact absurd (h.1 ▸ List.mem_cons_self _ _) ha'
  | cons x a ih =>
    intro a' r r' ha ha' h
    cases a' with
    | nil =>
      simp only [List.nil_append, List.cons_append, List.cons.injEq] at h
      exact absurd (h.1 ▸ List.mem_cons_self _ _) ha
    | cons x' a' =>
      simp only [List.cons_append, List.cons.injEq] at h
      have := ih a' r r' (fun hm => ha (List.mem_cons_of_mem _ hm))
        (fun hm => ha' (List.mem_cons_of_mem _ hm)) h.2
      exact ⟨by rw [h.1, this.1], this.2⟩

namespace compiler

theorem getNameSpace_cons (s : String) (rest : List String) :
    (s :: rest).foldl (fun res ns => res ++ (ns ++ "::")) ""
      = (s ++ "::") ++ rest.foldl (fun res ns => res ++ (ns ++ "::")) "" := by
  simp only [List.foldl_cons]
  rw [foldl_append_acc (fun ns => ns ++ "::") rest ("" ++ (s ++ "::"))]
  simp

theorem getNameSpace_cons_ne (s : String) (rest : List String) :
    (s :: rest).foldl (fun res ns => res ++ (ns ++ "::")) "" ≠ "" := by
  intro h
  have hlen := congrArg String.length h
  rw [getNameSpace_cons] at hlen
  simp only [String.length_append] at hlen
  have h2 : "::".length = 2 := rfl
  have h0 : "".length = 0 := rfl
  omega

theorem getNameSpace_injective :
    ∀ N N' : List String, (∀ s ∈ N, ast.colonFree s) → (∀ s ∈ N', ast.colonFree s) →
      N.foldl (fun res ns => res ++ (ns ++ "::")) ""
        = N'.foldl (fun res ns => res ++ (ns ++ "::")) "" →
      N = N' := by
  intro N
  induction N with
  | nil =>
    intro N' _ _ h
    cases N' with
    | nil => rfl
    | cons s' r' => exact absurd h.symm (getNameSpace_cons_ne s' r')
  | cons s r ih =>
    intro N' hN hN' h
    cases N' with
    | nil => exact absurd h (getNameSpace_cons_ne s r)
    | cons s' r' =>
      rw [getNameSpace_cons, getNameSpace_cons] at h
      have hd := congrArg String.data h
      simp only [String.data_append] at hd
      simp only [List.append_assoc, List.cons_append, List.nil_append] at hd
      have hsplit := colon_split s.data s'.data _ _ (hN s (List.mem_cons_self _ _))
        (hN' s' (List.mem_cons_self _ _)) hd
      have hs : s = s' := String.ext hsplit.1
      have hrest : (r.foldl (fun res ns => res ++ (ns ++ "::")) "")
          = (r'.foldl (fun res ns => res ++ (ns ++ "::")) "") := by
        apply String.ext
        have := hsplit.2
        simpa using this
      rw [hs, ih r' (fun x hx => hN x (List.mem_cons_of_mem _ hx))
        (fun x hx => hN' x (List.mem_cons_of_mem _ hx)) hrest]

theorem append_right_cancel (a b n : String) (h : a ++ n = b ++ n) : a = b := by
  apply String.ext
  have hd := congrArg String.data h
  simp only [String.data_append] at hd
  exact List.append_cancel_right hd

end compiler

namespace compiler

theorem findVariable_top_ne (top : Scope) (rest : List Scope) (key key' : String)
    (v : NamedEntity) (hne : key ≠ key') :
    Compiler.findVariable key'
        ({ top with variables_ := Map.insert top.variables_ key v } :: rest)
      = Compiler.findVariable key' (top :: rest) := by
  simp only [Compiler.findVariable, contains_insert_ne _ _ _ _ hne, at_insert_ne _ _ _ _ hne]

/-- Counterexample for C28: the variable `x` is declared while the namespace stack is the
single segment `a::b`, and the lookup of `x` under the different namespace stack `a`,
`b` finds that entry, which it did not find before the declaration. -/
theorem variable_lookup_counterexample :
    (["a", "b"] : List String) ≠ ["a::b"] ∧
    Compiler.getVariable
        ⟨["a", "b"],
          [(Scope.pushVariable ⟨["a::b"], [Scope.new]⟩ Scope.new "x"
            ⟨QualifiedType.empty, none, 7⟩).1]⟩ "x"
      = some ⟨QualifiedType.empty, none, 7⟩ ∧
    Compiler.getVariable ⟨["a", "b"], [Scope.new]⟩ "x" = none :=
  ⟨by decide, rfl, rfl⟩

/-- C28 (amended): for every namespace stack and name whose key `getNameSpace() + n` is
not yet in the top scope, after `Scope::pushVariable(n, v)` on the top scope,
`Compiler::getVariable(n)` under the same namespace stack returns `v`, whatever the
scopes below hold; under a namespace stack whose `getNameSpace()` differs the lookup
of `n` returns what it returned before the declaration; and `getNameSpace()` differs
for every other namespace stack when no segment of the two stacks contains a colon. -/
theorem variable_round_trip (c : Compiler) (below : List Scope) (top : Scope) (n : String)
    (v : NamedEntity) (hs : c.m_scope = below ++ [top])
    (hfresh : top.hasVariable (c.getNameSpace ++ n) = false) :
    Compiler.getVariable { c with m_scope := below ++ [(top.pushVariable c n v).1] } n
      = some v ∧
    (∀ N' : List String,
      Compiler.getNameSpace ⟨N', c.m_scope⟩ ≠ c.getNameSpace →
      Compiler.getVariable ⟨N', below ++ [(top.pushVariable c n v).1]⟩ n
        = Compiler.getVariable ⟨N', c.m_scope⟩ n) ∧
    (∀ N' : List String, (∀ s ∈ c.m_namespace, ast.colonFree s) →
      (∀ s ∈ N', ast.colonFree s) → N' ≠ c.m_namespace →
      Compiler.getNameSpace ⟨N', c.m_scope⟩ ≠ c.getNameSpace) := by
  refine ⟨?_, ?_, ?_⟩
  · show Compiler.findVariable (c.getNameSpace ++ n)
        (below ++ [(top.pushVariable c n v).1]).reverse = some v
    simp only [List.reverse_append, List.reverse_cons, List.reverse_nil, List.nil_append,
      List.singleton_append, Compiler.findVariable, Scope.pushVariable,
      contains_insert_self, if_true]
    exact at_insert_fresh _ _ _ hfresh
  · intro N' hne
    have hkey : c.getNameSpace ++ n ≠ Compiler.getNameSpace ⟨N', c.m_scope⟩ ++ n :=
      fun h => hne (append_right_cancel _ _ _ h.symm)
    show Compiler.findVariable (Compiler.getNameSpace ⟨N', c.m_scope⟩ ++ n)
        (below ++ [(top.pushVariable c n v).1]).reverse
      = Compiler.findVariable (Compiler.getNameSpace ⟨N', c.m_scope⟩ ++ n) c.m_scope.reverse
    simp only [hs, List.reverse_append, List.reverse_cons, List.reverse_nil,
      List.nil_append, List.singleton_append, Scope.pushVariable]
    rw [hs] at hkey
    exact findVariable_top_ne top below.reverse _ _ v hkey
  · intro N' hN hN' hne heq
    exact hne (getNameSpace_injective N' c.m_namespace hN' hN heq)

/-- Witness for C28: `x` declared in the namespace `a` is found under `a` and not under
`b`. -/
theorem variable_round_trip_witness :
    Compiler.getVariable
        { (⟨["a"], [Scope.new]⟩ : Compiler) with
          m_scope := [] ++ [(Scope.new.pushVariable ⟨["a"], [Scope.new]⟩ "x"
            ⟨QualifiedType.empty, none, 7⟩).1] } "x"
      = some ⟨QualifiedType.empty, none, 7⟩ ∧
    Compiler.getVariable
        ⟨["b"], [(Scope.new.pushVariable ⟨["a"], [Scope.new]⟩ "x"
          ⟨QualifiedType.empty, none, 7⟩).1]⟩ "x" = none :=
  ⟨(variable_round_trip ⟨["a"], [Scope.new]⟩ [] Scope.new "x"
      ⟨QualifiedType.empty, none, 7⟩ rfl rfl).1,
   rfl⟩

end compiler

/-! ## The unit after `UnitParser::resolve` -/

theorem forScopes_scopes {ρ : Type} (body : Scope → Option ρ × Scope)
    (hbody : ∀ scope, (body scope).2 = scope) :
    ∀ scopes : List Scope, (forScopes body scopes).2 = scopes := by
  intro scopes
  induction scopes with
  | nil => rfl
  | cons scope rest ih =>
    have hb := hbody scope
    unfold forScopes
    cases hr : body scope with
    | mk value scope1 =>
      rw [hr] at hb
      simp only at hb
      cases value with
      | some r => simp [hb]
      | none => simp [hb, ih]

theorem resolveDeclStep_scope (name : IdentPath) (scope : Scope) :
    (resolveDeclStep name scope).2 = scope := by
  unfold resolveDeclStep
  cases scope.m_name <;> rfl

theorem resolveEntitiesRun_table (fr : PathResolver) (name : IdentPath) (existing : Bool) :
    ∀ table : List (FullIdentPath × Entity),
      (resolveEntitiesRun fr name existing table).2 = table := by
  intro table
  induction table with
  | nil => rfl
  | cons entry rest ih =>
    obtain ⟨path, entity⟩ := entry
    unfold resolveEntitiesRun
    cases fr path name existing with
    | some resolved =>
      simp only
      split <;> rfl
    | none => simp [ih]

theorem resolveEntitiesRun_value (fr : PathResolver) (name : IdentPath) (existing : Bool) :
    ∀ table : List (FullIdentPath × Entity),
      (resolveEntitiesRun fr name existing table).1 = resolveEntities fr name existing table := by
  intro table
  induction table with
  | nil => rfl
  | cons entry rest ih =>
    obtain ⟨path, entity⟩ := entry
    unfold resolveEntitiesRun resolveEntities
    cases fr path name existing with
    | some resolved =>
      simp only
      split <;> rfl
    | none => simp [ih]

theorem resolveScopeStep_scope (fr : PathResolver) (name : IdentPath) (existing : Bool)
    (scope : Scope) : (resolveScopeStep fr name existing scope).2 = scope := by
  unfold resolveScopeStep
  cases scope.m_name.bind (fun n => fr n name existing) with
  | some resolved => rfl
  | none => simp [resolveEntitiesRun_table]

theorem forScopes_decl_value (name : IdentPath) :
    ∀ scopes : List Scope,
      (match (forScopes (resolveDeclStep name) scopes).1 with
        | some path => path
        | none => FullIdentPath.ofIdentPath name) = resolveDecl name scopes := by
  intro scopes
  induction scopes with
  | nil => rfl
  | cons scope rest ih =>
    unfold forScopes resolveDecl
    cases hn : scope.m_name with
    | some n => simp [resolveDeclStep, hn]
    | none => simpa [resolveDeclStep, hn] using ih

theorem forScopes_lookup_value (fr : PathResolver) (name : IdentPath) (existing : Bool) :
    ∀ scopes : List Scope,
      (match (forScopes (resolveScopeStep fr name existing) scopes).1 with
        | some result => result
        | none => .error (errUnknownNamespace name))
        = resolveScopes fr name existing scopes := by
  intro scopes
  induction scopes with
  | nil => rfl
  | cons scope rest ih =>
    unfold forScopes resolveScopes
    cases hn : scope.m_name.bind (fun n => fr n name existing) with
    | some resolved => simp [resolveScopeStep, hn]
    | none =>
      have hv := resolveEntitiesRun_value fr name existing scope.m_entities
      cases he : resolveEntities fr name existing scope.m_entities with
      | some result =>
        rw [he] at hv
        simp [resolveScopeStep, hn, hv]
      | none =>
        rw [he] at hv
        simpa [resolveScopeStep, hn, hv] using ih

theorem resolveRun_unit (fr : PathResolver) (u : UnitParser) (name : IdentPath)
    (existing : Bool) : (u.resolveRun fr name existing).2 = u := by
  unfold UnitParser.resolveRun
  split
  · simp [forScopes_scopes _ (resolveDeclStep_scope name)]
  · simp [forScopes_scopes _ (resolveScopeStep_scope fr name existing)]

theorem resolveRun_value (fr : PathResolver) (u : UnitParser) (name : IdentPath)
    (existing : Bool) : (u.resolveRun fr name existing).1 = u.resolve fr name existing := by
  unfold UnitParser.resolveRun UnitParser.resolve
  split
  · have h := forScopes_decl_value name u.m_scopes.reverse
    simp only
    rw [← h]
    cases (forScopes (resolveDeclStep name) u.m_scopes.reverse).1 <;> rfl
  · exact forScopes_lookup_value fr name existing u.m_scopes.reverse

/-- C17: for every scope stack, path and flag, `UnitParser::resolve` leaves the unit it is
called on as it was, so the scope stack, with the bound name and the entity table of
every scope, is unchanged; a second call with the same arguments returns the same
result; and two units with the same scope stack, whatever their logs and sources,
get the same result. The result is the one that the loops of the function compute:
see `resolveDecl` and `resolveScopes`. -/
theorem resolve_pure (fr : PathResolver) (u : UnitParser) (name : IdentPath)
    (existing : Bool) :
    (u.resolveRun fr name existing).2 = u ∧
    (u.resolveRun fr name existing).2.m_scopes = u.m_scopes ∧
    ((u.resolveRun fr name existing).2.resolveRun fr name existing).1
      = (u.resolveRun fr name existing).1 ∧
    (u.resolveRun fr name existing).1 =
      (if name.isSingle && !existing then .ok (resolveDecl name u.m_scopes.reverse)
       else resolveScopes fr name existing u.m_scopes.reverse) ∧
    (∀ v : UnitParser, v.m_scopes = u.m_scopes →
      (v.resolveRun fr name existing).1 = (u.resolveRun fr name existing).1) := by
  have hu := resolveRun_unit fr u name existing
  refine ⟨hu, by rw [hu], by rw [hu], ?_, ?_⟩
  · rw [resolveRun_value]
    rfl
  · intro v hv
    rw [resolveRun_value, resolveRun_value]
    exact resolve_of_scopes fr v u name existing hv

/-- Witness for C17: below the named scope `a` the lookup of `b` gives `a::b` and the
same scopes afterwards, and a unit with the same scopes and another log gets the
same result. -/
theorem resolve_pure_witness :
    UnitParser.resolveRun FullIdentPath.resolve
        ⟨⟨[], 0⟩, none, [⟨none, false, []⟩, ⟨some ⟨["a"]⟩, false, []⟩]⟩
        (IdentPath.ofIdent "b") true
      = (.ok ⟨["a", "b"]⟩,
          ⟨⟨[], 0⟩, none, [⟨none, false, []⟩, ⟨some ⟨["a"]⟩, false, []⟩]⟩) ∧
    (UnitParser.resolveRun FullIdentPath.resolve
        ⟨⟨[(0, ⟨.Error, none, "earlier", ⟨1, 1, 1, 2⟩⟩)], 3⟩, some "main",
          [⟨none, false, []⟩, ⟨some ⟨["a"]⟩, false, []⟩]⟩
        (IdentPath.ofIdent "b") true).1
      = (UnitParser.resolveRun FullIdentPath.resolve
        ⟨⟨[], 0⟩, none, [⟨none, false, []⟩, ⟨some ⟨["a"]⟩, false, []⟩]⟩
        (IdentPath.ofIdent "b") true).1 :=
  ⟨rfl,
   (resolve_pure FullIdentPath.resolve
      ⟨⟨[], 0⟩, none, [⟨none, false, []⟩, ⟨some ⟨["a"]⟩, false, []⟩]⟩
      (IdentPath.ofIdent "b") true).2.2.2.2
      ⟨⟨[(0, ⟨.Error, none, "earlier", ⟨1, 1, 1, 2⟩⟩)], 3⟩, some "main",
        [⟨none, false, []⟩, ⟨some ⟨["a"]⟩, false, []⟩]⟩ rfl⟩

/-! ## The diagnostics of a program with undefined identifiers -/

theorem modifyBack_shared (u : UnitParser) (f : Scope → Scope) :
    (u.modifyBack f).m_shared = u.m_shared ∧ (u.modifyBack f).m_src = u.m_src := by
  unfold UnitParser.modifyBack
  cases u.m_scopes.getLast? <;> exact ⟨rfl, rfl⟩

theorem seed_shared (gn : NameOf) (fr : PathResolver) (prims : List Primitive) :
    ∀ u : UnitParser,
      (prims.foldl (fun v prim => v.pushType gn fr (Ty.ofPrimitive prim)) u).m_shared
        = u.m_shared ∧
      (prims.foldl (fun v prim => v.pushType gn fr (Ty.ofPrimitive prim)) u).m_src
        = u.m_src := by
  induction prims with
  | nil => intro u; exact ⟨rfl, rfl⟩
  | cons prim prims ih =>
    intro u
    simp only [List.foldl_cons]
    have h := ih (u.pushType gn fr (Ty.ofPrimitive prim))
    have hm := modifyBack_shared u (fun s => s.pushType gn fr u (Ty.ofPrimitive prim))
    exact ⟨h.1.trans hm.1, h.2.trans hm.2⟩

theorem new_shared (gn : NameOf) (fr : PathResolver) (parser : Parser) (src : Option String) :
    (UnitParser.new gn fr parser src).m_shared = parser ∧
    (UnitParser.new gn fr parser src).m_src = src := by
  unfold UnitParser.new
  exact seed_shared gn fr _ _

theorem identTypecheck_undefined (fr : PathResolver) (e : IdentExpr) (u : UnitParser)
    (parsed : ParsedSrc)
    (h : ∀ path, u.resolve fr e.path true = .ok path →
      findEntity path false u.m_scopes.reverse = none) :
    e.typecheck fr u parsed = (some (undefinedIdentifier e.path), u, parsed) := by
  unfold IdentExpr.typecheck
  cases hr : u.resolve fr e.path true with
  | error msg => rfl
  | ok path => simp [h path hr]

theorem typecheck_undefined (fr : PathResolver) (parsed : ParsedSrc) :
    ∀ (es : List IdentExpr) (u : UnitParser),
      (∀ e ∈ es, ∀ path, u.resolve fr e.path true = .ok path →
        findEntity path false u.m_scopes.reverse = none) →
      AST.typecheck (es.map (IdentExpr.toExpr fr)) u parsed
        = (es.foldl (fun v e => v.error e.range (undefinedIdentifier e.path)) u, parsed) := by
  intro es
  induction es with
  | nil => intro u _; rfl
  | cons e es ih =>
    intro u h
    have he := identTypecheck_undefined fr e u parsed (h e (List.mem_cons_self _ _))
    have hrest : ∀ e' ∈ es, ∀ path,
        (u.error e.range (undefinedIdentifier e.path)).resolve fr e'.path true = .ok path →
        findEntity path false
          (u.error e.range (undefinedIdentifier e.path)).m_scopes.reverse = none := by
      intro e' he' path hp
      rw [resolve_of_scopes fr (u.error e.range (undefinedIdentifier e.path)) u e'.path true
        rfl] at hp
      exact h e' (List.mem_cons_of_mem _ he') path hp
    have := ih (u.error e.range (undefinedIdentifier e.path)) hrest
    unfold AST.typecheck at this ⊢
    simp only [List.map_cons, List.foldl_cons, IdentExpr.toExpr, he]
    exact this

theorem errors_messages :
    ∀ (es : List IdentExpr) (u : UnitParser),
      (es.foldl (fun v e => v.error e.range (undefinedIdentifier e.path)) u).m_shared
        = { u.m_shared with
            m_messages := u.m_shared.m_messages ++
              es.map (fun e => (u.m_shared.m_rollbackLevel,
                (⟨Level.Error, u.m_src, undefinedIdentifier e.path, e.range⟩ : Message))) } := by
  intro es
  induction es with
  | nil => intro u; simp
  | cons e es ih =>
    intro u
    simp only [List.foldl_cons, List.map_cons]
    rw [ih]
    simp [UnitParser.error, Parser.log]

/-- C16 (with the program root as the spec describes it): for a program whose top-level
statements are two references to identifiers that are undefined in the fresh unit
(the resolution of the path fails, or no scope holds an entity under the resolved
path), one call of `Parser::compile` returns without raising and records exactly
two diagnostics after those recorded before, both of level `Error`: the undefined
identifier of the first statement, then the undefined identifier of the second,
each for the range of its statement. -/
theorem compile_collects_undefined (gn : NameOf) (fr : PathResolver)
    (rootRange : String → Range) (defaultLevel : Nat) (p : ParserState) (root : String)
    (e1 e2 : IdentExpr) (hroot : p.m_root = some root)
    (h1 : ∀ path, (UnitParser.new gn fr p.toParser (some root)).resolve fr e1.path true
        = .ok path →
      findEntity path false (UnitParser.new gn fr p.toParser (some root)).m_scopes.reverse
        = none)
    (h2 : ∀ path, (UnitParser.new gn fr p.toParser (some root)).resolve fr e2.path true
        = .ok path →
      findEntity path false (UnitParser.new gn fr p.toParser (some root)).m_scopes.reverse
        = none) :
    ∃ q, p.compile (UnitParser.parse gn fr (some [e1.toExpr fr, e2.toExpr fr]))
        rootRange defaultLevel = .ok q ∧
      q.m_messages = p.m_messages ++
        [(p.m_rollbackLevel,
            ⟨Level.Error, some root, undefinedIdentifier e1.path, e1.range⟩),
         (p.m_rollbackLevel,
            ⟨Level.Error, some root, undefinedIdentifier e2.path, e2.range⟩)] ∧
      q.m_messages.length = p.m_messages.length + 2 ∧
      q.m_rollbackLevel = p.m_rollbackLevel ∧
      q.m_root = p.m_root := by
  have hall : ∀ e ∈ [e1, e2], ∀ path,
      (UnitParser.new gn fr p.toParser (some root)).resolve fr e.path true = .ok path →
      findEntity path false (UnitParser.new gn fr p.toParser (some root)).m_scopes.reverse
        = none := by
    intro e he
    simp only [List.mem_cons, List.mem_singleton, List.not_mem_nil, or_false] at he
    rcases he with rfl | rfl
    · exact h1
    · exact h2
  have ht := typecheck_undefined fr ⟨[]⟩ [e1, e2]
    (UnitParser.new gn fr p.toParser (some root)) hall
  have hm := errors_messages [e1, e2] (UnitParser.new gn fr p.toParser (some root))
  have hn := new_shared gn fr p.toParser (some root)
  rw [hn.1, hn.2] at hm
  have hparse : UnitParser.parse gn fr (some [e1.toExpr fr, e2.toExpr fr]) p.toParser root
      = .returned
          { p.toParser with
            m_messages := p.m_messages ++
              [(p.m_rollbackLevel,
                  (⟨Level.Error, some root, undefinedIdentifier e1.path, e1.range⟩ : Message)),
               (p.m_rollbackLevel,
                  ⟨Level.Error, some root, undefinedIdentifier e2.path, e2.range⟩)] }
          ⟨[]⟩ := by
    unfold UnitParser.parse
    simp only [List.map_cons, List.map_nil] at ht hm
    simp only [ht, hm]
  refine ⟨_, compile_of_returned _ rootRange defaultLevel p root _ _ hroot hparse,
    rfl, ?_, rfl, hroot.symm⟩
  simp

/-- Witness for C16: the program `a; b` on a fresh parser: neither identifier resolves,
and one call records the two diagnostics. -/
theorem compile_collects_undefined_witness :
    ∃ q, ParserState.compile
        (UnitParser.parse Ty.getName FullIdentPath.resolve
          (some [IdentExpr.toExpr FullIdentPath.resolve ⟨IdentPath.ofIdent "a", ⟨1, 1, 1, 2⟩⟩,
            IdentExpr.toExpr FullIdentPath.resolve ⟨IdentPath.ofIdent "b", ⟨2, 1, 2, 2⟩⟩]))
        (fun _ => ⟨0, 0, 0, 0⟩) 0 ⟨⟨[], 0⟩, some "main.gdml", none⟩ = .ok q ∧
      q.m_messages =
        [] ++ [(0, ⟨Level.Error, some "main.gdml",
                  undefinedIdentifier (IdentPath.ofIdent "a"), ⟨1, 1, 1, 2⟩⟩),
               (0, ⟨Level.Error, some "main.gdml",
                  undefinedIdentifier (IdentPath.ofIdent "b"), ⟨2, 1, 2, 2⟩⟩)] := by
  obtain ⟨q, hq, hm, _⟩ := compile_collects_undefined Ty.getName FullIdentPath.resolve
    (fun _ => ⟨0, 0, 0, 0⟩) 0 ⟨⟨[], 0⟩, some "main.gdml", none⟩ "main.gdml"
    ⟨IdentPath.ofIdent "a", ⟨1, 1, 1, 2⟩⟩ ⟨IdentPath.ofIdent "b", ⟨2, 1, 2, 2⟩⟩ rfl
    (fun path hp => by cases hp) (fun path hp => by cases hp)
  exact ⟨q, hq, hm⟩

/-! ## Tables do not depend on the order of their pairs -/

theorem contains_perm {κ ν : Type} [DecidableEq κ] (m m' : Map κ ν) (h : List.Perm m m')
    (k : κ) : Map.contains m k = Map.contains m' k := by
  unfold Map.contains
  rw [Bool.eq_iff_iff, List.any_eq_true, List.any_eq_true]
  constructor
  · rintro ⟨x, hx, hk⟩
    exact ⟨x, h.mem_iff.mp hx, hk⟩
  · rintro ⟨x, hx, hk⟩
    exact ⟨x, h.mem_iff.mpr hx, hk⟩

theorem at_of_mem {κ ν : Type} [DecidableEq κ] :
    ∀ (m : Map κ ν) (k : κ) (v : ν), (m.map Prod.fst).Nodup → (k, v) ∈ m →
      Map.at? m k = some v := by
  intro m
  induction m with
  | nil => intro k v _ h; cases h
  | cons x rest ih =>
    intro k v hn hmem
    rw [List.map_cons, List.nodup_cons] at hn
    rcases List.mem_cons.mp hmem with hx | hx
    · subst hx
      simp [Map.at?]
    · have hne : x.1 ≠ k := by
        intro heq
        apply hn.1
        rw [heq]
        exact List.mem_map.mpr ⟨(k, v), hx, rfl⟩
      have := ih k v hn.2 hx
      simpa [Map.at?, List.find?_cons, hne] using this

theorem at_perm {κ ν : Type} [DecidableEq κ] (m m' : Map κ ν) (h : List.Perm m m')
    (hn : (m.map Prod.fst).Nodup) (k : κ) : Map.at? m k = Map.at? m' k := by
  have hn' : (m'.map Prod.fst).Nodup := (h.map Prod.fst).nodup_iff.mp hn
  cases hc : Map.at? m k with
  | some v =>
    have hmem : (k, v) ∈ m := by
      unfold Map.at? at hc
      cases hf : List.find? (fun e => decide (e.1 = k)) m with
      | none => simp [hf] at hc
      | some x =>
        have hx := List.mem_of_find?_eq_some hf
        have hk : x.1 = k := by
          have := List.find?_some hf
          simpa using this
        simp only [hf, Option.map_some', Option.some.injEq] at hc
        have : x = (k, v) := by
          cases x
          simp_all
        rw [← this]
        exact hx
    exact (at_of_mem m' k v hn' (h.mem_iff.mp hmem)).symm
  | none =>
    cases hc' : Map.at? m' k with
    | none => rfl
    | some v =>
      have hmem : (k, v) ∈ m' := by
        unfold Map.at? at hc'
        cases hf : List.find? (fun e => decide (e.1 = k)) m' with
        | none => simp [hf] at hc'
        | some x =>
          have hx := List.mem_of_find?_eq_some hf
          have hk : x.1 = k := by
            have := List.find?_some hf
            simpa using this
          simp only [hf, Option.map_some', Option.some.injEq] at hc'
          have : x = (k, v) := by
            cases x
            simp_all
          rw [← this]
          exact hx
      have := at_of_mem m k v hn (h.mem_iff.mpr hmem)
      rw [hc] at this
      cases this

end gdml
